import Mathlib

/-!
# gortsplib: server session media plane, H264 keyframe detection, MPEG-4 audio config

A shallow embedding of

* `pkg/format/h264.go` (`rtpH264ContainsIDR`, `H264.PTSEqualsDTS`),
* `pkg/aac/mpeg4audioconfig.go` (`MPEG4AudioConfig.Marshal` / `Unmarshal`),
* `server_session_media.go` (`start` and the RTP/RTCP read handlers),

followed by the properties proved about them.

Conventions.  A Go `byte` is a `Fin 256`; Go slices are lists.  Run-time
faults of Go (index or slice out of range) are explicit: the functions that
index return `Except Fault _`.  Calls whose effect lives outside the
embedded functions (callbacks, listeners, the session writer) are recorded,
in program order, in an event trace.
-/

namespace Gortsplib

/-! ## Bytes and packets -/

/-- A Go `byte`. -/
abbrev Byte := Fin 256

/-- Run-time faults of the Go program that the embedding makes explicit, and
the exhaustion of the fuel that bounds a loop. -/
inductive Fault where
  | indexOutOfRange
  | sliceOutOfRange
  | outOfFuel
  deriving DecidableEq, Repr

deriving instance DecidableEq for Except

/-- The fields of `rtp.Header` (pion/rtp) that the repository reads or sets. -/
structure RTPHeader where
  Version : Nat := 0
  Padding : Bool := false
  Extension : Bool := false
  Marker : Bool := false
  PayloadType : Byte := 0
  SequenceNumber : Nat := 0
  Timestamp : Nat := 0
  SSRC : Nat := 0
  CSRC : List Nat := []
  deriving DecidableEq, Repr

/-- The Go type `rtp.Packet`: a header and a payload. -/
structure RTPPacket where
  Header : RTPHeader := {}
  Payload : List Byte := []
  deriving DecidableEq, Repr

/-- Go `p[i]`: faults when `i` is not an index of `p`. -/
def index (p : List Byte) (i : Nat) : Except Fault Byte :=
  match p[i]? with
  | some b => .ok b
  | none => .error .indexOutOfRange

/-- Go `p[lo:]`: faults when `lo > len(p)`. -/
def sliceFrom (p : List Byte) (lo : Nat) : Except Fault (List Byte) :=
  if lo ≤ p.length then .ok (p.drop lo) else .error .sliceOutOfRange

/-- Go `p[:hi]`: faults when `hi > len(p)`. -/
def sliceTo (p : List Byte) (hi : Nat) : Except Fault (List Byte) :=
  if hi ≤ p.length then .ok (p.take hi) else .error .sliceOutOfRange

/-! ## `pkg/format/h264.go` -/

/-- The constant `h264.NALUTypeIDR`. -/
def NALUTypeIDR : Nat := 5

/-- Go `uint16(b0)<<8 | uint16(b1)`. -/
def be16 (b0 b1 : Byte) : Nat :=
  ((b0.val <<< 8) % 65536) ||| b1.val

/-- The `for len(payload) > 0` loop of the STAP-A case of
`rtpH264ContainsIDR`.  Every iteration is one unit of fuel. -/
def stapALoop : Nat → List Byte → Except Fault Bool
  | 0, payload =>
    if payload.length > 0 then .error .outOfFuel else .ok false
  | fuel + 1, payload =>
    if payload.length > 0 then
      if payload.length < 2 then .ok false
      else do
        let b0 ← index payload 0
        let b1 ← index payload 1
        let size := be16 b0 b1
        let payload ← sliceFrom payload 2
        if size = 0 ∨ size > payload.length then pure false
        else do
          let nalu ← sliceTo payload size
          let payload ← sliceFrom payload size
          let n0 ← index nalu 0
          let typ := n0.val &&& 0x1F
          if typ = NALUTypeIDR then pure true
          else stapALoop fuel payload
    else .ok false

/-- The function `rtpH264ContainsIDR`: check whether a RTP/H264 packet
contains a IDR, without decoding the packet. -/
def rtpH264ContainsIDR (pkt : RTPPacket) : Except Fault Bool :=
  if pkt.Payload.length = 0 then .ok false
  else do
    let p0 ← index pkt.Payload 0
    let typ := p0.val &&& 0x1F
    if typ = NALUTypeIDR then pure true
    else if typ = 24 then do
      let payload ← sliceFrom pkt.Payload 1
      stapALoop payload.length payload
    else if typ = 28 then
      if pkt.Payload.length < 2 then pure false
      else do
        let p1 ← index pkt.Payload 1
        let start := p1.val >>> 7
        if start ≠ 1 then pure false
        else
          let typ := p1.val &&& 0x1F
          pure (decide (typ = NALUTypeIDR))
    else pure false

/-- The Go type `format.H264` (the mutex is not modelled).  `none` is a nil
slice. -/
structure H264 where
  PayloadTyp : Byte := 0
  SPS : Option (List Byte) := none
  PPS : Option (List Byte) := none
  PacketizationMode : Int := 0
  deriving DecidableEq, Repr

/-- The method `H264.PTSEqualsDTS`. -/
def H264.PTSEqualsDTS (_t : H264) (pkt : RTPPacket) : Except Fault Bool :=
  rtpH264ContainsIDR pkt

/-! ## Bit streams (the part of `github.com/icza/bitio` the package uses)

`bitio.Reader` and `bitio.Writer` read and write big-endian bit fields over
a byte stream.  A stream is a list of bits, most significant bit of each
byte first. -/

/-- The `n` low bits of `v`, most significant first. -/
def natToBits : Nat → Nat → List Bool
  | 0, _ => []
  | n + 1, v => v.testBit n :: natToBits n v

/-- The number a list of bits spells, most significant bit first. -/
def bitsToNat (bs : List Bool) : Nat :=
  bs.foldl (fun acc b => 2 * acc + b.toNat) 0

/-- The eight bits of a byte. -/
def byteToBits (b : Byte) : List Bool := natToBits 8 b.val

/-- The bits of a byte string. -/
def bytesToBits (bs : List Byte) : List Bool := bs.flatMap byteToBits

/-- The byte spelled by (at most) eight bits. -/
def bitsToByte (bs : List Bool) : Byte := Fin.ofNat (bitsToNat bs)

/-- Whole bytes of a bit string; a trailing group of fewer than eight bits is
padded with zero bits on the right, as `bitio.Writer.Close` does. -/
def packBits : List Bool → List Byte
  | [] => []
  | b7 :: b6 :: b5 :: b4 :: b3 :: b2 :: b1 :: b0 :: rest =>
    bitsToByte [b7, b6, b5, b4, b3, b2, b1, b0] :: packBits rest
  | bs => [bitsToByte (bs ++ List.replicate (8 - bs.length) false)]

/-- A `bitio.Reader` over `bytes.NewBuffer(byts)`: the bits not read yet. -/
structure BitReader where
  bits : List Bool
  deriving DecidableEq, Repr

/-- Go `bitio.NewReader(bytes.NewBuffer(byts))`. -/
def BitReader.new (byts : List Byte) : BitReader := ⟨bytesToBits byts⟩

/-- The method `Reader.ReadBits(n)`: the next `n` bits as a number, or an
error (`io.EOF`) when the stream ends first; `none` is that error. -/
def BitReader.ReadBits (r : BitReader) (n : Nat) : Option (Nat × BitReader) :=
  if r.bits.length < n then none
  else some (bitsToNat (r.bits.take n), ⟨r.bits.drop n⟩)

/-- A `bitio.Writer`: the bits written so far. -/
structure BitWriter where
  bits : List Bool := []
  deriving DecidableEq, Repr

/-- The method `Writer.WriteBits(r, n)`: appends the `n` lowest bits of `r`. -/
def BitWriter.WriteBits (w : BitWriter) (r : Nat) (n : Nat) : BitWriter :=
  ⟨w.bits ++ natToBits n r⟩

/-- The bytes the writer has emitted once `Writer.Close()` has flushed the
last, zero-padded byte. -/
def BitWriter.Close (w : BitWriter) : List Byte := packBits w.bits

/-- Go `uint64(x)` for an `int` `x`. -/
def toUint64 (x : Int) : Nat := (x % 2 ^ 64).toNat

/-! ## `pkg/aac/mpeg4audioconfig.go` -/

/-- The Go type `MPEG4AudioConfig`.  `Typ` is the field `Type` (a reserved
word here); it, `SampleRate` and `ChannelCount` are Go `int`s, `CoreCoderDelay`
is a `uint16`. -/
structure MPEG4AudioConfig where
  Typ : Int := 0
  SampleRate : Int := 0
  ChannelCount : Int := 0
  FrameLengthFlag : Bool := false
  DependsOnCoreCoder : Bool := false
  CoreCoderDelay : Nat := 0
  deriving DecidableEq, Repr

/-- Package-level declarations of `pkg/aac` that the two functions use and
that are declared in another file of the package: the constant
`MPEG4AudioTypeAACLC`, the slice `sampleRates` and the map
`reverseSampleRates`. -/
structure AACTables where
  MPEG4AudioTypeAACLC : Int
  sampleRates : List Int
  reverseSampleRates : Int → Option Int

/-- The errors `Unmarshal` returns. -/
inductive UnmarshalError where
  | eof
  | unsupportedType (typ : Int)
  | invalidSampleRateIndex (i : Nat)
  | notYetSupported
  | invalidChannelConfig (c : Nat)
  | unsupported
  deriving DecidableEq, Repr

/-- How `Unmarshal` stops early: a run-time fault, or an error returned with
the receiver as it has been written up to then. -/
inductive UnmarshalHalt where
  | fault (f : Fault)
  | error (c : MPEG4AudioConfig) (e : UnmarshalError)
  deriving DecidableEq, Repr

/-- The pattern `tmp, err := r.ReadBits(n); if err != nil { return err }`. -/
def readBitsOrReturn (c : MPEG4AudioConfig) (r : BitReader) (n : Nat) :
    Except UnmarshalHalt (Nat × BitReader) :=
  match r.ReadBits n with
  | some x => .ok x
  | none => .error (.error c .eof)

/-- The part of `Unmarshal` that reads the sample rate (the 4-bit index and
the `switch` on it). -/
def unmarshalSampleRate (tbl : AACTables) (c : MPEG4AudioConfig) (r : BitReader) :
    Except UnmarshalHalt (MPEG4AudioConfig × BitReader) := do
  let (sampleRateIndex, r) ← readBitsOrReturn c r 4
  if sampleRateIndex ≤ 12 then
    match tbl.sampleRates[sampleRateIndex]? with
    | some v => pure ({ c with SampleRate := v }, r)
    | none => throw (.fault .indexOutOfRange)
  else if sampleRateIndex = 15 then do
    let (tmp, r) ← readBitsOrReturn c r 24
    pure ({ c with SampleRate := (tmp : Int) }, r)
  else
    throw (.error c (.invalidSampleRateIndex sampleRateIndex))

/-- The part of `Unmarshal` that reads the channel configuration (the 4-bit
field and the `switch` on it). -/
def unmarshalChannelConfig (c : MPEG4AudioConfig) (r : BitReader) :
    Except UnmarshalHalt (MPEG4AudioConfig × BitReader) := do
  let (channelConfig, r) ← readBitsOrReturn c r 4
  if channelConfig = 0 then
    throw (.error c .notYetSupported)
  else if channelConfig ≥ 1 ∧ channelConfig ≤ 6 then
    pure ({ c with ChannelCount := (channelConfig : Int) }, r)
  else if channelConfig = 7 then
    pure ({ c with ChannelCount := 8 }, r)
  else
    throw (.error c (.invalidChannelConfig channelConfig))

/-- The end of `Unmarshal`: the frame length flag, the core coder flag and
delay, and the extension flag. -/
def unmarshalFlags (c : MPEG4AudioConfig) (r : BitReader) :
    Except UnmarshalHalt MPEG4AudioConfig := do
  let (tmp, r) ← readBitsOrReturn c r 1
  let c := { c with FrameLengthFlag := decide (tmp = 1) }
  let (tmp, r) ← readBitsOrReturn c r 1
  let c := { c with DependsOnCoreCoder := decide (tmp = 1) }
  let (c, r) ←
    if c.DependsOnCoreCoder then do
      let (tmp, r) ← readBitsOrReturn c r 14
      pure ({ c with CoreCoderDelay := tmp % 65536 }, r)
    else pure (c, r)
  let (tmp, _) ← readBitsOrReturn c r 1
  let extensionFlag := decide (tmp = 1)
  if extensionFlag then
    throw (.error c .unsupported)
  return c

/-- The method `MPEG4AudioConfig.Unmarshal`, in the order of the source: the type, the
sample rate, the channel configuration, the flags.  The receiver `c` is
updated in place: the result is the receiver after a `nil` return, or the
halt. -/
def MPEG4AudioConfig.Unmarshal (tbl : AACTables) (c : MPEG4AudioConfig) (byts : List Byte) :
    Except UnmarshalHalt MPEG4AudioConfig := do
  let r := BitReader.new byts
  let (tmp, r) ← readBitsOrReturn c r 5
  let c := { c with Typ := (tmp : Int) }
  if c.Typ ≠ tbl.MPEG4AudioTypeAACLC then
    throw (.error c (.unsupportedType c.Typ))
  let (c, r) ← unmarshalSampleRate tbl c r
  let (c, r) ← unmarshalChannelConfig c r
  unmarshalFlags c r

/-- The method `MPEG4AudioConfig.marshalSize`. -/
def MPEG4AudioConfig.marshalSize (tbl : AACTables) (c : MPEG4AudioConfig) : Nat :=
  let n := 5 + 4 + 3
  let n := match tbl.reverseSampleRates c.SampleRate with
    | none => n + 28
    | some _ => n + 4
  let n := if c.DependsOnCoreCoder then n + 14 else n
  let ret := n / 8
  if n % 8 ≠ 0 then ret + 1 else ret

/-- The errors `Marshal` returns. -/
inductive MarshalError where
  | invalidChannelCount (n : Int)
  deriving DecidableEq, Repr

/-- What `buf` holds after a `bytes.Buffer` created on `buf[:0]` has received
`written`: the bytes that fit its capacity `len(buf)`, over zeros. -/
def bufferAfterWrites (size : Nat) (written : List Byte) : List Byte :=
  (written ++ List.replicate size 0).take size

/-- The method `MPEG4AudioConfig.Marshal`. -/
def MPEG4AudioConfig.Marshal (tbl : AACTables) (c : MPEG4AudioConfig) :
    Except MarshalError (List Byte) := do
  let size := c.marshalSize tbl
  let w : BitWriter := {}
  let w := w.WriteBits (toUint64 c.Typ) 5
  let w := match tbl.reverseSampleRates c.SampleRate with
    | none => (w.WriteBits 15 4).WriteBits (toUint64 c.SampleRate) 24
    | some sampleRateIndex => w.WriteBits (toUint64 sampleRateIndex) 4
  let channelConfig : Int ←
    if c.ChannelCount ≥ 1 ∧ c.ChannelCount ≤ 6 then pure c.ChannelCount
    else if c.ChannelCount = 8 then pure 7
    else throw (.invalidChannelCount c.ChannelCount)
  let w := w.WriteBits (toUint64 channelConfig) 4
  let w := if c.FrameLengthFlag then w.WriteBits 1 1 else w.WriteBits 0 1
  let w := if c.DependsOnCoreCoder then w.WriteBits 1 1 else w.WriteBits 0 1
  let w := if c.DependsOnCoreCoder then w.WriteBits c.CoreCoderDelay 14 else w
  return bufferAfterWrites size w.Close

/-! ## `server_session_media.go` -/

/-- The Go type `ServerSessionState`.  Its declaration is in a file of the
repository that is not embedded here; the states are those the specification
lists for the server (`ServerSessionStatePlay` is `Play`, and so on). -/
inductive ServerSessionState where
  | Initial
  | PrePlay
  | Play
  | PreRecord
  | Record
  deriving DecidableEq, Repr

/-- The Go type `Transport` (`TransportUDP`, `TransportUDPMulticast`,
`TransportTCP`), declared in a file of the repository that is not embedded
here. -/
inductive Transport where
  | UDP
  | UDPMulticast
  | TCP
  deriving DecidableEq, Repr

/-- A value of the interface `format.Format`, as far as the session medium
uses it: its payload type. -/
structure Format where
  PayloadTyp : Byte
  deriving DecidableEq, Repr

/-- The method `Format.PayloadType`. -/
def Format.PayloadType (f : Format) : Byte := f.PayloadTyp

/-- The Go type `media.Media`: the formats of a medium. -/
structure Media where
  Formats : List Format := []
  deriving DecidableEq, Repr

/-- The Go type `rtcp.SenderReport`, as far as it is used. -/
structure SenderReport where
  SSRC : Nat := 0
  NTPTime : Nat := 0
  RTPTime : Nat := 0
  PacketCount : Nat := 0
  OctetCount : Nat := 0
  deriving DecidableEq, Repr

/-- The Go type `rtcp.ReceiverReport`; `ReceiverReport{}` is the default
value, with no reception report. -/
structure ReceiverReport where
  SSRC : Nat := 0
  Reports : List Nat := []
  ProfileExtensions : List Byte := []
  deriving DecidableEq, Repr

/-- A value of the interface `rtcp.Packet`. -/
inductive RTCPPacket where
  | SenderReport (sr : SenderReport)
  | ReceiverReport (rr : ReceiverReport)
  | Other (raw : List Byte)
  deriving DecidableEq, Repr

/-- The Go type `base.InterleavedFrame`. -/
structure InterleavedFrame where
  Channel : Int
  Payload : List Byte := []
  deriving DecidableEq, Repr

/-- Modelled from the spec: the per-format state a medium owns (the Go type
`serverSessionFormat`, declared in a file that is not among the sources),
reduced to the format it belongs to.  Its methods (`start`, `stop`,
`readRTPUDP`, `readRTPTCP`) appear as events of the traces below. -/
structure serverSessionFormat where
  format : Format
  deriving DecidableEq, Repr

/-- The fields of `ServerSession` that the session medium reads: the state,
the transport chosen at SETUP (`*ss.setuppedTransport`) and the IP of the
author connection (`ss.author.ip()`). -/
structure ServerSession where
  state : ServerSessionState
  setuppedTransport : Transport
  authorIP : Nat := 0
  deriving DecidableEq, Repr

/-- The methods a write hook of the medium can be bound to. -/
inductive WriteFn where
  | writePacketRTPInQueueUDP
  | writePacketRTCPInQueueUDP
  | writePacketRTPInQueueTCP
  | writePacketRTCPInQueueTCP
  deriving DecidableEq, Repr

/-- The methods a read hook of the medium can be bound to. -/
inductive ReadFn where
  | readRTCPUDPPlay
  | readRTPUDPRecord
  | readRTCPUDPRecord
  | readRTPTCPPlay
  | readRTCPTCPPlay
  | readRTPTCPRecord
  | readRTCPTCPRecord
  deriving DecidableEq, Repr

/-- The Go type `serverSessionMedia`.  A Go map is an association list with
distinct keys, a nil pointer or function value is `none`. -/
structure serverSessionMedia where
  ss : ServerSession
  media : Media := {}
  tcpChannel : Int := 0
  udpRTPReadPort : Int := 0
  udpRTCPReadPort : Int := 0
  tcpRTPFrame : Option InterleavedFrame := none
  tcpRTCPFrame : Option InterleavedFrame := none
  tcpBuffer : List Byte := []
  formats : List (Byte × serverSessionFormat) := []
  writePacketRTPInQueue : Option WriteFn := none
  writePacketRTCPInQueue : Option WriteFn := none
  readRTP : Option ReadFn := none
  readRTCP : Option ReadFn := none
  deriving DecidableEq, Repr

/-- Go `m[k] = v` on a map. -/
def mapInsert (m : List (Byte × serverSessionFormat)) (k : Byte) (v : serverSessionFormat) :
    List (Byte × serverSessionFormat) :=
  match m with
  | [] => [(k, v)]
  | (k1, v1) :: rest => if k1 = k then (k, v) :: rest else (k1, v1) :: mapInsert rest k v

/-- Go `v, ok := m[k]` on a map. -/
def mapLookup (m : List (Byte × serverSessionFormat)) (k : Byte) : Option serverSessionFormat :=
  match m with
  | [] => none
  | (k1, v1) :: rest => if k1 = k then some v1 else mapLookup rest k

/-- Modelled from the spec: the constructor `newServerSessionFormat`, declared
with `serverSessionFormat`; it makes the state of one format. -/
def newServerSessionFormat (forma : Format) : serverSessionFormat := { format := forma }

/-- The function `newServerSessionMedia`. -/
def newServerSessionMedia (ss : ServerSession) (medi : Media) : serverSessionMedia :=
  let sm : serverSessionMedia := { ss := ss, media := medi }
  if ss.state = ServerSessionState.PreRecord then
    { sm with formats :=
        medi.Formats.foldl (fun m forma => mapInsert m forma.PayloadType (newServerSessionFormat forma)) [] }
  else sm

/-- What `start` does outside the medium, in program order. -/
inductive StartEvent where
  | formatStart (sf : serverSessionFormat)
  | WritePacketRTP (medi : Media) (pkt : RTPPacket)
  | WritePacketRTCP (medi : Media) (pkt : RTCPPacket)
  | udpRTPListenerAddClient (ip : Nat) (port : Int)
  | udpRTCPListenerAddClient (ip : Nat) (port : Int)
  deriving DecidableEq, Repr

/-- The method `serverSessionMedia.start`: the medium after the call and the calls made,
given the build constant `maxPacketSize`. -/
def serverSessionMedia.start (maxPacketSize : Nat) (sm : serverSessionMedia) :
    serverSessionMedia × List StartEvent :=
  let ev : List StartEvent := sm.formats.map (fun kv => StartEvent.formatStart kv.2)
  let sm : serverSessionMedia :=
    match sm.ss.setuppedTransport with
    | .UDP | .UDPMulticast =>
      let sm := { sm with
        writePacketRTPInQueue := some .writePacketRTPInQueueUDP
        writePacketRTCPInQueue := some .writePacketRTCPInQueueUDP }
      if sm.ss.state = ServerSessionState.Play then
        { sm with readRTCP := some .readRTCPUDPPlay }
      else
        { sm with readRTP := some .readRTPUDPRecord, readRTCP := some .readRTCPUDPRecord }
    | .TCP =>
      let sm := { sm with
        writePacketRTPInQueue := some .writePacketRTPInQueueTCP
        writePacketRTCPInQueue := some .writePacketRTCPInQueueTCP }
      let sm :=
        if sm.ss.state = ServerSessionState.Play then
          { sm with readRTP := some .readRTPTCPPlay, readRTCP := some .readRTCPTCPPlay }
        else
          { sm with readRTP := some .readRTPTCPRecord, readRTCP := some .readRTCPTCPRecord }
      { sm with
        tcpRTPFrame := some { Channel := sm.tcpChannel }
        tcpRTCPFrame := some { Channel := sm.tcpChannel + 1 }
        tcpBuffer := List.replicate (maxPacketSize + 4) 0 }
  if sm.ss.setuppedTransport = Transport.UDP then
    if sm.ss.state = ServerSessionState.Play then
      (sm, ev ++ [.udpRTCPListenerAddClient sm.ss.authorIP sm.udpRTCPReadPort])
    else
      (sm, ev ++
        [ .WritePacketRTP sm.media { Header := { Version := 2 } },
          .WritePacketRTCP sm.media (.ReceiverReport {}),
          .udpRTPListenerAddClient sm.ss.authorIP sm.udpRTPReadPort,
          .udpRTCPListenerAddClient sm.ss.authorIP sm.udpRTCPReadPort ])
  else (sm, ev)

/-- The errors the read handlers build, and those of the packet decoders. -/
inductive ReadError where
  | rtpTooBigUDP
  | rtcpTooBigUDP
  | rtcpTooBigTCP (len : Nat) (max : Nat)
  | unknownPayloadType (pt : Byte)
  | decode (msg : String)
  deriving DecidableEq, Repr

/-- What a read handler does outside the medium, in program order. -/
inductive ReadEvent where
  | addBytesReceived (n : Nat)
  | onWarning (err : ReadError)
  | storeUDPLastPacketTime (now : Int)
  | formatReadRTPUDP (sf : serverSessionFormat) (pkt : RTPPacket) (now : Int)
  | formatReadRTPTCP (sf : serverSessionFormat) (pkt : RTPPacket)
  | ProcessSenderReport (sf : serverSessionFormat) (sr : SenderReport) (now : Int)
  | onPacketRTCP (pkt : RTCPPacket)
  deriving DecidableEq, Repr

/-- What the read handlers take from outside `server_session_media.go`: the
packet decoders of pion (`rtp.Packet.Unmarshal`, `rtcp.Unmarshal`), the
build constant `maxPacketSize`, the clock (`time.Now()`) and the function
`serverFindFormatWithSSRC`. -/
structure ReadEnv where
  rtpUnmarshal : List Byte → Except String RTPPacket
  rtcpUnmarshal : List Byte → Except String (List RTCPPacket)
  maxPacketSize : Nat
  now : Int
  serverFindFormatWithSSRC : List (Byte × serverSessionFormat) → Nat → Option serverSessionFormat

/-- The method `serverSessionMedia.readRTCPUDPPlay`: the calls made and the error returned
(`none` is `nil`). -/
def serverSessionMedia.readRTCPUDPPlay (env : ReadEnv) (_sm : serverSessionMedia)
    (payload : List Byte) : List ReadEvent × Option ReadError :=
  let plen := payload.length
  let ev := [ReadEvent.addBytesReceived plen]
  if plen = env.maxPacketSize + 1 then
    (ev ++ [.onWarning .rtcpTooBigUDP], none)
  else
    match env.rtcpUnmarshal payload with
    | .error err => (ev ++ [.onWarning (.decode err)], none)
    | .ok packets =>
      (ev ++ [.storeUDPLastPacketTime env.now] ++ packets.map .onPacketRTCP, none)

/-- The method `serverSessionMedia.readRTPUDPRecord`. -/
def serverSessionMedia.readRTPUDPRecord (env : ReadEnv) (sm : serverSessionMedia)
    (payload : List Byte) : List ReadEvent × Option ReadError :=
  let plen := payload.length
  let ev := [ReadEvent.addBytesReceived plen]
  if plen = env.maxPacketSize + 1 then
    (ev ++ [.onWarning .rtpTooBigUDP], none)
  else
    match env.rtpUnmarshal payload with
    | .error err => (ev ++ [.onWarning (.decode err)], none)
    | .ok pkt =>
      match mapLookup sm.formats pkt.Header.PayloadType with
      | none => (ev ++ [.onWarning (.unknownPayloadType pkt.Header.PayloadType)], none)
      | some forma =>
        (ev ++ [.storeUDPLastPacketTime env.now, .formatReadRTPUDP forma pkt env.now], none)

/-- The first loop of `readRTCPUDPRecord`: sender reports go to the RTCP
receiver of the format that has their SSRC. -/
def processSenderReports (env : ReadEnv) (sm : serverSessionMedia) :
    List RTCPPacket → List ReadEvent
  | [] => []
  | .SenderReport sr :: rest =>
    match env.serverFindFormatWithSSRC sm.formats sr.SSRC with
    | some format => .ProcessSenderReport format sr env.now :: processSenderReports env sm rest
    | none => processSenderReports env sm rest
  | _ :: rest => processSenderReports env sm rest

/-- The method `serverSessionMedia.readRTCPUDPRecord`. -/
def serverSessionMedia.readRTCPUDPRecord (env : ReadEnv) (sm : serverSessionMedia)
    (payload : List Byte) : List ReadEvent × Option ReadError :=
  let plen := payload.length
  let ev := [ReadEvent.addBytesReceived plen]
  if plen = env.maxPacketSize + 1 then
    (ev ++ [.onWarning .rtcpTooBigUDP], none)
  else
    match env.rtcpUnmarshal payload with
    | .error err => (ev ++ [.onWarning (.decode err)], none)
    | .ok packets =>
      (ev ++ [.storeUDPLastPacketTime env.now] ++ processSenderReports env sm packets
        ++ packets.map .onPacketRTCP, none)

/-- The method `serverSessionMedia.readRTPTCPPlay`. -/
def serverSessionMedia.readRTPTCPPlay (_env : ReadEnv) (_sm : serverSessionMedia)
    (_payload : List Byte) : List ReadEvent × Option ReadError :=
  ([], none)

/-- The method `serverSessionMedia.readRTCPTCPPlay`. -/
def serverSessionMedia.readRTCPTCPPlay (env : ReadEnv) (_sm : serverSessionMedia)
    (payload : List Byte) : List ReadEvent × Option ReadError :=
  if payload.length > env.maxPacketSize then
    ([.onWarning (.rtcpTooBigTCP payload.length env.maxPacketSize)], none)
  else
    match env.rtcpUnmarshal payload with
    | .error err => ([.onWarning (.decode err)], none)
    | .ok packets => (packets.map .onPacketRTCP, none)

/-- The method `serverSessionMedia.readRTPTCPRecord`. -/
def serverSessionMedia.readRTPTCPRecord (env : ReadEnv) (sm : serverSessionMedia)
    (payload : List Byte) : List ReadEvent × Option ReadError :=
  match env.rtpUnmarshal payload with
  | .error err => ([], some (.decode err))
  | .ok pkt =>
    match mapLookup sm.formats pkt.Header.PayloadType with
    | none => ([.onWarning (.unknownPayloadType pkt.Header.PayloadType)], none)
    | some forma => ([.formatReadRTPTCP forma pkt], none)

/-- The method `serverSessionMedia.readRTCPTCPRecord`. -/
def serverSessionMedia.readRTCPTCPRecord (env : ReadEnv) (_sm : serverSessionMedia)
    (payload : List Byte) : List ReadEvent × Option ReadError :=
  if payload.length > env.maxPacketSize then
    ([.onWarning (.rtcpTooBigTCP payload.length env.maxPacketSize)], none)
  else
    match env.rtcpUnmarshal payload with
    | .error err => ([.onWarning (.decode err)], none)
    | .ok packets => (packets.map .onPacketRTCP, none)

/-- The handler a `ReadFn` value names. -/
def ReadFn.run (f : ReadFn) (env : ReadEnv) (sm : serverSessionMedia) (payload : List Byte) :
    List ReadEvent × Option ReadError :=
  match f with
  | .readRTCPUDPPlay => sm.readRTCPUDPPlay env payload
  | .readRTPUDPRecord => sm.readRTPUDPRecord env payload
  | .readRTCPUDPRecord => sm.readRTCPUDPRecord env payload
  | .readRTPTCPPlay => sm.readRTPTCPPlay env payload
  | .readRTCPTCPPlay => sm.readRTCPTCPPlay env payload
  | .readRTPTCPRecord => sm.readRTPTCPRecord env payload
  | .readRTCPTCPRecord => sm.readRTCPTCPRecord env payload

/-- The warnings of a trace, in order. -/
def warningsOf (ev : List ReadEvent) : List ReadError :=
  ev.filterMap (fun e => match e with
    | .onWarning err => some err
    | _ => none)

/-- The packets a trace hands to a format (`readRTPUDP` or `readRTPTCP`). -/
def forwardedOf (ev : List ReadEvent) : List RTPPacket :=
  ev.filterMap (fun e => match e with
    | .formatReadRTPUDP _ pkt _ => some pkt
    | .formatReadRTPTCP _ pkt => some pkt
    | _ => none)

/-- The packets a trace delivers to `onPacketRTCP`. -/
def deliveredRTCPOf (ev : List ReadEvent) : List RTCPPacket :=
  ev.filterMap (fun e => match e with
    | .onPacketRTCP pkt => some pkt
    | _ => none)

/-- The packets `start` writes: RTP on the left, RTCP on the right. -/
def writesOf (ev : List StartEvent) : List (RTPPacket ⊕ RTCPPacket) :=
  ev.filterMap (fun e => match e with
    | .WritePacketRTP _ pkt => some (.inl pkt)
    | .WritePacketRTCP _ pkt => some (.inr pkt)
    | _ => none)

/-- The `(ip, port)` pairs `start` registers with the UDP RTP listener. -/
def rtpClientsOf (ev : List StartEvent) : List (Nat × Int) :=
  ev.filterMap (fun e => match e with
    | .udpRTPListenerAddClient ip port => some (ip, port)
    | _ => none)

/-- The `(ip, port)` pairs `start` registers with the UDP RTCP listener. -/
def rtcpClientsOf (ev : List StartEvent) : List (Nat × Int) :=
  ev.filterMap (fun e => match e with
    | .udpRTCPListenerAddClient ip port => some (ip, port)
    | _ => none)

/-! ### Sample values, for evaluating the handlers on concrete datagrams -/

/-- A decoder of RTP packets that have the 12-byte fixed header of RFC 3550,
without CSRC entries and without a header extension. -/
def fixedHeaderRTPUnmarshal (buf : List Byte) : Except String RTPPacket :=
  match buf with
  | b0 :: b1 :: s0 :: s1 :: t0 :: t1 :: t2 :: t3 :: c0 :: c1 :: c2 :: c3 :: payload =>
    if b0.val &&& 0x1F ≠ 0 then .error "CSRC entries and extensions are not decoded"
    else .ok
      { Header :=
          { Version := b0.val >>> 6
            Padding := decide ((b0.val >>> 5) &&& 1 = 1)
            Marker := decide (b1.val >>> 7 = 1)
            PayloadType := Fin.ofNat (b1.val &&& 0x7F)
            SequenceNumber := be16 s0 s1
            Timestamp := be16 t0 t1 * 65536 + be16 t2 t3
            SSRC := be16 c0 c1 * 65536 + be16 c2 c3 }
        Payload := payload }
  | _ => .error "RTP header size insufficient"

/-- A decoder of RTCP datagrams that keeps a datagram of at least one 4-byte
header as one undecoded packet. -/
def rawRTCPUnmarshal (buf : List Byte) : Except String (List RTCPPacket) :=
  if buf.length < 4 then .error "rtcp: packet too short" else .ok [.Other buf]

/-- An environment with the sample decoders and `maxPacketSize = 1472`. -/
def sampleEnv : ReadEnv where
  rtpUnmarshal := fixedHeaderRTPUnmarshal
  rtcpUnmarshal := rawRTCPUnmarshal
  maxPacketSize := 1472
  now := 1000
  serverFindFormatWithSSRC := fun _ _ => none

/-- A recording medium with one format, of payload type 96. -/
def sampleRecordMedia (transport : Transport) : serverSessionMedia :=
  { ss := { state := .Record, setuppedTransport := transport, authorIP := 0x7F000001 }
    media := { Formats := [{ PayloadTyp := 96 }] }
    tcpChannel := 4
    udpRTPReadPort := 40000
    udpRTCPReadPort := 40001
    formats := [(96, { format := { PayloadTyp := 96 } })] }

/-- A playing medium with one format, of payload type 96. -/
def samplePlayMedia (transport : Transport) : serverSessionMedia :=
  { ss := { state := .Play, setuppedTransport := transport, authorIP := 0x7F000001 }
    media := { Formats := [{ PayloadTyp := 96 }] }
    tcpChannel := 4
    udpRTPReadPort := 40000
    udpRTCPReadPort := 40001 }

/-- An RTP datagram: version 2, payload type 97, sequence number 1, one
payload byte. -/
def sampleDatagram97 : List Byte :=
  [0x80, 97, 0, 1, 0, 0, 0, 0, 0, 0, 0, 1, 0xAA]

/-! ### Auxiliary values for `pkg/aac` -/

/-- The bits `Marshal` writes for `c`, field by field, when the channel
configuration it computes is `channelConfig`. -/
def marshalBits (tbl : AACTables) (c : MPEG4AudioConfig) (channelConfig : Int) : List Bool :=
  natToBits 5 (toUint64 c.Typ) ++
    ((match tbl.reverseSampleRates c.SampleRate with
      | none => natToBits 4 15 ++ natToBits 24 (toUint64 c.SampleRate)
      | some i => natToBits 4 (toUint64 i)) ++
    (natToBits 4 (toUint64 channelConfig) ++
    (natToBits 1 (if c.FrameLengthFlag then 1 else 0) ++
    (natToBits 1 (if c.DependsOnCoreCoder then 1 else 0) ++
    (if c.DependsOnCoreCoder then natToBits 14 c.CoreCoderDelay else [])))))

/-- The sampling frequencies of ISO 14496-3, by sampling frequency index. -/
def isoSampleRates : List Int :=
  [96000, 88200, 64000, 48000, 44100, 32000, 24000, 22050, 16000, 12000, 11025, 8000, 7350]

/-- The package-level declarations with the values of ISO 14496-3: audio object
type 2 for AAC-LC, the sampling frequency table, and the map from a sampling
frequency to its index. -/
def isoTables : AACTables where
  MPEG4AudioTypeAACLC := 2
  sampleRates := isoSampleRates
  reverseSampleRates := fun r =>
    if r = 96000 then some 0
    else if r = 88200 then some 1
    else if r = 64000 then some 2
    else if r = 48000 then some 3
    else if r = 44100 then some 4
    else if r = 32000 then some 5
    else if r = 24000 then some 6
    else if r = 22050 then some 7
    else if r = 16000 then some 8
    else if r = 12000 then some 9
    else if r = 11025 then some 10
    else if r = 8000 then some 11
    else if r = 7350 then some 12
    else none

/-- What it means that `reverseSampleRates` is the inverse of the 13-entry
table `sampleRates`: it maps `r` to `i` exactly when `i` is an index of the
table, below 13, at which the table holds `r`. -/
def AACTables.Inverse (tbl : AACTables) : Prop :=
  ∀ r i, tbl.reverseSampleRates r = some i ↔
    (0 ≤ i ∧ i < 13 ∧ tbl.sampleRates[i.toNat]? = some r)

/-! ### STAP-A payloads, as the payload format describes them -/

/-- The 2-byte big-endian size field of a NALU of `n` bytes. -/
def sizePrefix (n : Nat) : List Byte := [Fin.ofNat (n / 256), Fin.ofNat n]

/-- The body of a STAP-A payload (what follows its first byte) that
aggregates `nalus`: each NALU after its size field. -/
def stapAUnits (nalus : List (List Byte)) : List Byte :=
  nalus.flatMap (fun n => sizePrefix n.length ++ n)

/-- The NAL unit type of a NALU: the low 5 bits of its first byte. -/
def naluType (nalu : List Byte) : Option Nat := nalu.head?.map (fun b => b.val % 32)

/-- A NALU that a STAP-A can carry: not empty, with a size that fits the
16-bit size field. -/
def IsNALU (n : List Byte) : Prop := 0 < n.length ∧ n.length < 65536

/-- Walking the size-prefixed NALUs of a STAP-A body from its start reaches
an IDR NALU before anything malformed: the body starts with well-formed
units, then a well-formed unit whose NALU has type 5. -/
def ReachesIDR (body : List Byte) : Prop :=
  ∃ pre idr post, (∀ n ∈ pre, IsNALU n) ∧ IsNALU idr ∧ naluType idr = some 5 ∧
    body = stapAUnits pre ++ (sizePrefix idr.length ++ idr) ++ post

/-! ## Go strings, and the standard library functions `pkg/format/h264.go` calls -/

/-- A Go `string`, as its sequence of characters. -/
abbrev GoString := List Char

/-- Go `strings.Split(s, sep)` for a separator of one character: the pieces
of `s` between the separators; an empty `s` has the one piece `""`. -/
def stringsSplit (sep : Char) : GoString → List GoString
  | [] => [[]]
  | c :: cs =>
    if c = sep then [] :: stringsSplit sep cs
    else
      match stringsSplit sep cs with
      | [] => [[c]]
      | piece :: pieces => (c :: piece) :: pieces

/-- Go `strings.Join(parts, sep)` for a separator of one character. -/
def stringsJoin (sep : Char) : List GoString → GoString
  | [] => []
  | [p] => p
  | p :: q :: rest => p ++ sep :: stringsJoin sep (q :: rest)

/-- The decimal digit of a number below ten. -/
def digitChar (d : Nat) : Char :=
  match d with
  | 0 => '0' | 1 => '1' | 2 => '2' | 3 => '3' | 4 => '4'
  | 5 => '5' | 6 => '6' | 7 => '7' | 8 => '8' | _ => '9'

/-- The value of a decimal digit, `none` for any other character. -/
def digitValue (c : Char) : Option Nat :=
  if c = '0' then some 0 else if c = '1' then some 1 else if c = '2' then some 2
  else if c = '3' then some 3 else if c = '4' then some 4 else if c = '5' then some 5
  else if c = '6' then some 6 else if c = '7' then some 7 else if c = '8' then some 8
  else if c = '9' then some 9 else none

/-- The decimal digits of a positive number, most significant first; one unit
of fuel per digit. -/
def decimalDigits : Nat → Nat → GoString
  | 0, _ => []
  | fuel + 1, n => if n = 0 then [] else decimalDigits fuel (n / 10) ++ [digitChar (n % 10)]

/-- The decimal numeral of a natural number. -/
def formatNat (n : Nat) : GoString :=
  if n = 0 then ['0'] else decimalDigits n n

/-- Go `strconv.FormatInt(i, 10)`. -/
def FormatInt (i : Int) : GoString :=
  if i < 0 then '-' :: formatNat i.natAbs else formatNat i.natAbs

/-- The number a string of decimal digits spells, after `acc`; `none` when a
character is not a digit. -/
def parseDigits : GoString → Nat → Option Nat
  | [], acc => some acc
  | c :: cs, acc =>
    match digitValue c with
    | some d => parseDigits cs (10 * acc + d)
    | none => none

/-- The number a non-empty string of decimal digits spells. -/
def parseNat (s : GoString) : Option Nat :=
  if s = [] then none else parseDigits s 0

/-- Go `strconv.ParseInt(s, 10, 64)`: an optional sign, then decimal digits,
within the range of `int64`; `none` is an error. -/
def ParseInt (s : GoString) : Option Int :=
  match s with
  | [] => none
  | c :: rest =>
    if c = '+' then
      match parseNat rest with
      | some n => if n < 2 ^ 63 then some (n : Int) else none
      | none => none
    else if c = '-' then
      match parseNat rest with
      | some n => if n ≤ 2 ^ 63 then some (-(n : Int)) else none
      | none => none
    else
      match parseNat (c :: rest) with
      | some n => if n < 2 ^ 63 then some (n : Int) else none
      | none => none

/-- A lower-case hexadecimal digit. -/
def hexDigit (d : Nat) : Char :=
  match d with
  | 0 => '0' | 1 => '1' | 2 => '2' | 3 => '3' | 4 => '4' | 5 => '5' | 6 => '6' | 7 => '7'
  | 8 => '8' | 9 => '9' | 10 => 'a' | 11 => 'b' | 12 => 'c' | 13 => 'd' | 14 => 'e' | _ => 'f'

/-- Go `hex.EncodeToString`. -/
def hexEncodeToString (b : List Byte) : GoString :=
  b.flatMap (fun x => [hexDigit (x.val / 16), hexDigit (x.val % 16)])

/-- Go `strings.ToUpper`, on the ASCII strings it is applied to. -/
def stringsToUpper (s : GoString) : GoString := s.map Char.toUpper

/-- The two functions of `base64.StdEncoding` the format uses.  They belong
to the Go standard library and are taken as given; `none` is a decoding
error. -/
structure Base64 where
  EncodeToString : List Byte → GoString
  DecodeString : GoString → Option (List Byte)

/-- What the format relies on from base64: decoding undoes encoding, the
empty string decodes to no bytes, and a comma occurs neither in an encoding
nor in a string that decodes. -/
def Base64.Lawful (b64 : Base64) : Prop :=
  (∀ b, b64.DecodeString (b64.EncodeToString b) = some b) ∧
  (∀ b, ',' ∉ b64.EncodeToString b) ∧
  b64.DecodeString [] = some [] ∧
  (∀ p b, b64.DecodeString p = some b → ',' ∉ p)

/-- A Go `map[string]string`: its entries, with distinct keys, in the order
a `range` visits them. -/
abbrev Fmtp := List (GoString × GoString)

/-- Go `m[k] = v` on a `map[string]string`. -/
def fmtpSet (m : Fmtp) (k v : GoString) : Fmtp :=
  match m with
  | [] => [(k, v)]
  | (k1, v1) :: rest => if k1 = k then (k, v) :: rest else (k1, v1) :: fmtpSet rest k v

/-- Go `v, ok := m[k]` on a `map[string]string`. -/
def fmtpGet (m : Fmtp) (k : GoString) : Option GoString :=
  match m with
  | [] => none
  | (k1, v1) :: rest => if k1 = k then some v1 else fmtpGet rest k

/-! ## `pkg/format/h264.go`: SDP parameters -/

/-- The method `H264.ClockRate`. -/
def H264.ClockRate (_t : H264) : Int := 90000

/-- The method `H264.PayloadType`. -/
def H264.PayloadType (t : H264) : Byte := t.PayloadTyp

/-- The errors `H264.unmarshal` returns. -/
inductive H264Error where
  | invalidSpropParameterSets (val : GoString)
  | invalidPacketizationMode (val : GoString)
  deriving DecidableEq, Repr

/-- One iteration of the loop `for key, val := range fmtp` of `H264.unmarshal`:
the receiver after it, or the error returned.  The pattern `p0 :: p1 :: _`
is `len(tmp2) >= 2` with `tmp2[0]` and `tmp2[1]`; `SPS` and `PPS` are assigned
only after both pieces have decoded. -/
def H264.unmarshalEntry (b64 : Base64) (t : H264) (key val : GoString) :
    Except H264Error H264 :=
  if key = "sprop-parameter-sets".toList then
    match stringsSplit ',' val with
    | p0 :: p1 :: _ =>
      match b64.DecodeString p0 with
      | none => .error (.invalidSpropParameterSets val)
      | some sps =>
        match b64.DecodeString p1 with
        | none => .error (.invalidSpropParameterSets val)
        | some pps => .ok { t with SPS := some sps, PPS := some pps }
    | _ => .ok t
  else if key = "packetization-mode".toList then
    match ParseInt val with
    | none => .error (.invalidPacketizationMode val)
    | some tmp2 => .ok { t with PacketizationMode := tmp2 }
  else .ok t

/-- The loop `for key, val := range fmtp` of `H264.unmarshal`: the receiver
when the function returns, and the error returned (`none` is `nil`). -/
def H264.unmarshalLoop (b64 : Base64) : Fmtp → H264 → H264 × Option H264Error
  | [], t => (t, none)
  | (key, val) :: rest, t =>
    match t.unmarshalEntry b64 key val with
    | .error e => (t, some e)
    | .ok t => H264.unmarshalLoop b64 rest t

/-- The method `H264.unmarshal`. -/
def H264.unmarshal (b64 : Base64) (t : H264) (payloadType : Byte)
    (_clock _codec _rtpmap : GoString) (fmtp : Fmtp) : H264 × Option H264Error :=
  let t := { t with PayloadTyp := payloadType }
  H264.unmarshalLoop b64 fmtp t

/-- The method `H264.Marshal`: the rtpmap and the fmtp map, its entries in
the order they are set.  The slice `tmp2` starts nil and is only appended
to, so `tmp2 != nil` is `tmp2 ≠ []`; `len` of a nil `SPS` is 0. -/
def H264.Marshal (b64 : Base64) (t : H264) : GoString × Fmtp :=
  let fmtp : Fmtp := []
  let fmtp :=
    if t.PacketizationMode ≠ 0 then
      fmtpSet fmtp "packetization-mode".toList (FormatInt t.PacketizationMode)
    else fmtp
  let tmp2 : List GoString := []
  let tmp2 := match t.SPS with
    | some sps => tmp2 ++ [b64.EncodeToString sps]
    | none => tmp2
  let tmp2 := match t.PPS with
    | some pps => tmp2 ++ [b64.EncodeToString pps]
    | none => tmp2
  let fmtp :=
    if tmp2 ≠ [] then fmtpSet fmtp "sprop-parameter-sets".toList (stringsJoin ',' tmp2)
    else fmtp
  let fmtp :=
    if (t.SPS.getD []).length ≥ 4 then
      fmtpSet fmtp "profile-level-id".toList
        (stringsToUpper (hexEncodeToString (((t.SPS.getD []).drop 1).take 3)))
    else fmtp
  ("H264/90000".toList, fmtp)

/-! ### The body of the STAP-A loop, and further sample values -/

/-- One iteration of the STAP-A loop of `rtpH264ContainsIDR`, entered with
`len(payload) > 0`: the value the function returns from inside the loop
(left), or the payload the next iteration starts with (right). -/
def stapAStep (payload : List Byte) : Except Fault (Bool ⊕ List Byte) :=
  if payload.length < 2 then .ok (.inl false)
  else do
    let b0 ← index payload 0
    let b1 ← index payload 1
    let size := be16 b0 b1
    let payload ← sliceFrom payload 2
    if size = 0 ∨ size > payload.length then pure (.inl false)
    else do
      let nalu ← sliceTo payload size
      let payload ← sliceFrom payload size
      let n0 ← index nalu 0
      let typ := n0.val &&& 0x1F
      if typ = NALUTypeIDR then pure (.inl true)
      else pure (.inr payload)

/-- An RTP datagram of 1485 bytes: version 2, payload type 96, sequence
number 1, and a payload of 1473 zero bytes. -/
def sampleOversizeDatagram96 : List Byte :=
  [0x80, 96, 0, 1, 0, 0, 0, 0, 0, 0, 0, 1] ++ List.replicate 1473 0

/-! ### The layout of an MPEG-4 audio config, as ISO 14496-3 describes it -/

/-- The `n`-bit big-endian field at bit offset `off` of a bit string. -/
def fieldAt (bits : List Bool) (off n : Nat) : Nat :=
  bitsToNat ((bits.drop off).take n)

/-- The offset of the 4-bit channel configuration: after the 5-bit type, the
4-bit sample-rate index and, when that index is 15, the 24-bit sample rate. -/
def channelConfigOffset (bits : List Bool) : Nat :=
  if fieldAt bits 5 4 = 15 then 33 else 9

/-- The offset of the extension flag: after the channel configuration, the
frame-length flag, the depends-on-core-coder flag and, when that flag is set,
the 14-bit core coder delay. -/
def extensionFlagOffset (bits : List Bool) : Nat :=
  channelConfigOffset bits + 6 +
    (if fieldAt bits (channelConfigOffset bits + 5) 1 = 1 then 14 else 0)

/-- The conditions under which a bit string is not an AAC-LC config that
`Unmarshal` accepts: a type other than AAC-LC, a sample-rate index 13 or 14,
a channel configuration 0 or above 7, an extension flag that is set, or an
input that ends before the last field that must be read (the extension
flag). -/
def UnmarshalRejects (tbl : AACTables) (bits : List Bool) : Prop :=
  (fieldAt bits 0 5 : Int) ≠ tbl.MPEG4AudioTypeAACLC ∨
  fieldAt bits 5 4 = 13 ∨ fieldAt bits 5 4 = 14 ∨
  fieldAt bits (channelConfigOffset bits) 4 = 0 ∨
  fieldAt bits (channelConfigOffset bits) 4 > 7 ∨
  fieldAt bits (extensionFlagOffset bits) 1 = 1 ∨
  bits.length < extensionFlagOffset bits + 1

/-- The config the fields of a bit string spell; `c` is the receiver, whose
core coder delay stays when the bit string has none. -/
def decodedConfig (tbl : AACTables) (c : MPEG4AudioConfig) (bits : List Bool) :
    MPEG4AudioConfig :=
  { Typ := (fieldAt bits 0 5 : Int)
    SampleRate :=
      if fieldAt bits 5 4 = 15 then (fieldAt bits 9 24 : Int)
      else tbl.sampleRates.getD (fieldAt bits 5 4) 0
    ChannelCount :=
      if fieldAt bits (channelConfigOffset bits) 4 = 7 then 8
      else (fieldAt bits (channelConfigOffset bits) 4 : Int)
    FrameLengthFlag := decide (fieldAt bits (channelConfigOffset bits + 4) 1 = 1)
    DependsOnCoreCoder := decide (fieldAt bits (channelConfigOffset bits + 5) 1 = 1)
    CoreCoderDelay :=
      if fieldAt bits (channelConfigOffset bits + 5) 1 = 1 then
        fieldAt bits (channelConfigOffset bits + 6) 14 % 65536
      else c.CoreCoderDelay }

/-- What the `sprop-parameter-sets` case of `H264.unmarshal` makes of a value:
`none` when it returns an error, `some none` when the value has fewer than
two comma-separated pieces and nothing is set, `some (some (sps, pps))` when
the first two pieces decode to `sps` and `pps`. -/
def spropResult (b64 : Base64) (val : GoString) : Option (Option (List Byte × List Byte)) :=
  match stringsSplit ',' val with
  | p0 :: p1 :: _ =>
    match b64.DecodeString p0, b64.DecodeString p1 with
    | some sps, some pps => some (some (sps, pps))
    | _, _ => none
  | _ => some none

/-- The receiver `H264.unmarshal` leaves when no entry of `fmtp` makes it
return an error: the packetization mode and the parameter sets of the
entries that hold them, the receiver's own values otherwise. -/
def H264.afterFmtp (b64 : Base64) (t : H264) (fmtp : Fmtp) : H264 :=
  { PayloadTyp := t.PayloadTyp
    SPS :=
      match (fmtpGet fmtp "sprop-parameter-sets".toList).bind
          (fun v => (spropResult b64 v).join) with
      | some (sps, _) => some sps
      | none => t.SPS
    PPS :=
      match (fmtpGet fmtp "sprop-parameter-sets".toList).bind
          (fun v => (spropResult b64 v).join) with
      | some (_, pps) => some pps
      | none => t.PPS
    PacketizationMode :=
      ((fmtpGet fmtp "packetization-mode".toList).bind ParseInt).getD t.PacketizationMode }

/-! ### Base64 of RFC 4648, for evaluating on concrete parameter sets -/

/-- The alphabet of standard base64. -/
def base64Alphabet : List Char :=
  "ABCDEFGHIJKLMNOPQRSTUVWXYZabcdefghijklmnopqrstuvwxyz0123456789+/".toList

/-- The character of a 6-bit value. -/
def base64Char (v : Nat) : Char := base64Alphabet.getD v 'A'

/-- The 6-bit value of a character of the alphabet, `none` for any other
character. -/
def base64Value (c : Char) : Option Nat :=
  if base64Alphabet.indexOf c < 64 then some (base64Alphabet.indexOf c) else none

/-- Standard base64 encoding with padding. -/
def base64Encode : List Byte → GoString
  | b0 :: b1 :: b2 :: rest =>
    base64Char (b0.val / 4) :: base64Char (b0.val % 4 * 16 + b1.val / 16) ::
      base64Char (b1.val % 16 * 4 + b2.val / 64) :: base64Char (b2.val % 64) ::
        base64Encode rest
  | [b0, b1] =>
    [base64Char (b0.val / 4), base64Char (b0.val % 4 * 16 + b1.val / 16),
      base64Char (b1.val % 16 * 4), '=']
  | [b0] => [base64Char (b0.val / 4), base64Char (b0.val % 4 * 16), '=', '=']
  | [] => []

/-- Standard base64 decoding of a string without line breaks: groups of four
characters of the alphabet, the last group padded with `=` when it holds one
or two bytes; `none` for any other string. -/
def base64Decode : GoString → Option (List Byte)
  | [] => some []
  | c0 :: c1 :: c2 :: c3 :: rest =>
    match base64Value c0, base64Value c1 with
    | some v0, some v1 =>
      if c2 = '=' then
        if c3 = '=' ∧ rest = [] then some [Fin.ofNat (v0 * 4 + v1 / 16)] else none
      else
        match base64Value c2 with
        | none => none
        | some v2 =>
          if c3 = '=' then
            if rest = [] then
              some [Fin.ofNat (v0 * 4 + v1 / 16), Fin.ofNat (v1 % 16 * 16 + v2 / 4)]
            else none
          else
            match base64Value c3 with
            | none => none
            | some v3 =>
              match base64Decode rest with
              | none => none
              | some bytes =>
                some (Fin.ofNat (v0 * 4 + v1 / 16) :: Fin.ofNat (v1 % 16 * 16 + v2 / 4) ::
                  Fin.ofNat (v2 % 4 * 64 + v3) :: bytes)
    | _, _ => none
  | _ => none

/-- Standard base64, as a codec for the format. -/
def rfc4648 : Base64 where
  EncodeToString := base64Encode
  DecodeString := base64Decode

/-- An H264 format with parameter sets: payload type 96, packetization
mode 1. -/
def sampleH264 : H264 :=
  { PayloadTyp := 96
    SPS := some [0x67, 0x42, 0x00, 0x1f]
    PPS := some [0x68, 0xCE, 0x3C, 0x80]
    PacketizationMode := 1 }

/-- An fmtp map whose `sprop-parameter-sets` starts with a comma. -/
def sampleLeadingCommaFmtp : Fmtp :=
  [("packetization-mode".toList, "1".toList),
   ("sprop-parameter-sets".toList, ",aM48gA==".toList)]

/-- An fmtp map whose `sprop-parameter-sets` starts with a comma and whose
`packetization-mode` is no number. -/
def sampleInvalidModeFmtp : Fmtp :=
  [("packetization-mode".toList, "x".toList),
   ("sprop-parameter-sets".toList, ",aM48gA==".toList)]

/-! ## Properties of `server_session_media.go` -/

theorem mapLookup_eq_none (m : List (Byte × serverSessionFormat)) (k : Byte)
    (h : ∀ kv ∈ m, kv.1 ≠ k) : mapLookup m k = none := by
  induction m with
  | nil => rfl
  | cons kv rest ih =>
    obtain ⟨k1, v1⟩ := kv
    have h1 : k1 ≠ k := h (k1, v1) (List.mem_cons_self _ _)
    simp only [mapLookup, h1, if_false]
    exact ih (fun kv hkv => h kv (List.mem_cons_of_mem _ hkv))

/-- C1: a datagram that decodes as an RTP packet whose payload type is not a
key of `sm.formats` makes `readRTPUDPRecord` (when its length is not
`maxPacketSize+1`) and `readRTPTCPRecord` emit exactly one warning (unknown
payload type), hand the packet to no format, and return `nil`. -/
theorem unknown_payload_type_is_one_warning (env : ReadEnv) (sm : serverSessionMedia)
    (payload : List Byte) (pkt : RTPPacket)
    (hdecode : env.rtpUnmarshal payload = .ok pkt)
    (hunknown : ∀ kv ∈ sm.formats, kv.1 ≠ pkt.Header.PayloadType) :
    (payload.length ≠ env.maxPacketSize + 1 →
      warningsOf (sm.readRTPUDPRecord env payload).1
          = [.unknownPayloadType pkt.Header.PayloadType] ∧
        forwardedOf (sm.readRTPUDPRecord env payload).1 = [] ∧
        (sm.readRTPUDPRecord env payload).2 = none) ∧
    (warningsOf (sm.readRTPTCPRecord env payload).1
          = [.unknownPayloadType pkt.Header.PayloadType] ∧
      forwardedOf (sm.readRTPTCPRecord env payload).1 = [] ∧
      (sm.readRTPTCPRecord env payload).2 = none) := by
  have hl := mapLookup_eq_none sm.formats pkt.Header.PayloadType hunknown
  constructor
  · intro hlen
    simp [serverSessionMedia.readRTPUDPRecord, hlen, hdecode, hl, warningsOf, forwardedOf]
  · simp [serverSessionMedia.readRTPTCPRecord, hdecode, hl, warningsOf, forwardedOf]

theorem unknown_payload_type_is_one_warning_witness :
    warningsOf ((sampleRecordMedia .UDP).readRTPUDPRecord sampleEnv sampleDatagram97).1
        = [.unknownPayloadType 97] ∧
      warningsOf ((sampleRecordMedia .TCP).readRTPTCPRecord sampleEnv sampleDatagram97).1
        = [.unknownPayloadType 97] := by
  have hd : sampleEnv.rtpUnmarshal sampleDatagram97
      = .ok { Header := { Version := 2, PayloadType := 97, SequenceNumber := 1, SSRC := 1 },
              Payload := [0xAA] } := by decide
  have hu : ∀ t, ∀ kv ∈ (sampleRecordMedia t).formats, kv.1 ≠ (97 : Byte) := by
    intro t kv hkv
    simp [sampleRecordMedia] at hkv
    subst hkv
    decide
  exact ⟨((unknown_payload_type_is_one_warning sampleEnv (sampleRecordMedia .UDP)
      sampleDatagram97 _ hd (hu _)).1 (by decide)).1,
    (unknown_payload_type_is_one_warning sampleEnv (sampleRecordMedia .TCP)
      sampleDatagram97 _ hd (hu _)).2.1⟩

/-- C2 (the code departs from the claim in `readRTPTCPRecord`): six of the
seven read handlers return `nil` on every payload, and the five of them that
decode report a payload that does not decode through `onWarning`
(`readRTPTCPPlay` ignores its payload); `readRTPTCPRecord` returns the
decoder's error to its caller, without a warning, when the payload does not
decode as RTP. -/
theorem readRTPTCPRecord_returns_decode_error (env : ReadEnv) (sm : serverSessionMedia)
    (payload : List Byte) (err : String)
    (hdecode : env.rtpUnmarshal payload = .error err) :
    sm.readRTPTCPRecord env payload = ([], some (.decode err)) ∧
    (sm.readRTPUDPRecord env payload).2 = none ∧
    (payload.length ≠ env.maxPacketSize + 1 →
      warningsOf (sm.readRTPUDPRecord env payload).1 = [.decode err]) ∧
    (∀ p, (sm.readRTCPUDPRecord env p).2 = none ∧ (sm.readRTCPUDPPlay env p).2 = none ∧
      (sm.readRTPTCPPlay env p).2 = none ∧ (sm.readRTCPTCPPlay env p).2 = none ∧
      (sm.readRTCPTCPRecord env p).2 = none ∧ (sm.readRTPUDPRecord env p).2 = none) := by
  refine ⟨by simp [serverSessionMedia.readRTPTCPRecord, hdecode], ?_, ?_, ?_⟩
  · simp only [serverSessionMedia.readRTPUDPRecord, hdecode]
    split <;> rfl
  · intro hlen
    simp [serverSessionMedia.readRTPUDPRecord, hlen, hdecode, warningsOf]
  · intro p
    refine ⟨?_, ?_, rfl, ?_, ?_, ?_⟩
    · simp only [serverSessionMedia.readRTCPUDPRecord]
      split
      · rfl
      · split <;> rfl
    · simp only [serverSessionMedia.readRTCPUDPPlay]
      split
      · rfl
      · split <;> rfl
    · simp only [serverSessionMedia.readRTCPTCPPlay]
      split
      · rfl
      · split <;> rfl
    · simp only [serverSessionMedia.readRTCPTCPRecord]
      split
      · rfl
      · split <;> rfl
    · simp only [serverSessionMedia.readRTPUDPRecord]
      split
      · rfl
      · split
        · rfl
        · split <;> rfl

theorem readRTPTCPRecord_returns_decode_error_witness :
    (sampleRecordMedia .TCP).readRTPTCPRecord sampleEnv []
      = ([], some (.decode "RTP header size insufficient")) :=
  (readRTPTCPRecord_returns_decode_error sampleEnv (sampleRecordMedia .TCP) []
    "RTP header size insufficient" (by decide)).1

/-- C3, as the claim states it, fails: started on unicast UDP in the Play
state, the sample medium writes no packet at all. -/
theorem start_udp_play_writes_nothing :
    writesOf ((samplePlayMedia .UDP).start 1472).2 = [] ∧
    ¬ (Sum.inl { Header := { Version := 2 } } ∈ writesOf ((samplePlayMedia .UDP).start 1472).2 ∧
       Sum.inr (RTCPPacket.ReceiverReport {}) ∈ writesOf ((samplePlayMedia .UDP).start 1472).2) := by
  have h : writesOf ((samplePlayMedia .UDP).start 1472).2 = [] := rfl
  refine ⟨h, ?_⟩
  rw [h]
  simp

theorem writesOf_formatStart (m : List (Byte × serverSessionFormat)) :
    writesOf (m.map (fun kv => StartEvent.formatStart kv.2)) = [] := by
  induction m with
  | nil => rfl
  | cons kv rest ih => simp [writesOf]

theorem rtpClientsOf_formatStart (m : List (Byte × serverSessionFormat)) :
    rtpClientsOf (m.map (fun kv => StartEvent.formatStart kv.2)) = [] := by
  induction m with
  | nil => rfl
  | cons kv rest ih => simp [rtpClientsOf]

theorem rtcpClientsOf_formatStart (m : List (Byte × serverSessionFormat)) :
    rtcpClientsOf (m.map (fun kv => StartEvent.formatStart kv.2)) = [] := by
  induction m with
  | nil => rfl
  | cons kv rest ih => simp [rtcpClientsOf]

theorem writesOf_append (a b : List StartEvent) : writesOf (a ++ b) = writesOf a ++ writesOf b := by
  simp [writesOf, List.filterMap_append]

theorem rtpClientsOf_append (a b : List StartEvent) :
    rtpClientsOf (a ++ b) = rtpClientsOf a ++ rtpClientsOf b := by
  simp [rtpClientsOf, List.filterMap_append]

theorem rtcpClientsOf_append (a b : List StartEvent) :
    rtcpClientsOf (a ++ b) = rtcpClientsOf a ++ rtcpClientsOf b := by
  simp [rtcpClientsOf, List.filterMap_append]

/-- The trace of `start` on unicast UDP in the Play state. -/
theorem start_udp_play_trace (maxPacketSize : Nat) (sm : serverSessionMedia)
    (hudp : sm.ss.setuppedTransport = .UDP) (hplay : sm.ss.state = .Play) :
    (sm.start maxPacketSize).2 = sm.formats.map (fun kv => StartEvent.formatStart kv.2) ++
      [.udpRTCPListenerAddClient sm.ss.authorIP sm.udpRTCPReadPort] := by
  simp [serverSessionMedia.start, hudp, hplay]

/-- The trace of `start` on unicast UDP in a state other than Play. -/
theorem start_udp_record_trace (maxPacketSize : Nat) (sm : serverSessionMedia)
    (hudp : sm.ss.setuppedTransport = .UDP) (hrec : sm.ss.state ≠ .Play) :
    (sm.start maxPacketSize).2 = sm.formats.map (fun kv => StartEvent.formatStart kv.2) ++
      [ .WritePacketRTP sm.media { Header := { Version := 2 } },
        .WritePacketRTCP sm.media (.ReceiverReport {}),
        .udpRTPListenerAddClient sm.ss.authorIP sm.udpRTPReadPort,
        .udpRTCPListenerAddClient sm.ss.authorIP sm.udpRTCPReadPort ] := by
  simp [serverSessionMedia.start, hudp, hrec]

/-- The trace of `start` on a transport other than unicast UDP. -/
theorem start_not_udp_trace (maxPacketSize : Nat) (sm : serverSessionMedia)
    (hudp : sm.ss.setuppedTransport ≠ .UDP) :
    (sm.start maxPacketSize).2 = sm.formats.map (fun kv => StartEvent.formatStart kv.2) := by
  cases htr : sm.ss.setuppedTransport with
  | UDP => exact absurd htr hudp
  | UDPMulticast => by_cases hs : sm.ss.state = .Play <;> simp [serverSessionMedia.start, htr, hs]
  | TCP => by_cases hs : sm.ss.state = .Play <;> simp [serverSessionMedia.start, htr, hs]

/-- C3 (amended): started on unicast UDP in the Play state, `start` writes no
packet (the firewall is opened by the sender reports of `ServerStream`): once
the formats are started, the one call it makes is the registration of the
client with the RTCP listener, under the author's IP and `udpRTCPReadPort`,
and it registers nothing with the RTP listener.  In any other state (Record)
it writes exactly a version-2 RTP packet with an empty payload and then an
empty RTCP Receiver Report. -/
theorem start_udp_firewall_packets (maxPacketSize : Nat) (sm : serverSessionMedia)
    (hudp : sm.ss.setuppedTransport = .UDP) :
    (sm.ss.state = .Play →
      (sm.start maxPacketSize).2 = sm.formats.map (fun kv => StartEvent.formatStart kv.2) ++
        [.udpRTCPListenerAddClient sm.ss.authorIP sm.udpRTCPReadPort] ∧
      writesOf (sm.start maxPacketSize).2 = [] ∧
      rtpClientsOf (sm.start maxPacketSize).2 = [] ∧
      rtcpClientsOf (sm.start maxPacketSize).2 = [(sm.ss.authorIP, sm.udpRTCPReadPort)]) ∧
    (sm.ss.state ≠ .Play →
      writesOf (sm.start maxPacketSize).2 =
        [ .inl { Header := { Version := 2 }, Payload := [] },
          .inr (.ReceiverReport { SSRC := 0, Reports := [], ProfileExtensions := [] }) ]) := by
  constructor
  · intro hplay
    rw [start_udp_play_trace maxPacketSize sm hudp hplay, writesOf_append, rtpClientsOf_append,
      rtcpClientsOf_append, writesOf_formatStart, rtpClientsOf_formatStart,
      rtcpClientsOf_formatStart]
    exact ⟨rfl, rfl, rfl, rfl⟩
  · intro hrec
    rw [start_udp_record_trace maxPacketSize sm hudp hrec, writesOf_append, writesOf_formatStart]
    rfl

theorem start_udp_firewall_packets_witness :
    ((samplePlayMedia .UDP).start 1472).2 =
      (samplePlayMedia .UDP).formats.map (fun kv => StartEvent.formatStart kv.2) ++
        [.udpRTCPListenerAddClient 0x7F000001 40001] ∧
    writesOf ((samplePlayMedia .UDP).start 1472).2 = [] ∧
    rtpClientsOf ((samplePlayMedia .UDP).start 1472).2 = [] ∧
    rtcpClientsOf ((samplePlayMedia .UDP).start 1472).2 = [(0x7F000001, 40001)] ∧
    writesOf ((sampleRecordMedia .UDP).start 1472).2 =
      [ .inl { Header := { Version := 2 }, Payload := [] },
        .inr (.ReceiverReport { SSRC := 0, Reports := [], ProfileExtensions := [] }) ] :=
  ⟨((start_udp_firewall_packets 1472 (samplePlayMedia .UDP) rfl).1 rfl).1,
    ((start_udp_firewall_packets 1472 (samplePlayMedia .UDP) rfl).1 rfl).2.1,
    ((start_udp_firewall_packets 1472 (samplePlayMedia .UDP) rfl).1 rfl).2.2.1,
    ((start_udp_firewall_packets 1472 (samplePlayMedia .UDP) rfl).1 rfl).2.2.2,
    (start_udp_firewall_packets 1472 (sampleRecordMedia .UDP) rfl).2 (by decide)⟩

/-- C4: started on unicast UDP in the Record state, `start` first starts the
formats, then writes a version-2 RTP packet with an empty payload, then an
empty RTCP Receiver Report, and only then registers the client with the RTP
and the RTCP listener; these two packets are all it writes, so nothing is
written or registered before them. -/
theorem start_udp_record_firewall_first (maxPacketSize : Nat) (sm : serverSessionMedia)
    (hudp : sm.ss.setuppedTransport = .UDP) (hrec : sm.ss.state = .Record) :
    (sm.start maxPacketSize).2 =
      sm.formats.map (fun kv => StartEvent.formatStart kv.2) ++
        [ .WritePacketRTP sm.media { Header := { Version := 2 }, Payload := [] },
          .WritePacketRTCP sm.media (.ReceiverReport { SSRC := 0, Reports := [] }),
          .udpRTPListenerAddClient sm.ss.authorIP sm.udpRTPReadPort,
          .udpRTCPListenerAddClient sm.ss.authorIP sm.udpRTCPReadPort ] ∧
    writesOf (sm.start maxPacketSize).2 =
      [ .inl { Header := { Version := 2 }, Payload := [] },
        .inr (.ReceiverReport { SSRC := 0, Reports := [] }) ] ∧
    writesOf (sm.formats.map (fun kv => StartEvent.formatStart kv.2)) = [] ∧
    rtpClientsOf (sm.formats.map (fun kv => StartEvent.formatStart kv.2)) = [] ∧
    rtcpClientsOf (sm.formats.map (fun kv => StartEvent.formatStart kv.2)) = [] := by
  have hne : sm.ss.state ≠ .Play := by rw [hrec]; decide
  refine ⟨start_udp_record_trace maxPacketSize sm hudp hne, ?_, writesOf_formatStart _,
    rtpClientsOf_formatStart _, rtcpClientsOf_formatStart _⟩
  rw [start_udp_record_trace maxPacketSize sm hudp hne, writesOf_append, writesOf_formatStart]
  rfl

theorem start_udp_record_firewall_first_witness :
    ((sampleRecordMedia .UDP).start 1472).2 =
      [ .formatStart { format := { PayloadTyp := 96 } },
        .WritePacketRTP { Formats := [{ PayloadTyp := 96 }] } { Header := { Version := 2 } },
        .WritePacketRTCP { Formats := [{ PayloadTyp := 96 }] } (.ReceiverReport {}),
        .udpRTPListenerAddClient 0x7F000001 40000,
        .udpRTCPListenerAddClient 0x7F000001 40001 ] :=
  (start_udp_record_firewall_first 1472 (sampleRecordMedia .UDP) rfl rfl).1

/-- C9: after `start` on the TCP transport the RTP frame is on channel
`tcpChannel`, the RTCP frame on channel `tcpChannel+1` (odd when
`tcpChannel` is even), and `tcpBuffer` has length `maxPacketSize+4`. -/
theorem start_tcp_channels_and_buffer (maxPacketSize : Nat) (sm : serverSessionMedia)
    (htcp : sm.ss.setuppedTransport = .TCP) :
    (sm.start maxPacketSize).1.tcpRTPFrame = some { Channel := sm.tcpChannel, Payload := [] } ∧
    (sm.start maxPacketSize).1.tcpRTCPFrame
      = some { Channel := sm.tcpChannel + 1, Payload := [] } ∧
    (sm.start maxPacketSize).1.tcpBuffer.length = maxPacketSize + 4 ∧
    (sm.tcpChannel % 2 = 0 → (sm.tcpChannel + 1) % 2 = 1) := by
  refine ⟨?_, ?_, ?_, fun h => by omega⟩ <;>
    by_cases hs : sm.ss.state = .Play <;> simp [serverSessionMedia.start, htcp, hs]

theorem start_tcp_channels_and_buffer_witness :
    ((sampleRecordMedia .TCP).start 2048).1.tcpRTPFrame = some { Channel := 4 } ∧
    ((sampleRecordMedia .TCP).start 2048).1.tcpRTCPFrame = some { Channel := 5 } ∧
    ((sampleRecordMedia .TCP).start 2048).1.tcpBuffer.length = 2052 :=
  ⟨(start_tcp_channels_and_buffer 2048 (sampleRecordMedia .TCP) rfl).1,
    (start_tcp_channels_and_buffer 2048 (sampleRecordMedia .TCP) rfl).2.1,
    (start_tcp_channels_and_buffer 2048 (sampleRecordMedia .TCP) rfl).2.2.1⟩

/-- C10: `start` registers the client with the UDP listeners by state and
transport.  On unicast UDP in the Play state: with the RTCP listener only,
under the author's IP and `udpRTCPReadPort`.  On unicast UDP in the Record
state: with the RTP listener under `udpRTPReadPort` and with the RTCP
listener under `udpRTCPReadPort`.  On UDP-multicast and on TCP: with
neither. -/
theorem start_listener_registration (maxPacketSize : Nat) (sm : serverSessionMedia) :
    (sm.ss.setuppedTransport = .UDP → sm.ss.state = .Play →
      rtpClientsOf (sm.start maxPacketSize).2 = [] ∧
      rtcpClientsOf (sm.start maxPacketSize).2 = [(sm.ss.authorIP, sm.udpRTCPReadPort)]) ∧
    (sm.ss.setuppedTransport = .UDP → sm.ss.state = .Record →
      rtpClientsOf (sm.start maxPacketSize).2 = [(sm.ss.authorIP, sm.udpRTPReadPort)] ∧
      rtcpClientsOf (sm.start maxPacketSize).2 = [(sm.ss.authorIP, sm.udpRTCPReadPort)]) ∧
    (sm.ss.setuppedTransport = .UDPMulticast ∨ sm.ss.setuppedTransport = .TCP →
      rtpClientsOf (sm.start maxPacketSize).2 = [] ∧
      rtcpClientsOf (sm.start maxPacketSize).2 = []) := by
  refine ⟨fun hudp hplay => ?_, fun hudp hrec => ?_, fun hother => ?_⟩
  · rw [start_udp_play_trace maxPacketSize sm hudp hplay, rtpClientsOf_append,
      rtcpClientsOf_append, rtpClientsOf_formatStart, rtcpClientsOf_formatStart]
    exact ⟨rfl, rfl⟩
  · have hne : sm.ss.state ≠ .Play := by rw [hrec]; decide
    rw [start_udp_record_trace maxPacketSize sm hudp hne, rtpClientsOf_append,
      rtcpClientsOf_append, rtpClientsOf_formatStart, rtcpClientsOf_formatStart]
    exact ⟨rfl, rfl⟩
  · have hne : sm.ss.setuppedTransport ≠ .UDP := by
      rcases hother with h | h <;> rw [h] <;> decide
    rw [start_not_udp_trace maxPacketSize sm hne]
    exact ⟨rtpClientsOf_formatStart _, rtcpClientsOf_formatStart _⟩

theorem start_listener_registration_witness :
    (rtpClientsOf ((samplePlayMedia .UDP).start 1472).2 = [] ∧
      rtcpClientsOf ((samplePlayMedia .UDP).start 1472).2 = [(0x7F000001, 40001)]) ∧
    (rtpClientsOf ((sampleRecordMedia .UDP).start 1472).2 = [(0x7F000001, 40000)] ∧
      rtcpClientsOf ((sampleRecordMedia .UDP).start 1472).2 = [(0x7F000001, 40001)]) ∧
    (rtpClientsOf ((sampleRecordMedia .TCP).start 1472).2 = [] ∧
      rtcpClientsOf ((sampleRecordMedia .TCP).start 1472).2 = []) ∧
    (rtpClientsOf ((sampleRecordMedia .UDPMulticast).start 1472).2 = [] ∧
      rtcpClientsOf ((sampleRecordMedia .UDPMulticast).start 1472).2 = []) :=
  ⟨(start_listener_registration 1472 (samplePlayMedia .UDP)).1 rfl rfl,
    (start_listener_registration 1472 (sampleRecordMedia .UDP)).2.1 rfl rfl,
    (start_listener_registration 1472 (sampleRecordMedia .TCP)).2.2 (Or.inr rfl),
    (start_listener_registration 1472 (sampleRecordMedia .UDPMulticast)).2.2 (Or.inl rfl)⟩

/-! ## Properties of `pkg/format/h264.go` -/

theorem be16_eq (b0 b1 : Byte) : be16 b0 b1 = b0.val * 256 + b1.val := by
  unfold be16
  have h1 : b0.val <<< 8 = 2 ^ 8 * b0.val := by rw [Nat.shiftLeft_eq, Nat.mul_comm]
  have h2 : (b0.val <<< 8) % 65536 = 2 ^ 8 * b0.val := by rw [h1]; omega
  rw [h2, ← Nat.mul_add_lt_is_or (by omega)]
  omega

theorem and_0x1F (x : Nat) : x &&& 0x1F = x % 32 :=
  Nat.and_pow_two_sub_one_eq_mod x 5

theorem be16_sizePrefix (k : Nat) (hk : k < 65536) (b0 b1 : Byte)
    (h : sizePrefix k = [b0, b1]) : be16 b0 b1 = k := by
  simp only [sizePrefix, List.cons.injEq, and_true] at h
  rw [be16_eq, ← h.1, ← h.2]
  simp only [Fin.ofNat, Fin.val_mk]
  omega

/-- A payload that starts with a unit: its size field spells the NALU's
length, and the NALU and the tail are what follows. -/
theorem unit_inv (b0 b1 : Byte) (rest u tail : List Byte) (hu : u.length < 65536)
    (h : b0 :: b1 :: rest = sizePrefix u.length ++ u ++ tail) :
    be16 b0 b1 = u.length ∧ rest.take u.length = u ∧ rest.drop u.length = tail := by
  have hsp : sizePrefix u.length = [Fin.ofNat (u.length / 256), Fin.ofNat u.length] := rfl
  rw [hsp] at h
  simp only [List.cons_append, List.nil_append, List.cons.injEq] at h
  obtain ⟨h0, h1, hrest⟩ := h
  refine ⟨be16_sizePrefix u.length hu b0 b1 (by rw [hsp, h0, h1]), ?_, ?_⟩
  · rw [hrest]; simp
  · rw [hrest]; simp

theorem stapALoop_short (fuel : Nat) (body : List Byte) (h : body.length < 2) :
    stapALoop (fuel + 1) body = .ok false := by
  match body, h with
  | [], _ => rfl
  | [_], _ => rfl

theorem stapALoop_bad_size (fuel : Nat) (b0 b1 : Byte) (rest : List Byte)
    (h : be16 b0 b1 = 0 ∨ be16 b0 b1 > rest.length) :
    stapALoop (fuel + 1) (b0 :: b1 :: rest) = .ok false := by
  simp [stapALoop, index, sliceFrom, bind, Except.bind, pure, Except.pure, h]

theorem stapALoop_unit (fuel : Nat) (b0 b1 n0 : Byte) (rest : List Byte)
    (hpos : 0 < be16 b0 b1) (hfit : be16 b0 b1 ≤ rest.length + 1) :
    stapALoop (fuel + 1) (b0 :: b1 :: n0 :: rest) =
      if n0.val % 32 = 5 then .ok true
      else stapALoop fuel ((n0 :: rest).drop (be16 b0 b1)) := by
  have h1 : ¬ (be16 b0 b1 = 0 ∨ be16 b0 b1 > rest.length + 1) := by omega
  obtain ⟨k, hk⟩ : ∃ k, be16 b0 b1 = k + 1 := ⟨be16 b0 b1 - 1, by omega⟩
  rw [hk] at h1 hfit
  simp only [stapALoop, index, sliceFrom, sliceTo, bind, Except.bind, pure, Except.pure, hk,
    List.length_cons, and_0x1F, NALUTypeIDR]
  have h2 : ¬ (rest.length + 1 + 1 + 1 < 2) := by omega
  have h3 : ¬ (rest.length < k) := by omega
  simp [hk, hfit, h2, h3]

theorem not_reachesIDR_short (body : List Byte) (h : body.length < 2) : ¬ ReachesIDR body := by
  rintro ⟨pre, idr, post, _, _, _, hbody⟩
  have hl := congrArg List.length hbody
  cases pre with
  | nil => simp [stapAUnits, sizePrefix] at hl; omega
  | cons n pre => simp [stapAUnits, sizePrefix] at hl; omega

/-- What reaching an IDR means at the first unit of the body. -/
theorem reachesIDR_cons_iff (b0 b1 : Byte) (rest : List Byte) :
    ReachesIDR (b0 :: b1 :: rest) ↔
      0 < be16 b0 b1 ∧ be16 b0 b1 ≤ rest.length ∧
        (naluType (rest.take (be16 b0 b1)) = some 5 ∨ ReachesIDR (rest.drop (be16 b0 b1))) := by
  constructor
  · rintro ⟨pre, idr, post, hpre, hidr, htyp, hbody⟩
    cases pre with
    | nil =>
      have hb : b0 :: b1 :: rest = sizePrefix idr.length ++ idr ++ post := by
        simpa [stapAUnits] using hbody
      obtain ⟨hsz, htake, hdrop⟩ := unit_inv b0 b1 rest idr post hidr.2 hb
      have hlen : idr.length ≤ rest.length := by
        have := congrArg List.length htake
        simp at this
        omega
      rw [hsz]
      exact ⟨hidr.1, hlen, Or.inl (by rw [htake]; exact htyp)⟩
    | cons n pre =>
      have hn : IsNALU n := hpre n (List.mem_cons_self _ _)
      have hb : b0 :: b1 :: rest = sizePrefix n.length ++ n ++
          (stapAUnits pre ++ (sizePrefix idr.length ++ idr) ++ post) := by
        simpa [stapAUnits, List.append_assoc] using hbody
      obtain ⟨hsz, htake, hdrop⟩ := unit_inv b0 b1 rest n _ hn.2 hb
      have hlen : n.length ≤ rest.length := by
        have := congrArg List.length htake
        simp at this
        omega
      rw [hsz]
      exact ⟨hn.1, hlen, Or.inr ⟨pre, idr, post,
        fun m hm => hpre m (List.mem_cons_of_mem _ hm), hidr, htyp, hdrop⟩⟩
  · rintro ⟨hpos, hfit, hor⟩
    have hlt : be16 b0 b1 < 65536 := by rw [be16_eq]; omega
    have hnalu : IsNALU (rest.take (be16 b0 b1)) := by
      constructor <;> simp [List.length_take] <;> omega
    have hsp : sizePrefix (rest.take (be16 b0 b1)).length = [b0, b1] := by
      have hl : (rest.take (be16 b0 b1)).length = be16 b0 b1 := by
        simp [List.length_take]; omega
      rw [hl, be16_eq]
      simp only [sizePrefix, Fin.ofNat, List.cons.injEq, and_true]
      constructor <;> apply Fin.ext <;> simp <;> omega
    have hsplit : b0 :: b1 :: rest =
        sizePrefix (rest.take (be16 b0 b1)).length ++ rest.take (be16 b0 b1)
          ++ rest.drop (be16 b0 b1) := by
      rw [hsp]; simp
    rcases hor with hhere | ⟨pre, idr, post, hpre, hidr, htyp, hbody⟩
    · exact ⟨[], rest.take (be16 b0 b1), rest.drop (be16 b0 b1), by simp, hnalu, hhere,
        by simpa [stapAUnits] using hsplit⟩
    · refine ⟨rest.take (be16 b0 b1) :: pre, idr, post, ?_, hidr, htyp, ?_⟩
      · intro m hm
        rcases List.mem_cons.mp hm with h | h
        · rw [h]; exact hnalu
        · exact hpre m h
      · rw [hsplit, hbody]
        simp [stapAUnits, List.append_assoc]

/-- The STAP-A loop, given at least as much fuel as there are bytes, returns
whether the walk reaches an IDR. -/
theorem stapALoop_spec (fuel : Nat) : ∀ body : List Byte, body.length ≤ fuel →
    (stapALoop fuel body = .ok true ∧ ReachesIDR body) ∨
      (stapALoop fuel body = .ok false ∧ ¬ ReachesIDR body) := by
  induction fuel with
  | zero =>
    intro body h
    have hnil : body = [] := List.length_eq_zero.mp (by omega)
    subst hnil
    exact Or.inr ⟨rfl, not_reachesIDR_short [] (by simp)⟩
  | succ fuel ih =>
    intro body h
    match body, h with
    | [], _ => exact Or.inr ⟨rfl, not_reachesIDR_short [] (by simp)⟩
    | [b], _ => exact Or.inr ⟨rfl, not_reachesIDR_short [b] (by simp)⟩
    | [b0, b1], _ =>
      refine Or.inr ⟨stapALoop_bad_size fuel b0 b1 [] (by simp; omega), ?_⟩
      rw [reachesIDR_cons_iff]
      simp
      omega
    | b0 :: b1 :: n0 :: rest, h =>
      by_cases hbad : be16 b0 b1 = 0 ∨ be16 b0 b1 > rest.length + 1
      · refine Or.inr ⟨stapALoop_bad_size fuel b0 b1 (n0 :: rest) (by simpa using hbad), ?_⟩
        rw [reachesIDR_cons_iff]
        simp only [List.length_cons]
        omega
      · have hpos : 0 < be16 b0 b1 := by omega
        have hfit : be16 b0 b1 ≤ rest.length + 1 := by omega
        obtain ⟨k, hk⟩ : ∃ k, be16 b0 b1 = k + 1 := ⟨be16 b0 b1 - 1, by omega⟩
        rw [stapALoop_unit fuel b0 b1 n0 rest hpos hfit, reachesIDR_cons_iff]
        by_cases hidr : n0.val % 32 = 5
        · refine Or.inl ⟨by simp [hidr], hpos, by simpa using hfit, Or.inl ?_⟩
          simp [naluType, hk, hidr]
        · have hlen : ((n0 :: rest).drop (be16 b0 b1)).length ≤ fuel := by
            simp only [List.length_drop, List.length_cons] at h ⊢
            omega
          have hnot : naluType ((n0 :: rest).take (be16 b0 b1)) ≠ some 5 := by
            simp [naluType, hk, hidr]
          rcases ih _ hlen with ⟨hr, hreach⟩ | ⟨hr, hreach⟩
          · exact Or.inl ⟨by simp [hidr, hr], hpos, by simpa using hfit, Or.inr hreach⟩
          · refine Or.inr ⟨by simp [hidr, hr], ?_⟩
            rintro ⟨_, _, hor⟩
            rcases hor with h1 | h1
            · exact hnot h1
            · exact hreach h1

theorem rtpH264ContainsIDR_stapA (pkt : RTPPacket) (p0 : Byte) (body : List Byte)
    (hpayload : pkt.Payload = p0 :: body) (hstap : p0.val % 32 = 24) :
    rtpH264ContainsIDR pkt = stapALoop body.length body := by
  simp [rtpH264ContainsIDR, hpayload, index, sliceFrom, bind, Except.bind, and_0x1F, hstap,
    NALUTypeIDR]

theorem stapAUnits_cons (n : List Byte) (nalus : List (List Byte)) :
    stapAUnits (n :: nalus) = sizePrefix n.length ++ n ++ stapAUnits nalus := by
  simp [stapAUnits]

theorem stapAUnits_append (xs ys : List (List Byte)) :
    stapAUnits (xs ++ ys) = stapAUnits xs ++ stapAUnits ys := by
  simp [stapAUnits]

/-- On a well-formed STAP-A body the walk reaches an IDR exactly when one of
the aggregated NALUs is an IDR. -/
theorem reachesIDR_stapAUnits (nalus : List (List Byte)) (hn : ∀ n ∈ nalus, IsNALU n) :
    ReachesIDR (stapAUnits nalus) ↔ ∃ n ∈ nalus, naluType n = some 5 := by
  constructor
  · intro hreach
    induction nalus with
    | nil => exact absurd hreach (not_reachesIDR_short _ (by simp [stapAUnits]))
    | cons n rest ih =>
      have hnn : IsNALU n := hn n (List.mem_cons_self _ _)
      have hshape : stapAUnits (n :: rest)
          = Fin.ofNat (n.length / 256) :: Fin.ofNat n.length :: (n ++ stapAUnits rest) := by
        simp [stapAUnits, sizePrefix]
      have hunit := unit_inv (Fin.ofNat (n.length / 256)) (Fin.ofNat n.length)
        (n ++ stapAUnits rest) n (stapAUnits rest) hnn.2 (by simp [sizePrefix])
      rw [hshape, reachesIDR_cons_iff, hunit.1, hunit.2.1, hunit.2.2] at hreach
      rcases hreach.2.2 with h | h
      · exact ⟨n, List.mem_cons_self _ _, h⟩
      · obtain ⟨m, hm, hty⟩ := ih (fun m hm => hn m (List.mem_cons_of_mem _ hm)) h
        exact ⟨m, List.mem_cons_of_mem _ hm, hty⟩
  · rintro ⟨n, hmem, hty⟩
    obtain ⟨pre, post, hsplit⟩ := List.append_of_mem hmem
    refine ⟨pre, n, stapAUnits post, ?_, hn n hmem, hty, ?_⟩
    · intro m hm
      exact hn m (by rw [hsplit]; exact List.mem_append_left _ hm)
    · rw [hsplit, stapAUnits_append, stapAUnits_cons]
      simp [List.append_assoc]

/-- C5: on a packet whose first payload byte has NAL type 24 (STAP-A),
`PTSEqualsDTS` returns true exactly when the walk over the size-prefixed
NALUs after that byte reaches an IDR (type 5) before a truncated size field,
a zero size or a size larger than what remains, and false otherwise; on a
well-formed STAP-A, exactly when one of its NALUs is an IDR; on the payload
`18 00 02 67 42 00 04 68 CE 3C 80` it returns false. -/
theorem PTSEqualsDTS_stapA (t : H264) (pkt : RTPPacket) (p0 : Byte) (body : List Byte)
    (hpayload : pkt.Payload = p0 :: body) (hstap : p0.val % 32 = 24) :
    (t.PTSEqualsDTS pkt = .ok true ↔ ReachesIDR body) ∧
    (t.PTSEqualsDTS pkt = .ok false ↔ ¬ ReachesIDR body) ∧
    (∀ nalus : List (List Byte), (∀ n ∈ nalus, IsNALU n) → body = stapAUnits nalus →
      (t.PTSEqualsDTS pkt = .ok true ↔ ∃ n ∈ nalus, naluType n = some 5)) ∧
    (body = [0x00, 0x02, 0x67, 0x42, 0x00, 0x04, 0x68, 0xCE, 0x3C, 0x80] →
      t.PTSEqualsDTS pkt = .ok false) := by
  have hrun : t.PTSEqualsDTS pkt = stapALoop body.length body :=
    rtpH264ContainsIDR_stapA pkt p0 body hpayload hstap
  have hiff : t.PTSEqualsDTS pkt = .ok true ↔ ReachesIDR body := by
    rw [hrun]
    rcases stapALoop_spec body.length body (Nat.le_refl _) with ⟨hr, hreach⟩ | ⟨hr, hreach⟩
    · simp [hr, hreach]
    · simp [hr, hreach]
  refine ⟨hiff, ?_, ?_, ?_⟩
  · rw [hrun]
    rcases stapALoop_spec body.length body (Nat.le_refl _) with ⟨hr, hreach⟩ | ⟨hr, hreach⟩
    · simp [hr, hreach]
    · simp [hr, hreach]
  · intro nalus hn hbody
    rw [hiff, hbody]
    exact reachesIDR_stapAUnits nalus hn
  · intro hbody
    rw [hrun, hbody]
    rfl

theorem PTSEqualsDTS_stapA_witness :
    H264.PTSEqualsDTS {}
        { Payload := [0x18, 0x00, 0x02, 0x67, 0x42, 0x00, 0x04, 0x68, 0xCE, 0x3C, 0x80] }
      = .ok false ∧
    ¬ ReachesIDR [0x00, 0x02, 0x67, 0x42, 0x00, 0x04, 0x68, 0xCE, 0x3C, 0x80] :=
  ⟨(PTSEqualsDTS_stapA {}
      { Payload := [0x18, 0x00, 0x02, 0x67, 0x42, 0x00, 0x04, 0x68, 0xCE, 0x3C, 0x80] }
      0x18 _ rfl (by decide)).2.2.2 rfl,
    (PTSEqualsDTS_stapA {}
      { Payload := [0x18, 0x00, 0x02, 0x67, 0x42, 0x00, 0x04, 0x68, 0xCE, 0x3C, 0x80] }
      0x18 _ rfl (by decide)).2.1.mp rfl⟩

/-- C6: on a packet whose first payload byte has NAL type 28 (FU-A),
`PTSEqualsDTS` returns true exactly when the payload has a second byte whose
top bit (the start bit) is set and whose low 5 bits are 5 (IDR), and false
otherwise.  Of the fragments `7C 85 aa`, `7C 05 bb`, `7C 45 cc` of an IDR it
is true for the start fragment and false for the other two. -/
theorem PTSEqualsDTS_fuA (t : H264) (pkt : RTPPacket) (p0 : Byte) (body : List Byte)
    (hpayload : pkt.Payload = p0 :: body) (hfu : p0.val % 32 = 28) :
    (t.PTSEqualsDTS pkt = .ok true ↔
      2 ≤ pkt.Payload.length ∧ ∃ p1, pkt.Payload[1]? = some p1 ∧ 128 ≤ p1.val ∧ p1.val % 32 = 5) ∧
    (t.PTSEqualsDTS pkt = .ok true ∨ t.PTSEqualsDTS pkt = .ok false) ∧
    t.PTSEqualsDTS { Payload := [0x7C, 0x85, 0xAA] } = .ok true ∧
    t.PTSEqualsDTS { Payload := [0x7C, 0x05, 0xBB] } = .ok false ∧
    t.PTSEqualsDTS { Payload := [0x7C, 0x45, 0xCC] } = .ok false := by
  have hshift : ∀ p1 : Byte, p1.val >>> 7 = 1 ↔ 128 ≤ p1.val := by
    intro p1
    rw [Nat.shiftRight_eq_div_pow]
    omega
  refine ⟨?_, ?_, rfl, rfl, rfl⟩
  · cases body with
    | nil => simp [H264.PTSEqualsDTS, rtpH264ContainsIDR, hpayload, index, bind, Except.bind,
        pure, Except.pure, and_0x1F, hfu, NALUTypeIDR]
    | cons p1 rest =>
      have hl : ¬ (rest.length + 1 + 1 < 2) := by omega
      by_cases hstart : 128 ≤ p1.val
      · simp [H264.PTSEqualsDTS, rtpH264ContainsIDR, hpayload, index, bind, Except.bind,
          pure, Except.pure, and_0x1F, hfu, NALUTypeIDR, hshift, hstart, hl]
      · simp [H264.PTSEqualsDTS, rtpH264ContainsIDR, hpayload, index, bind, Except.bind,
          pure, Except.pure, and_0x1F, hfu, NALUTypeIDR, hshift, hstart, hl]
  · cases body with
    | nil => simp [H264.PTSEqualsDTS, rtpH264ContainsIDR, hpayload, index, bind, Except.bind,
        pure, Except.pure, and_0x1F, hfu, NALUTypeIDR]
    | cons p1 rest =>
      have hl : ¬ (rest.length + 1 + 1 < 2) := by omega
      by_cases hstart : 128 ≤ p1.val <;> by_cases hidr : p1.val % 32 = 5 <;>
        simp [H264.PTSEqualsDTS, rtpH264ContainsIDR, hpayload, index, bind, Except.bind,
          pure, Except.pure, and_0x1F, hfu, NALUTypeIDR, hshift, hstart, hidr, hl]

theorem PTSEqualsDTS_fuA_witness :
    (H264.PTSEqualsDTS {} { Payload := [0x7C, 0x85, 0xAA] } = .ok true ↔
      2 ≤ [(0x7C : Byte), 0x85, 0xAA].length ∧
        ∃ p1, [(0x7C : Byte), 0x85, 0xAA][1]? = some p1 ∧ 128 ≤ p1.val ∧ p1.val % 32 = 5) ∧
    H264.PTSEqualsDTS {} { Payload := [0x7C, 0x85, 0xAA] } = .ok true :=
  ⟨(PTSEqualsDTS_fuA {} { Payload := [0x7C, 0x85, 0xAA] } 0x7C [0x85, 0xAA] rfl (by decide)).1,
    (PTSEqualsDTS_fuA {} { Payload := [0x7C, 0x85, 0xAA] } 0x7C [0x85, 0xAA] rfl
      (by decide)).2.2.1⟩

/-- C7: `PTSEqualsDTS` returns false on an empty payload; on a payload whose
first byte has a NAL type (low 5 bits) other than 24 and 28 it returns
whether that type is 5 (IDR), whatever the other bits of the byte and the
bytes after it. -/
theorem PTSEqualsDTS_single_nalu (t : H264) (pkt : RTPPacket) :
    (pkt.Payload = [] → t.PTSEqualsDTS pkt = .ok false) ∧
    (∀ (p0 : Byte) (body : List Byte), pkt.Payload = p0 :: body →
      p0.val % 32 ≠ 24 → p0.val % 32 ≠ 28 →
      t.PTSEqualsDTS pkt = .ok (decide (p0.val % 32 = 5)) ∧
      (t.PTSEqualsDTS pkt = .ok true ↔ p0.val % 32 = 5)) := by
  constructor
  · intro hempty
    simp [H264.PTSEqualsDTS, rtpH264ContainsIDR, hempty]
  · intro p0 body hpayload h24 h28
    by_cases hidr : p0.val % 32 = 5 <;>
      simp [H264.PTSEqualsDTS, rtpH264ContainsIDR, hpayload, index, bind, Except.bind,
        pure, Except.pure, and_0x1F, NALUTypeIDR, h24, h28, hidr]

theorem PTSEqualsDTS_single_nalu_witness :
    H264.PTSEqualsDTS {} { Payload := [] } = .ok false ∧
    H264.PTSEqualsDTS {} { Payload := [0x65, 0x88] } = .ok true ∧
    H264.PTSEqualsDTS {} { Payload := [0x41, 0x9A] } = .ok false :=
  ⟨(PTSEqualsDTS_single_nalu {} { Payload := [] }).1 rfl,
    ((PTSEqualsDTS_single_nalu {} { Payload := [0x65, 0x88] }).2 0x65 [0x88] rfl
      (by decide) (by decide)).1,
    ((PTSEqualsDTS_single_nalu {} { Payload := [0x41, 0x9A] }).2 0x41 [0x9A] rfl
      (by decide) (by decide)).1⟩

/-! ## Properties of `pkg/aac/mpeg4audioconfig.go` -/

theorem natToBits_length (n v : Nat) : (natToBits n v).length = n := by
  induction n with
  | zero => rfl
  | succ n ih => simp [natToBits, ih]

theorem foldl_bits (bs : List Bool) (a : Nat) :
    bs.foldl (fun acc b => 2 * acc + b.toNat) a = a * 2 ^ bs.length + bitsToNat bs := by
  induction bs generalizing a with
  | nil => simp [bitsToNat]
  | cons b bs ih =>
    simp only [List.foldl_cons, bitsToNat, List.length_cons]
    rw [ih, ih (2 * 0 + b.toNat)]
    ring

theorem bitsToNat_append (xs ys : List Bool) :
    bitsToNat (xs ++ ys) = bitsToNat xs * 2 ^ ys.length + bitsToNat ys := by
  unfold bitsToNat
  rw [List.foldl_append, foldl_bits]
  rfl

theorem bitsToNat_natToBits (n v : Nat) : bitsToNat (natToBits n v) = v % 2 ^ n := by
  induction n with
  | zero => simp [natToBits, bitsToNat, Nat.mod_one]
  | succ n ih =>
    have h : natToBits (n + 1) v = [v.testBit n] ++ natToBits n v := rfl
    rw [h, bitsToNat_append, ih, natToBits_length, Nat.mod_pow_succ]
    have ht : bitsToNat [v.testBit n] = v / 2 ^ n % 2 := by
      simp [bitsToNat, Nat.toNat_testBit]
    rw [ht]
    ring

theorem byte_roundtrip : ∀ b7 b6 b5 b4 b3 b2 b1 b0 : Bool,
    byteToBits (bitsToByte [b7, b6, b5, b4, b3, b2, b1, b0]) = [b7, b6, b5, b4, b3, b2, b1, b0] := by
  decide

theorem bytesToBits_cons (b : Byte) (bs : List Byte) :
    bytesToBits (b :: bs) = byteToBits b ++ bytesToBits bs := by
  simp [bytesToBits]

/-- Reading back what a closed writer emitted: the bits written, then the zero padding. -/
theorem bytesToBits_packBits : ∀ W : List Bool,
    bytesToBits (packBits W) = W ++ List.replicate ((8 - W.length % 8) % 8) false
  | [] => rfl
  | [a] => by simp [packBits, bytesToBits_cons, byte_roundtrip, bytesToBits, List.replicate]
  | [a, b] => by simp [packBits, bytesToBits_cons, byte_roundtrip, bytesToBits, List.replicate]
  | [a, b, c] => by simp [packBits, bytesToBits_cons, byte_roundtrip, bytesToBits, List.replicate]
  | [a, b, c, d] => by
    simp [packBits, bytesToBits_cons, byte_roundtrip, bytesToBits, List.replicate]
  | [a, b, c, d, e] => by
    simp [packBits, bytesToBits_cons, byte_roundtrip, bytesToBits, List.replicate]
  | [a, b, c, d, e, f] => by
    simp [packBits, bytesToBits_cons, byte_roundtrip, bytesToBits, List.replicate]
  | [a, b, c, d, e, f, g] => by
    simp [packBits, bytesToBits_cons, byte_roundtrip, bytesToBits, List.replicate]
  | b7 :: b6 :: b5 :: b4 :: b3 :: b2 :: b1 :: b0 :: rest => by
    have ih := bytesToBits_packBits rest
    have hl : (rest.length + 1 + 1 + 1 + 1 + 1 + 1 + 1 + 1) % 8 = rest.length % 8 := by omega
    simp only [packBits, bytesToBits_cons, byte_roundtrip, ih, List.length_cons, hl]
    simp

theorem length_packBits : ∀ W : List Bool, (packBits W).length = (W.length + 7) / 8
  | [] => rfl
  | [a] => by simp [packBits]
  | [a, b] => by simp [packBits]
  | [a, b, c] => by simp [packBits]
  | [a, b, c, d] => by simp [packBits]
  | [a, b, c, d, e] => by simp [packBits]
  | [a, b, c, d, e, f] => by simp [packBits]
  | [a, b, c, d, e, f, g] => by simp [packBits]
  | b7 :: b6 :: b5 :: b4 :: b3 :: b2 :: b1 :: b0 :: rest => by
    have ih := length_packBits rest
    simp only [packBits, List.length_cons, ih]
    omega

theorem isoTables_reverse (r : Int) : isoTables.reverseSampleRates r =
    if r = 96000 then some 0
    else if r = 88200 then some 1
    else if r = 64000 then some 2
    else if r = 48000 then some 3
    else if r = 44100 then some 4
    else if r = 32000 then some 5
    else if r = 24000 then some 6
    else if r = 22050 then some 7
    else if r = 16000 then some 8
    else if r = 12000 then some 9
    else if r = 11025 then some 10
    else if r = 8000 then some 11
    else if r = 7350 then some 12
    else none := rfl

theorem ite_some_eq (r a : Int) (b i : Int) (e : Option Int) :
    (if r = a then some b else e) = some i ↔ (r = a ∧ i = b) ∨ (e = some i) ∧ r ≠ a := by
  by_cases h : r = a <;> simp [h, eq_comm]

theorem isoTables_inverse : isoTables.Inverse := by
  intro r i
  have hs : isoTables.sampleRates = isoSampleRates := rfl
  rw [isoTables_reverse, hs]
  constructor
  · intro h
    simp only [ite_some_eq] at h
    have hnone : ¬ ((none : Option Int) = some i) := by simp
    rcases h with ⟨rfl, rfl⟩ | ⟨⟨rfl, rfl⟩ | ⟨⟨rfl, rfl⟩ | ⟨⟨rfl, rfl⟩ | ⟨⟨rfl, rfl⟩ | ⟨⟨rfl, rfl⟩ |
      ⟨⟨rfl, rfl⟩ | ⟨⟨rfl, rfl⟩ | ⟨⟨rfl, rfl⟩ | ⟨⟨rfl, rfl⟩ | ⟨⟨rfl, rfl⟩ | ⟨⟨rfl, rfl⟩ |
      ⟨⟨rfl, rfl⟩ | ⟨h, -⟩, -⟩, -⟩, -⟩, -⟩, -⟩, -⟩, -⟩, -⟩, -⟩, -⟩, -⟩, -⟩
    all_goals first
      | exact absurd h hnone
      | exact ⟨by decide, by decide, by simp [isoSampleRates]⟩
  · rintro ⟨h0, h13, hget⟩
    interval_cases i <;> simp [isoSampleRates] at hget <;> subst hget <;> rfl

theorem readBitsOrReturn_field (c : MPEG4AudioConfig) (n v : Nat) (rest : List Bool) :
    readBitsOrReturn c ⟨natToBits n v ++ rest⟩ n = .ok (v % 2 ^ n, ⟨rest⟩) := by
  have hl := natToBits_length n v
  simp [readBitsOrReturn, BitReader.ReadBits, hl, List.take_left', List.drop_left',
    bitsToNat_natToBits]

theorem bufferAfterWrites_full (size : Nat) (written : List Byte) (h : written.length = size) :
    bufferAfterWrites size written = written := by
  simp [bufferAfterWrites, ← h]

theorem marshal_eq (tbl : AACTables) (c : MPEG4AudioConfig) (ch : Int)
    (h : (1 ≤ c.ChannelCount ∧ c.ChannelCount ≤ 6 ∧ ch = c.ChannelCount) ∨
      (c.ChannelCount = 8 ∧ ch = 7)) :
    c.Marshal tbl
      = .ok (bufferAfterWrites (c.marshalSize tbl) (packBits (marshalBits tbl c ch))) := by
  obtain ⟨ty, sr, cc, fl, dep, d⟩ := c
  simp only at h
  simp only [MPEG4AudioConfig.Marshal, marshalBits, BitWriter.WriteBits, BitWriter.Close,
    bind, Except.bind, pure, Except.pure]
  rcases h with ⟨h1, h2, h3⟩ | ⟨h1, h3⟩
  · subst h3
    have hc : ch ≥ 1 ∧ ch ≤ 6 := ⟨h1, h2⟩
    cases hrs : tbl.reverseSampleRates sr <;> cases fl <;> cases dep <;>
      simp [hc, List.append_assoc]
  · subst h1 h3
    cases hrs : tbl.reverseSampleRates sr <;> cases fl <;> cases dep <;>
      simp [List.append_assoc]

theorem marshalBits_length (tbl : AACTables) (c : MPEG4AudioConfig) (ch : Int) :
    (marshalBits tbl c ch).length =
      15 + (if tbl.reverseSampleRates c.SampleRate = none then 24 else 0)
        + (if c.DependsOnCoreCoder then 14 else 0) := by
  obtain ⟨ty, sr, cc, fl, dep, d⟩ := c
  cases hrs : tbl.reverseSampleRates sr <;> cases dep <;>
    simp [marshalBits, hrs, natToBits_length]

theorem marshal_written_length (tbl : AACTables) (c : MPEG4AudioConfig) (ch : Int) :
    (packBits (marshalBits tbl c ch)).length = c.marshalSize tbl ∧
    ∃ pad, List.replicate ((8 - (marshalBits tbl c ch).length % 8) % 8) false = false :: pad := by
  rw [length_packBits, marshalBits_length]
  obtain ⟨ty, sr, cc, fl, dep, d⟩ := c
  cases hrs : tbl.reverseSampleRates sr <;> cases dep <;>
    simp [MPEG4AudioConfig.marshalSize, hrs, List.replicate]

theorem unmarshalSampleRate_index (tbl : AACTables) (c : MPEG4AudioConfig) (sr i : Int)
    (rest : List Bool) (hinv : tbl.Inverse) (hrs : tbl.reverseSampleRates sr = some i) :
    unmarshalSampleRate tbl c ⟨natToBits 4 (toUint64 i) ++ rest⟩
      = .ok ({ c with SampleRate := sr }, ⟨rest⟩) := by
  obtain ⟨h0, h13, hget⟩ := (hinv sr i).mp hrs
  have hv : toUint64 i % 16 = i.toNat := by unfold toUint64; omega
  have hle : i.toNat ≤ 12 := by omega
  simp [unmarshalSampleRate, readBitsOrReturn_field, bind, Except.bind, pure, Except.pure, hv,
    hle, hget]

theorem unmarshalSampleRate_explicit (tbl : AACTables) (c : MPEG4AudioConfig) (sr : Int)
    (rest : List Bool) (h0 : 0 ≤ sr) (h1 : sr < 2 ^ 24) :
    unmarshalSampleRate tbl c ⟨natToBits 4 15 ++ (natToBits 24 (toUint64 sr) ++ rest)⟩
      = .ok ({ c with SampleRate := sr }, ⟨rest⟩) := by
  have hv : ((toUint64 sr : Nat) : Int) % 16777216 = sr := by unfold toUint64; omega
  simp only [unmarshalSampleRate, readBitsOrReturn_field, bind, Except.bind, pure, Except.pure]
  simp [hv]

theorem unmarshalChannelConfig_marshal (c : MPEG4AudioConfig) (cc ch : Int) (rest : List Bool)
    (hch : (1 ≤ cc ∧ cc ≤ 6 ∧ ch = cc) ∨ (cc = 8 ∧ ch = 7)) :
    unmarshalChannelConfig c ⟨natToBits 4 (toUint64 ch) ++ rest⟩
      = .ok ({ c with ChannelCount := cc }, ⟨rest⟩) := by
  have hv : toUint64 ch % 2 ^ 4 = ch.toNat := by unfold toUint64; omega
  simp only [unmarshalChannelConfig, readBitsOrReturn_field, bind, Except.bind, pure,
    Except.pure, hv]
  rcases hch with ⟨h1, h6, rfl⟩ | ⟨rfl, rfl⟩
  · have hne : ¬ ch.toNat = 0 := by omega
    have hin : ch.toNat ≥ 1 ∧ ch.toNat ≤ 6 := by omega
    have hcast : ((ch.toNat : Nat) : Int) = ch := by omega
    simp [hne, hin, hcast]
  · simp

theorem unmarshalFlags_marshal (c : MPEG4AudioConfig) (fl dep : Bool) (d : Nat)
    (pad : List Bool)
    (hdelay : if dep then d < 2 ^ 14 else d = c.CoreCoderDelay) :
    unmarshalFlags c ⟨natToBits 1 (if fl then 1 else 0) ++
        (natToBits 1 (if dep then 1 else 0) ++
          ((if dep then natToBits 14 d else []) ++ false :: pad))⟩
      = .ok { c with FrameLengthFlag := fl, DependsOnCoreCoder := dep, CoreCoderDelay := d } := by
  have hext : ∀ c0 : MPEG4AudioConfig,
      readBitsOrReturn c0 ⟨false :: pad⟩ 1 = .ok (0, ⟨pad⟩) := by
    intro c0
    simp [readBitsOrReturn, BitReader.ReadBits, bitsToNat]
  cases dep
  · simp only [Bool.false_eq_true, if_false] at hdelay
    subst hdelay
    cases fl <;>
      simp [unmarshalFlags, readBitsOrReturn_field, bind, Except.bind, pure, Except.pure, hext]
  · simp only [if_true] at hdelay
    have hd1 : d % 16384 = d := Nat.mod_eq_of_lt hdelay
    have hd2 : d % 65536 = d := Nat.mod_eq_of_lt (by omega)
    cases fl <;>
      simp [unmarshalFlags, readBitsOrReturn_field, bind, Except.bind, pure, Except.pure, hext,
        hd1, hd2]

theorem unmarshal_marshalBits (tbl : AACTables) (c : MPEG4AudioConfig) (ch : Int)
    (byts : List Byte) (pad : List Bool)
    (hbits : BitReader.new byts = ⟨marshalBits tbl c ch ++ false :: pad⟩)
    (hlc : 0 ≤ tbl.MPEG4AudioTypeAACLC ∧ tbl.MPEG4AudioTypeAACLC < 32)
    (hinv : tbl.Inverse)
    (htyp : c.Typ = tbl.MPEG4AudioTypeAACLC)
    (hch : (1 ≤ c.ChannelCount ∧ c.ChannelCount ≤ 6 ∧ ch = c.ChannelCount) ∨
      (c.ChannelCount = 8 ∧ ch = 7))
    (hsr : tbl.reverseSampleRates c.SampleRate = none → 0 ≤ c.SampleRate ∧ c.SampleRate < 2 ^ 24)
    (hdelay : if c.DependsOnCoreCoder then c.CoreCoderDelay < 2 ^ 14 else c.CoreCoderDelay = 0) :
    MPEG4AudioConfig.Unmarshal tbl {} byts = .ok c := by
  obtain ⟨ty, sr, cc, fl, dep, d⟩ := c
  simp only at htyp hch hsr hdelay
  subst htyp
  have hty : ((toUint64 tbl.MPEG4AudioTypeAACLC % 2 ^ 5 : Nat) : Int)
      = tbl.MPEG4AudioTypeAACLC := by
    unfold toUint64; omega
  have hflags := fun c0 : MPEG4AudioConfig => unmarshalFlags_marshal c0 fl dep d pad
  unfold MPEG4AudioConfig.Unmarshal
  simp only [hbits, marshalBits, List.append_assoc, bind, Except.bind, readBitsOrReturn_field,
    hty, ne_eq, not_true_eq_false, if_false, pure, Except.pure]
  cases hrs : tbl.reverseSampleRates sr with
  | none =>
    obtain ⟨hs0, hs1⟩ := hsr hrs
    simp only [List.append_assoc, unmarshalSampleRate_explicit tbl _ sr _ hs0 hs1,
      unmarshalChannelConfig_marshal _ cc ch _ hch]
    exact hflags _ (by simpa using hdelay)
  | some i =>
    simp only [unmarshalSampleRate_index tbl _ sr i _ hinv hrs,
      unmarshalChannelConfig_marshal _ cc ch _ hch]
    exact hflags _ (by simpa using hdelay)

/-- C8: `Unmarshal` undoes `Marshal`.  For a config `c` with `Type` AAC-LC,
`ChannelCount` one of 1,2,3,4,5,6,8, `SampleRate` in the sample-rate table or in
`0..2^24-1`, and `CoreCoderDelay` below `2^14` when `DependsOnCoreCoder` is set
and 0 otherwise, `Marshal` returns bytes (as many as `marshalSize` says) and
`Unmarshal` of them into a zero-valued config returns no error and leaves
exactly `c`; `reverseSampleRates` is assumed to be the inverse of the 13-entry
table, and the constant AAC-LC to fit the 5-bit type field. -/
theorem marshal_unmarshal_roundtrip (tbl : AACTables) (c : MPEG4AudioConfig)
    (hlc : 0 ≤ tbl.MPEG4AudioTypeAACLC ∧ tbl.MPEG4AudioTypeAACLC < 32)
    (hinv : tbl.Inverse)
    (htyp : c.Typ = tbl.MPEG4AudioTypeAACLC)
    (hch : c.ChannelCount ∈ [1, 2, 3, 4, 5, 6, 8])
    (hsr : (∃ i : Int, 0 ≤ i ∧ i < 13 ∧ tbl.sampleRates[i.toNat]? = some c.SampleRate) ∨
      (0 ≤ c.SampleRate ∧ c.SampleRate < 2 ^ 24))
    (hdelay : if c.DependsOnCoreCoder then c.CoreCoderDelay < 2 ^ 14 else c.CoreCoderDelay = 0) :
    ∃ byts, c.Marshal tbl = .ok byts ∧ byts.length = c.marshalSize tbl ∧
      MPEG4AudioConfig.Unmarshal tbl {} byts = .ok c := by
  have hch2 : ∃ ch : Int, (1 ≤ c.ChannelCount ∧ c.ChannelCount ≤ 6 ∧ ch = c.ChannelCount) ∨
      (c.ChannelCount = 8 ∧ ch = 7) := by
    simp only [List.mem_cons, List.mem_singleton, List.not_mem_nil, or_false] at hch
    by_cases h8 : c.ChannelCount = 8
    · exact ⟨7, Or.inr ⟨h8, rfl⟩⟩
    · exact ⟨c.ChannelCount, Or.inl ⟨by omega, by omega, rfl⟩⟩
  obtain ⟨ch, hch3⟩ := hch2
  obtain ⟨hlen, pad, hpad⟩ := marshal_written_length tbl c ch
  have hm := marshal_eq tbl c ch hch3
  rw [bufferAfterWrites_full _ _ hlen] at hm
  refine ⟨_, hm, hlen, ?_⟩
  apply unmarshal_marshalBits tbl c ch _ pad ?_ hlc hinv htyp hch3 ?_ hdelay
  · simp only [BitReader.new, bytesToBits_packBits, hpad]
  · intro hnone
    rcases hsr with ⟨i, h0, h13, hget⟩ | h
    · have := (hinv c.SampleRate i).mpr ⟨h0, h13, hget⟩
      rw [hnone] at this
      cases this
    · exact h

theorem marshal_unmarshal_roundtrip_witness :
    (∃ byts, MPEG4AudioConfig.Marshal isoTables
          { Typ := 2, SampleRate := 48000, ChannelCount := 2 } = .ok byts ∧
        byts.length = MPEG4AudioConfig.marshalSize isoTables
          { Typ := 2, SampleRate := 48000, ChannelCount := 2 } ∧
        MPEG4AudioConfig.Unmarshal isoTables {} byts
          = .ok { Typ := 2, SampleRate := 48000, ChannelCount := 2 }) ∧
    (∃ byts, MPEG4AudioConfig.Marshal isoTables
          { Typ := 2, SampleRate := 48001, ChannelCount := 8, FrameLengthFlag := true,
            DependsOnCoreCoder := true, CoreCoderDelay := 1234 } = .ok byts ∧
        byts.length = MPEG4AudioConfig.marshalSize isoTables
          { Typ := 2, SampleRate := 48001, ChannelCount := 8, FrameLengthFlag := true,
            DependsOnCoreCoder := true, CoreCoderDelay := 1234 } ∧
        MPEG4AudioConfig.Unmarshal isoTables {} byts
          = .ok { Typ := 2, SampleRate := 48001, ChannelCount := 8, FrameLengthFlag := true,
                  DependsOnCoreCoder := true, CoreCoderDelay := 1234 }) :=
  ⟨marshal_unmarshal_roundtrip isoTables { Typ := 2, SampleRate := 48000, ChannelCount := 2 }
      (by decide) isoTables_inverse rfl (by decide)
      (Or.inl ⟨3, by decide, by decide, by simp [isoTables, isoSampleRates]⟩) (by decide),
    marshal_unmarshal_roundtrip isoTables
      { Typ := 2, SampleRate := 48001, ChannelCount := 8, FrameLengthFlag := true,
        DependsOnCoreCoder := true, CoreCoderDelay := 1234 }
      (by decide) isoTables_inverse rfl (by decide)
      (Or.inr ⟨by decide, by decide⟩) (by decide)⟩

/-! ## Properties of the SDP parameters of `pkg/format/h264.go` -/

/-- C11: for every H264 format value, whatever its `PayloadTyp`, `SPS`,
`PPS` and `PacketizationMode` (and whatever base64 codec), `ClockRate` returns
90000 and the rtpmap string `Marshal` returns is exactly `H264/90000`. -/
theorem h264_clock_is_90kHz (b64 : Base64) (t : H264) :
    t.ClockRate = 90000 ∧ (t.Marshal b64).1 = "H264/90000".toList := by
  exact ⟨rfl, rfl⟩

/-- C17: `Marshal` returns an error exactly when `ChannelCount` is not one of
1, 2, 3, 4, 5, 6, 8; for every other config, whatever its `Type`, `SampleRate`
and `CoreCoderDelay`, it returns a byte string (of `marshalSize` bytes) and no
error. -/
theorem marshal_error_iff (tbl : AACTables) (c : MPEG4AudioConfig) :
    ((∃ e, c.Marshal tbl = .error e) ↔ c.ChannelCount ∉ [1, 2, 3, 4, 5, 6, 8]) ∧
    (c.ChannelCount ∈ [1, 2, 3, 4, 5, 6, 8] →
      ∃ byts, c.Marshal tbl = .ok byts ∧ byts.length = c.marshalSize tbl) := by
  have hmem : c.ChannelCount ∈ [1, 2, 3, 4, 5, 6, 8] ↔
      ((1 ≤ c.ChannelCount ∧ c.ChannelCount ≤ 6) ∨ c.ChannelCount = 8) := by
    simp only [List.mem_cons, List.mem_singleton, List.not_mem_nil, or_false]
    omega
  have hok : c.ChannelCount ∈ [1, 2, 3, 4, 5, 6, 8] →
      ∃ byts, c.Marshal tbl = .ok byts ∧ byts.length = c.marshalSize tbl := by
    intro h
    obtain ⟨ch, hch⟩ : ∃ ch : Int,
        (1 ≤ c.ChannelCount ∧ c.ChannelCount ≤ 6 ∧ ch = c.ChannelCount) ∨
          (c.ChannelCount = 8 ∧ ch = 7) := by
      rcases hmem.mp h with ⟨h1, h6⟩ | h8
      · exact ⟨c.ChannelCount, Or.inl ⟨h1, h6, rfl⟩⟩
      · exact ⟨7, Or.inr ⟨h8, rfl⟩⟩
    have hm := marshal_eq tbl c ch hch
    rw [bufferAfterWrites_full _ _ (marshal_written_length tbl c ch).1] at hm
    exact ⟨_, hm, (marshal_written_length tbl c ch).1⟩
  refine ⟨⟨?_, ?_⟩, hok⟩
  · rintro ⟨e, he⟩ hin
    obtain ⟨byts, hb, _⟩ := hok hin
    rw [hb] at he
    cases he
  · intro hnot
    have h1 : ¬ (c.ChannelCount ≥ 1 ∧ c.ChannelCount ≤ 6) := fun h => hnot (hmem.mpr (Or.inl h))
    have h8 : ¬ c.ChannelCount = 8 := fun h => hnot (hmem.mpr (Or.inr h))
    refine ⟨.invalidChannelCount c.ChannelCount, ?_⟩
    simp [MPEG4AudioConfig.Marshal, bind, Except.bind, h1, h8, throw, throwThe,
      MonadExceptOf.throw]

theorem marshal_error_iff_witness :
    (∃ e, MPEG4AudioConfig.Marshal isoTables
        { Typ := 2, SampleRate := 48000, ChannelCount := 7 } = .error e) ∧
    (∃ byts, MPEG4AudioConfig.Marshal isoTables
        { Typ := 40, SampleRate := -5, ChannelCount := 8, CoreCoderDelay := 70000 } = .ok byts ∧
      byts.length = MPEG4AudioConfig.marshalSize isoTables
        { Typ := 40, SampleRate := -5, ChannelCount := 8, CoreCoderDelay := 70000 }) :=
  ⟨(marshal_error_iff isoTables { Typ := 2, SampleRate := 48000, ChannelCount := 7 }).1.mpr
      (by decide),
    (marshal_error_iff isoTables
      { Typ := 40, SampleRate := -5, ChannelCount := 8, CoreCoderDelay := 70000 }).2
      (by decide)⟩

/-! ## Totality of `rtpH264ContainsIDR` -/

theorem stapAStep_short (body : List Byte) (h : body.length < 2) :
    stapAStep body = .ok (.inl false) := by
  simp [stapAStep, h]

theorem stapAStep_bad_size (b0 b1 : Byte) (rest : List Byte)
    (h : be16 b0 b1 = 0 ∨ be16 b0 b1 > rest.length) :
    stapAStep (b0 :: b1 :: rest) = .ok (.inl false) := by
  simp [stapAStep, index, sliceFrom, bind, Except.bind, pure, Except.pure, h]

theorem stapAStep_unit (b0 b1 n0 : Byte) (rest : List Byte)
    (hpos : 0 < be16 b0 b1) (hfit : be16 b0 b1 ≤ rest.length + 1) :
    stapAStep (b0 :: b1 :: n0 :: rest) =
      if n0.val % 32 = 5 then .ok (.inl true)
      else .ok (.inr ((n0 :: rest).drop (be16 b0 b1))) := by
  obtain ⟨k, hk⟩ : ∃ k, be16 b0 b1 = k + 1 := ⟨be16 b0 b1 - 1, by omega⟩
  rw [hk] at hfit
  simp only [stapAStep, index, sliceFrom, sliceTo, bind, Except.bind, pure, Except.pure, hk,
    List.length_cons, and_0x1F, NALUTypeIDR]
  have h2 : ¬ (rest.length + 1 + 1 + 1 < 2) := by omega
  have h3 : ¬ (rest.length < k) := by omega
  simp [hk, hfit, h2, h3]

/-- The loop is the iteration of its body. -/
theorem stapALoop_succ (fuel : Nat) (body : List Byte) (hne : 0 < body.length) :
    stapALoop (fuel + 1) body =
      match stapAStep body with
      | .error f => .error f
      | .ok (.inl result) => .ok result
      | .ok (.inr next) => stapALoop fuel next := by
  match body, hne with
  | [b], _ => rw [stapALoop_short fuel [b] (by simp), stapAStep_short [b] (by simp)]
  | [b0, b1], _ =>
    rw [stapALoop_bad_size fuel b0 b1 [] (by simp; omega),
      stapAStep_bad_size b0 b1 [] (by simp; omega)]
  | b0 :: b1 :: n0 :: rest, _ =>
    by_cases hbad : be16 b0 b1 = 0 ∨ be16 b0 b1 > rest.length + 1
    · rw [stapALoop_bad_size fuel b0 b1 (n0 :: rest) (by simpa using hbad),
        stapAStep_bad_size b0 b1 (n0 :: rest) (by simpa using hbad)]
    · have hpos : 0 < be16 b0 b1 := by omega
      have hfit : be16 b0 b1 ≤ rest.length + 1 := by omega
      rw [stapALoop_unit fuel b0 b1 n0 rest hpos hfit, stapAStep_unit b0 b1 n0 rest hpos hfit]
      by_cases hidr : n0.val % 32 = 5 <;> simp [hidr]

/-- An iteration never faults, and when the loop goes on, what remains is at
least 3 bytes shorter. -/
theorem stapAStep_safe (body : List Byte) :
    (stapAStep body = .ok (.inl true) ∨ stapAStep body = .ok (.inl false) ∨
      ∃ next, stapAStep body = .ok (.inr next) ∧ next.length + 3 ≤ body.length) := by
  match body with
  | [] => exact Or.inr (Or.inl (stapAStep_short [] (by simp)))
  | [b] => exact Or.inr (Or.inl (stapAStep_short [b] (by simp)))
  | [b0, b1] => exact Or.inr (Or.inl (stapAStep_bad_size b0 b1 [] (by simp; omega)))
  | b0 :: b1 :: n0 :: rest =>
    by_cases hbad : be16 b0 b1 = 0 ∨ be16 b0 b1 > rest.length + 1
    · exact Or.inr (Or.inl (stapAStep_bad_size b0 b1 (n0 :: rest) (by simpa using hbad)))
    · have hpos : 0 < be16 b0 b1 := by omega
      have hfit : be16 b0 b1 ≤ rest.length + 1 := by omega
      rw [stapAStep_unit b0 b1 n0 rest hpos hfit]
      by_cases hidr : n0.val % 32 = 5
      · simp [hidr]
      · refine Or.inr (Or.inr ⟨(n0 :: rest).drop (be16 b0 b1), by simp [hidr], ?_⟩)
        simp only [List.length_drop, List.length_cons]
        omega

/-- With one unit of fuel for every 3 bytes the loop returns a result. -/
theorem stapALoop_returns (fuel : Nat) : ∀ body : List Byte, body.length ≤ 3 * fuel →
    ∃ b, stapALoop fuel body = .ok b := by
  induction fuel with
  | zero =>
    intro body h
    have hnil : body = [] := List.length_eq_zero.mp (by omega)
    subst hnil
    exact ⟨false, rfl⟩
  | succ fuel ih =>
    intro body h
    by_cases hne : 0 < body.length
    · rw [stapALoop_succ fuel body hne]
      rcases stapAStep_safe body with hs | hs | ⟨next, hs, hlen⟩
      · exact ⟨true, by rw [hs]⟩
      · exact ⟨false, by rw [hs]⟩
      · rw [hs]
        exact ih next (by omega)
    · have hnil : body = [] := List.length_eq_zero.mp (by omega)
      subst hnil
      exact ⟨false, rfl⟩

/-- C18: `rtpH264ContainsIDR` is total.  On every payload it returns a
boolean, without an index or a slice outside the payload (those are faults of
the embedding, and none occurs).  The STAP-A walk terminates: an iteration of
its loop either returns or leaves a payload at least 3 bytes shorter, so one
iteration for every 3 bytes is enough, and the loop is the iteration of that
body. -/
theorem rtpH264ContainsIDR_total (pkt : RTPPacket) :
    (∃ b, rtpH264ContainsIDR pkt = .ok b) ∧
    (∀ body : List Byte, stapAStep body = .ok (.inl true) ∨ stapAStep body = .ok (.inl false) ∨
      ∃ next, stapAStep body = .ok (.inr next) ∧ next.length + 3 ≤ body.length) ∧
    (∀ (fuel : Nat) (body : List Byte), 0 < body.length →
      stapALoop (fuel + 1) body =
        match stapAStep body with
        | .error f => .error f
        | .ok (.inl result) => .ok result
        | .ok (.inr next) => stapALoop fuel next) ∧
    (∀ (fuel : Nat) (body : List Byte), body.length ≤ 3 * fuel →
      ∃ b, stapALoop fuel body = .ok b) := by
  refine ⟨?_, stapAStep_safe, stapALoop_succ, stapALoop_returns⟩
  cases hp : pkt.Payload with
  | nil => exact ⟨false, by simp [rtpH264ContainsIDR, hp]⟩
  | cons p0 body =>
    by_cases h5 : p0.val % 32 = 5
    · exact ⟨true, by simp [rtpH264ContainsIDR, hp, index, bind, Except.bind, pure,
        Except.pure, and_0x1F, NALUTypeIDR, h5]⟩
    · by_cases h24 : p0.val % 32 = 24
      · rw [rtpH264ContainsIDR_stapA pkt p0 body hp h24]
        exact stapALoop_returns body.length body (by omega)
      · by_cases h28 : p0.val % 32 = 28
        · cases body with
          | nil => exact ⟨false, by simp [rtpH264ContainsIDR, hp, index, bind, Except.bind,
              pure, Except.pure, and_0x1F, NALUTypeIDR, h28]⟩
          | cons p1 rest =>
            have hl : ¬ (rest.length + 1 + 1 < 2) := by omega
            by_cases hstart : p1.val >>> 7 = 1
            · exact ⟨decide (p1.val % 32 = 5), by simp [rtpH264ContainsIDR, hp, index, bind,
                Except.bind, pure, Except.pure, and_0x1F, NALUTypeIDR, h28, hl, hstart]⟩
            · exact ⟨false, by simp [rtpH264ContainsIDR, hp, index, bind, Except.bind, pure,
                Except.pure, and_0x1F, NALUTypeIDR, h28, hl, hstart]⟩
        · exact ⟨false, by simp [rtpH264ContainsIDR, hp, index, bind, Except.bind, pure,
            Except.pure, and_0x1F, NALUTypeIDR, h5, h24, h28]⟩

/-! ## Packet size limits and per-format state of `server_session_media.go` -/

/-- C13 (the code departs from the claim in `readRTPTCPRecord`): the three UDP
handlers drop a payload of `maxPacketSize+1` bytes with one warning, and the
two RTCP handlers of TCP drop a payload longer than `maxPacketSize` with one
warning; none of them forwards or delivers it.  `readRTPTCPRecord` has no
size check: a payload of any length that decodes as RTP with a payload type
of the medium is handed to the format, without a warning. -/
theorem readRTPTCPRecord_has_no_size_limit (env : ReadEnv) (sm : serverSessionMedia)
    (payload : List Byte) (pkt : RTPPacket) (forma : serverSessionFormat)
    (hdecode : env.rtpUnmarshal payload = .ok pkt)
    (hknown : mapLookup sm.formats pkt.Header.PayloadType = some forma) :
    sm.readRTPTCPRecord env payload = ([.formatReadRTPTCP forma pkt], none) ∧
    (∀ p : List Byte, p.length = env.maxPacketSize + 1 →
      sm.readRTPUDPRecord env p
          = ([.addBytesReceived p.length, .onWarning .rtpTooBigUDP], none) ∧
        sm.readRTCPUDPRecord env p
          = ([.addBytesReceived p.length, .onWarning .rtcpTooBigUDP], none) ∧
        sm.readRTCPUDPPlay env p
          = ([.addBytesReceived p.length, .onWarning .rtcpTooBigUDP], none)) ∧
    (∀ p : List Byte, p.length > env.maxPacketSize →
      sm.readRTCPTCPRecord env p
          = ([.onWarning (.rtcpTooBigTCP p.length env.maxPacketSize)], none) ∧
        sm.readRTCPTCPPlay env p
          = ([.onWarning (.rtcpTooBigTCP p.length env.maxPacketSize)], none)) := by
  refine ⟨by simp [serverSessionMedia.readRTPTCPRecord, hdecode, hknown], ?_, ?_⟩
  · intro p hp
    simp [serverSessionMedia.readRTPUDPRecord, serverSessionMedia.readRTCPUDPRecord,
      serverSessionMedia.readRTCPUDPPlay, hp]
  · intro p hp
    simp [serverSessionMedia.readRTCPTCPRecord, serverSessionMedia.readRTCPTCPPlay, hp]

theorem readRTPTCPRecord_has_no_size_limit_witness :
    sampleOversizeDatagram96.length = 1485 ∧ sampleEnv.maxPacketSize = 1472 ∧
    forwardedOf ((sampleRecordMedia .TCP).readRTPTCPRecord sampleEnv sampleOversizeDatagram96).1
      = [{ Header := { Version := 2, PayloadType := 96, SequenceNumber := 1, SSRC := 1 },
           Payload := List.replicate 1473 0 }] ∧
    warningsOf ((sampleRecordMedia .TCP).readRTPTCPRecord sampleEnv sampleOversizeDatagram96).1
      = [] := by
  have h := (readRTPTCPRecord_has_no_size_limit sampleEnv (sampleRecordMedia .TCP)
    sampleOversizeDatagram96
    { Header := { Version := 2, PayloadType := 96, SequenceNumber := 1, SSRC := 1 },
      Payload := List.replicate 1473 0 }
    { format := { PayloadTyp := 96 } } rfl rfl).1
  refine ⟨by rw [sampleOversizeDatagram96, List.length_append, List.length_replicate]; rfl,
    rfl, ?_, ?_⟩
  · rw [h]; rfl
  · rw [h]; rfl

theorem mapLookup_isSome_iff (m : List (Byte × serverSessionFormat)) (k : Byte) :
    (∃ sf, mapLookup m k = some sf) ↔ k ∈ m.map Prod.fst := by
  induction m with
  | nil => simp [mapLookup]
  | cons kv rest ih =>
    obtain ⟨k1, v1⟩ := kv
    by_cases h : k1 = k
    · simp [mapLookup, h]
    · have h2 : ¬ k = k1 := fun e => h e.symm
      simp [mapLookup, h, h2, ih]

theorem keys_mapInsert (m : List (Byte × serverSessionFormat)) (k : Byte)
    (v : serverSessionFormat) (x : Byte) :
    x ∈ (mapInsert m k v).map Prod.fst ↔ x = k ∨ x ∈ m.map Prod.fst := by
  induction m with
  | nil => simp [mapInsert]
  | cons kv rest ih =>
    obtain ⟨k1, v1⟩ := kv
    by_cases h : k1 = k
    · subst h
      simp [mapInsert]
    · simp only [mapInsert, h, if_false, List.map_cons, List.mem_cons, ih]
      tauto

theorem nodup_mapInsert (m : List (Byte × serverSessionFormat)) (k : Byte)
    (v : serverSessionFormat) (h : (m.map Prod.fst).Nodup) :
    ((mapInsert m k v).map Prod.fst).Nodup := by
  induction m with
  | nil => simp [mapInsert]
  | cons kv rest ih =>
    obtain ⟨k1, v1⟩ := kv
    simp only [List.map_cons, List.nodup_cons] at h
    by_cases hk : k1 = k
    · subst hk
      simpa [mapInsert] using h
    · have hstep : mapInsert ((k1, v1) :: rest) k v = (k1, v1) :: mapInsert rest k v := by
        simp [mapInsert, hk]
      rw [hstep, List.map_cons, List.nodup_cons]
      refine ⟨?_, ih h.2⟩
      intro hmem
      rcases (keys_mapInsert rest k v k1).mp hmem with h1 | h1
      · exact hk h1
      · exact h.1 h1

/-- The keys of the map that the loop of `newServerSessionMedia` builds from
`m0`. -/
theorem keys_formats_loop (fs : List Format) : ∀ (m0 : List (Byte × serverSessionFormat)) (x : Byte),
    x ∈ (fs.foldl (fun m forma => mapInsert m forma.PayloadType (newServerSessionFormat forma))
        m0).map Prod.fst ↔
      x ∈ m0.map Prod.fst ∨ ∃ f ∈ fs, f.PayloadType = x := by
  induction fs with
  | nil => intro m0 x; simp
  | cons f fs ih =>
    intro m0 x
    simp only [List.foldl_cons, ih, keys_mapInsert, List.mem_cons, exists_eq_or_imp]
    constructor
    · rintro ((h | h) | h)
      · exact Or.inr (Or.inl h.symm)
      · exact Or.inl h
      · exact Or.inr (Or.inr h)
    · rintro (h | h | h)
      · exact Or.inl (Or.inr h)
      · exact Or.inl (Or.inl h.symm)
      · exact Or.inr h

theorem nodup_formats_loop (fs : List Format) : ∀ (m0 : List (Byte × serverSessionFormat)),
    (m0.map Prod.fst).Nodup →
    ((fs.foldl (fun m forma => mapInsert m forma.PayloadType (newServerSessionFormat forma))
        m0).map Prod.fst).Nodup := by
  induction fs with
  | nil => intro m0 h; simpa using h
  | cons f fs ih =>
    intro m0 h
    simp only [List.foldl_cons]
    exact ih _ (nodup_mapInsert m0 _ _ h)

/-- C14: called in the PreRecord state, `newServerSessionMedia` builds a
`formats` map whose keys (distinct, as in any map) are exactly the payload
types of the medium's formats, so that a lookup of the payload type of any
format succeeds and `readRTPUDPRecord` forwards a packet carrying it without
a warning; called in any other state it leaves `formats` empty. -/
theorem newServerSessionMedia_formats (ss : ServerSession) (medi : Media) :
    (ss.state = .PreRecord →
      (∀ k, k ∈ (newServerSessionMedia ss medi).formats.map Prod.fst ↔
        ∃ f ∈ medi.Formats, f.PayloadType = k) ∧
      ((newServerSessionMedia ss medi).formats.map Prod.fst).Nodup ∧
      (∀ f ∈ medi.Formats,
        ∃ sf, mapLookup (newServerSessionMedia ss medi).formats f.PayloadType = some sf) ∧
      (∀ (env : ReadEnv) (payload : List Byte) (pkt : RTPPacket),
        env.rtpUnmarshal payload = .ok pkt → payload.length ≠ env.maxPacketSize + 1 →
        (∃ f ∈ medi.Formats, f.PayloadType = pkt.Header.PayloadType) →
        warningsOf ((newServerSessionMedia ss medi).readRTPUDPRecord env payload).1 = [] ∧
        forwardedOf ((newServerSessionMedia ss medi).readRTPUDPRecord env payload).1 = [pkt])) ∧
    (ss.state ≠ .PreRecord → (newServerSessionMedia ss medi).formats = []) := by
  constructor
  · intro hpre
    have hf : (newServerSessionMedia ss medi).formats =
        medi.Formats.foldl
          (fun m forma => mapInsert m forma.PayloadType (newServerSessionFormat forma)) [] := by
      simp [newServerSessionMedia, hpre]
    have hkeys : ∀ k, k ∈ (newServerSessionMedia ss medi).formats.map Prod.fst ↔
        ∃ f ∈ medi.Formats, f.PayloadType = k := by
      intro k
      rw [hf, keys_formats_loop]
      simp
    have hlook : ∀ f ∈ medi.Formats,
        ∃ sf, mapLookup (newServerSessionMedia ss medi).formats f.PayloadType = some sf := by
      intro f hfm
      exact (mapLookup_isSome_iff _ _).mpr ((hkeys _).mpr ⟨f, hfm, rfl⟩)
    refine ⟨hkeys, ?_, hlook, ?_⟩
    · rw [hf]
      exact nodup_formats_loop _ [] (by simp)
    · intro env payload pkt hdecode hlen ⟨f, hfm, hpt⟩
      obtain ⟨sf, hsf⟩ := hlook f hfm
      rw [hpt] at hsf
      simp [serverSessionMedia.readRTPUDPRecord, hlen, hdecode, hsf, warningsOf, forwardedOf]
  · intro hne
    simp [newServerSessionMedia, hne]

theorem newServerSessionMedia_formats_witness :
    (newServerSessionMedia { state := .PreRecord, setuppedTransport := .UDP }
        { Formats := [{ PayloadTyp := 96 }, { PayloadTyp := 97 }, { PayloadTyp := 96 }] }).formats.map
        Prod.fst = [96, 97] ∧
    (newServerSessionMedia { state := .PrePlay, setuppedTransport := .UDP }
        { Formats := [{ PayloadTyp := 96 }, { PayloadTyp := 97 }] }).formats = [] :=
  ⟨rfl, (newServerSessionMedia_formats { state := .PrePlay, setuppedTransport := .UDP }
      { Formats := [{ PayloadTyp := 96 }, { PayloadTyp := 97 }] }).2 (by decide)⟩

/-! ## Which inputs `MPEG4AudioConfig.Unmarshal` rejects -/

theorem readBitsOrReturn_at (c : MPEG4AudioConfig) (bits : List Bool) (off n : Nat)
    (hn : 0 < n) :
    readBitsOrReturn c ⟨bits.drop off⟩ n =
      if bits.length < off + n then .error (.error c .eof)
      else .ok (fieldAt bits off n, ⟨bits.drop (off + n)⟩) := by
  by_cases h : bits.length < off + n
  · have hl : bits.length - off < n := by omega
    simp [readBitsOrReturn, BitReader.ReadBits, hl, h]
  · have hl : ¬ bits.length - off < n := by omega
    simp [readBitsOrReturn, BitReader.ReadBits, hl, h, fieldAt]

theorem unmarshalSampleRate_at (tbl : AACTables) (c : MPEG4AudioConfig) (bits : List Bool)
    (htbl : 13 ≤ tbl.sampleRates.length) :
    unmarshalSampleRate tbl c ⟨bits.drop 5⟩ =
      if bits.length < 9 then .error (.error c .eof)
      else if fieldAt bits 5 4 ≤ 12 then
        .ok ({ c with SampleRate := tbl.sampleRates.getD (fieldAt bits 5 4) 0 }, ⟨bits.drop 9⟩)
      else if fieldAt bits 5 4 = 15 then
        if bits.length < 33 then .error (.error c .eof)
        else .ok ({ c with SampleRate := (fieldAt bits 9 24 : Int) }, ⟨bits.drop 33⟩)
      else .error (.error c (.invalidSampleRateIndex (fieldAt bits 5 4))) := by
  simp only [unmarshalSampleRate, bind, Except.bind, readBitsOrReturn_at c bits 5 4 (by omega)]
  by_cases h9 : bits.length < 9
  · simp [h9]
  · have h9b : ¬ bits.length < 5 + 4 := by omega
    simp only [h9, h9b, if_false]
    by_cases h12 : fieldAt bits 5 4 ≤ 12
    · have hget : ∃ v, tbl.sampleRates[fieldAt bits 5 4]? = some v :=
        ⟨tbl.sampleRates[fieldAt bits 5 4], List.getElem?_eq_getElem (by omega)⟩
      obtain ⟨v, hv⟩ := hget
      simp [h12, hv, List.getD, pure, Except.pure]
    · by_cases h15 : fieldAt bits 5 4 = 15
      · simp only [h12, h15, if_false, if_true,
          readBitsOrReturn_at c bits 9 24 (by omega)]
        by_cases h33 : bits.length < 33
        · have h33b : bits.length < 9 + 24 := by omega
          simp [h33, h33b]
        · have h33b : ¬ bits.length < 9 + 24 := by omega
          simp [h33, h33b, pure, Except.pure]
      · simp [h12, h15, throw, throwThe, MonadExceptOf.throw]

theorem unmarshalChannelConfig_at (c : MPEG4AudioConfig) (bits : List Bool) (off : Nat) :
    unmarshalChannelConfig c ⟨bits.drop off⟩ =
      if bits.length < off + 4 then .error (.error c .eof)
      else if fieldAt bits off 4 = 0 then .error (.error c .notYetSupported)
      else if fieldAt bits off 4 ≤ 6 then
        .ok ({ c with ChannelCount := (fieldAt bits off 4 : Int) }, ⟨bits.drop (off + 4)⟩)
      else if fieldAt bits off 4 = 7 then
        .ok ({ c with ChannelCount := 8 }, ⟨bits.drop (off + 4)⟩)
      else .error (.error c (.invalidChannelConfig (fieldAt bits off 4))) := by
  simp only [unmarshalChannelConfig, bind, Except.bind, readBitsOrReturn_at c bits off 4 (by omega)]
  by_cases h4 : bits.length < off + 4
  · simp [h4]
  · simp only [h4, if_false]
    by_cases h0 : fieldAt bits off 4 = 0
    · simp [h0, throw, throwThe, MonadExceptOf.throw]
    · by_cases h6 : fieldAt bits off 4 ≤ 6
      · have h1 : fieldAt bits off 4 ≥ 1 ∧ fieldAt bits off 4 ≤ 6 := ⟨by omega, h6⟩
        simp [h0, h6, h1, pure, Except.pure]
      · have h1 : ¬ (fieldAt bits off 4 ≥ 1 ∧ fieldAt bits off 4 ≤ 6) := fun h => h6 h.2
        by_cases h7 : fieldAt bits off 4 = 7
        · simp [h7, pure, Except.pure]
        · simp [h0, h6, h1, h7, throw, throwThe, MonadExceptOf.throw]

theorem unmarshalFlags_at (c : MPEG4AudioConfig) (bits : List Bool) (off : Nat) :
    unmarshalFlags c ⟨bits.drop off⟩ =
      if bits.length < off + 2 then
        .error (.error
          (if bits.length < off + 1 then c
            else { c with FrameLengthFlag := decide (fieldAt bits off 1 = 1) }) .eof)
      else if fieldAt bits (off + 1) 1 = 1 then
        if bits.length < off + 16 then
          .error (.error { c with FrameLengthFlag := decide (fieldAt bits off 1 = 1),
                                  DependsOnCoreCoder := true } .eof)
        else if bits.length < off + 17 then
          .error (.error { c with FrameLengthFlag := decide (fieldAt bits off 1 = 1),
                                  DependsOnCoreCoder := true,
                                  CoreCoderDelay := fieldAt bits (off + 2) 14 % 65536 } .eof)
        else if fieldAt bits (off + 16) 1 = 1 then
          .error (.error { c with FrameLengthFlag := decide (fieldAt bits off 1 = 1),
                                  DependsOnCoreCoder := true,
                                  CoreCoderDelay := fieldAt bits (off + 2) 14 % 65536 }
            .unsupported)
        else
          .ok { c with FrameLengthFlag := decide (fieldAt bits off 1 = 1),
                       DependsOnCoreCoder := true,
                       CoreCoderDelay := fieldAt bits (off + 2) 14 % 65536 }
      else
        if bits.length < off + 3 then
          .error (.error { c with FrameLengthFlag := decide (fieldAt bits off 1 = 1),
                                  DependsOnCoreCoder := false } .eof)
        else if fieldAt bits (off + 2) 1 = 1 then
          .error (.error { c with FrameLengthFlag := decide (fieldAt bits off 1 = 1),
                                  DependsOnCoreCoder := false } .unsupported)
        else
          .ok { c with FrameLengthFlag := decide (fieldAt bits off 1 = 1),
                       DependsOnCoreCoder := false } := by
  simp only [unmarshalFlags, bind, Except.bind, readBitsOrReturn_at _ bits off 1 (by omega)]
  by_cases h1 : bits.length < off + 1
  · have h2 : bits.length < off + 2 := by omega
    simp [h1, h2]
  · simp only [h1, if_false, readBitsOrReturn_at _ bits (off + 1) 1 (by omega)]
    by_cases h2 : bits.length < off + 2
    · have h2b : bits.length < off + 1 + 1 := by omega
      simp [h2, h2b]
    · have h2b : ¬ bits.length < off + 1 + 1 := by omega
      simp only [h2, h2b, if_false]
      by_cases hdep : fieldAt bits (off + 1) 1 = 1
      · simp only [hdep, decide_True, if_true,
          readBitsOrReturn_at _ bits (off + 1 + 1) 14 (by omega)]
        by_cases h16 : bits.length < off + 16
        · have h16b : bits.length < off + 1 + 1 + 14 := by omega
          simp [h16, h16b]
        · have h16b : ¬ bits.length < off + 1 + 1 + 14 := by omega
          simp only [h16, h16b, if_false, pure, Except.pure,
            readBitsOrReturn_at _ bits (off + 1 + 1 + 14) 1 (by omega)]
          by_cases h17 : bits.length < off + 17
          · have h17b : bits.length < off + 1 + 1 + 14 + 1 := by omega
            simp [h17, h17b]
          · have h17b : ¬ bits.length < off + 1 + 1 + 14 + 1 := by omega
            have e2 : off + 1 + 1 = off + 2 := by omega
            have e16 : off + 1 + 1 + 14 = off + 16 := by omega
            by_cases hext : fieldAt bits (off + 16) 1 = 1
            · simp [h17, h17b, e2, e16, hext, throw, throwThe, MonadExceptOf.throw]
            · simp [h17, h17b, e2, e16, hext]
      · simp only [hdep, decide_False, Bool.false_eq_true, if_false, pure, Except.pure,
          readBitsOrReturn_at _ bits (off + 1 + 1) 1 (by omega)]
        by_cases h3 : bits.length < off + 3
        · have h3b : bits.length < off + 1 + 1 + 1 := by omega
          simp [h3, h3b]
        · have h3b : ¬ bits.length < off + 1 + 1 + 1 := by omega
          have e2 : off + 1 + 1 = off + 2 := by omega
          by_cases hext : fieldAt bits (off + 2) 1 = 1
          · simp [h3, h3b, e2, hext, throw, throwThe, MonadExceptOf.throw]
          · simp [h3, h3b, e2, hext]

theorem bitsToNat_lt (bs : List Bool) : bitsToNat bs < 2 ^ bs.length := by
  induction bs using List.reverseRecOn with
  | nil => simp [bitsToNat]
  | append_singleton bs b ih =>
    rw [bitsToNat_append]
    have hb : bitsToNat [b] ≤ 1 := by cases b <;> simp [bitsToNat]
    simp only [List.length_append, List.length_singleton, Nat.pow_succ, Nat.pow_zero] at *
    omega

theorem sampleRate_summary (tbl : AACTables) (c : MPEG4AudioConfig) (bits : List Bool)
    (htbl : 13 ≤ tbl.sampleRates.length) :
    ((∃ c1 e, unmarshalSampleRate tbl c ⟨bits.drop 5⟩ = .error (.error c1 e)) ∧
      (bits.length < channelConfigOffset bits ∨ fieldAt bits 5 4 = 13 ∨ fieldAt bits 5 4 = 14)) ∨
    (unmarshalSampleRate tbl c ⟨bits.drop 5⟩ =
        .ok ({ c with SampleRate :=
                if fieldAt bits 5 4 = 15 then (fieldAt bits 9 24 : Int)
                else tbl.sampleRates.getD (fieldAt bits 5 4) 0 },
          ⟨bits.drop (channelConfigOffset bits)⟩) ∧
      channelConfigOffset bits ≤ bits.length ∧ fieldAt bits 5 4 ≠ 13 ∧ fieldAt bits 5 4 ≠ 14) := by
  rw [unmarshalSampleRate_at tbl c bits htbl]
  have hoff : channelConfigOffset bits = if fieldAt bits 5 4 = 15 then 33 else 9 := rfl
  by_cases h9 : bits.length < 9
  · refine Or.inl ⟨⟨c, .eof, by simp [h9]⟩, Or.inl ?_⟩
    rw [hoff]; split <;> omega
  · by_cases h12 : fieldAt bits 5 4 ≤ 12
    · have h15 : ¬ fieldAt bits 5 4 = 15 := by omega
      refine Or.inr ⟨by simp [h9, h12, h15, hoff], ?_, by omega, by omega⟩
      rw [hoff]; simp [h15]; omega
    · by_cases h15 : fieldAt bits 5 4 = 15
      · by_cases h33 : bits.length < 33
        · refine Or.inl ⟨⟨c, .eof, by simp [h9, h12, h15, h33]⟩, Or.inl ?_⟩
          rw [hoff]; simp [h15, h33]
        · refine Or.inr ⟨by simp [h9, h15, h33, hoff], ?_, by omega, by omega⟩
          rw [hoff]; simp [h15]; omega
      · have hlt : fieldAt bits 5 4 < 16 := by
          unfold fieldAt
          have := bitsToNat_lt (List.take 4 (List.drop 5 bits))
          have hl : (List.take 4 (List.drop 5 bits)).length ≤ 4 := by simp [List.length_take]
          calc bitsToNat (List.take 4 (List.drop 5 bits))
              < 2 ^ (List.take 4 (List.drop 5 bits)).length := this
            _ ≤ 2 ^ 4 := Nat.pow_le_pow_right (by omega) hl
        exact Or.inl ⟨⟨c, .invalidSampleRateIndex (fieldAt bits 5 4), by simp [h9, h12, h15]⟩,
          Or.inr (by omega)⟩

theorem channelConfig_summary (c : MPEG4AudioConfig) (bits : List Bool) (off : Nat) :
    ((∃ c1 e, unmarshalChannelConfig c ⟨bits.drop off⟩ = .error (.error c1 e)) ∧
      (bits.length < off + 4 ∨ fieldAt bits off 4 = 0 ∨ fieldAt bits off 4 > 7)) ∨
    (unmarshalChannelConfig c ⟨bits.drop off⟩ =
        .ok ({ c with ChannelCount :=
                if fieldAt bits off 4 = 7 then 8 else (fieldAt bits off 4 : Int) },
          ⟨bits.drop (off + 4)⟩) ∧
      off + 4 ≤ bits.length ∧ fieldAt bits off 4 ≠ 0 ∧ fieldAt bits off 4 ≤ 7) := by
  rw [unmarshalChannelConfig_at c bits off]
  by_cases h4 : bits.length < off + 4
  · exact Or.inl ⟨⟨c, .eof, by simp [h4]⟩, Or.inl h4⟩
  · by_cases h0 : fieldAt bits off 4 = 0
    · exact Or.inl ⟨⟨c, .notYetSupported, by simp [h4, h0]⟩, Or.inr (Or.inl h0)⟩
    · by_cases h6 : fieldAt bits off 4 ≤ 6
      · have h7 : ¬ fieldAt bits off 4 = 7 := by omega
        exact Or.inr ⟨by simp [h4, h0, h6, h7], by omega, h0, by omega⟩
      · by_cases h7 : fieldAt bits off 4 = 7
        · exact Or.inr ⟨by simp [h4, h7], by omega, h0, by omega⟩
        · exact Or.inl ⟨⟨c, .invalidChannelConfig (fieldAt bits off 4),
            by simp [h4, h0, h6, h7]⟩, Or.inr (Or.inr (by omega))⟩

theorem flags_summary (c : MPEG4AudioConfig) (bits : List Bool) (off : Nat) :
    ((∃ c1 e, unmarshalFlags c ⟨bits.drop off⟩ = .error (.error c1 e)) ∧
      (bits.length < off + 2 + (if fieldAt bits (off + 1) 1 = 1 then 14 else 0) + 1 ∨
        fieldAt bits (off + 2 + (if fieldAt bits (off + 1) 1 = 1 then 14 else 0)) 1 = 1)) ∨
    (unmarshalFlags c ⟨bits.drop off⟩ =
        .ok { c with
              FrameLengthFlag := decide (fieldAt bits off 1 = 1)
              DependsOnCoreCoder := decide (fieldAt bits (off + 1) 1 = 1)
              CoreCoderDelay :=
                if fieldAt bits (off + 1) 1 = 1 then fieldAt bits (off + 2) 14 % 65536
                else c.CoreCoderDelay } ∧
      off + 2 + (if fieldAt bits (off + 1) 1 = 1 then 14 else 0) + 1 ≤ bits.length ∧
      fieldAt bits (off + 2 + (if fieldAt bits (off + 1) 1 = 1 then 14 else 0)) 1 ≠ 1) := by
  rw [unmarshalFlags_at c bits off]
  by_cases hdep : fieldAt bits (off + 1) 1 = 1
  · simp only [hdep, if_true]
    by_cases h2 : bits.length < off + 2
    · exact Or.inl ⟨⟨_, .eof, by simp only [h2, if_true]; rfl⟩, Or.inl (by omega)⟩
    · by_cases h16 : bits.length < off + 16
      · exact Or.inl ⟨⟨_, .eof, by simp only [h2, h16, if_true, if_false]; rfl⟩, Or.inl (by omega)⟩
      · by_cases h17 : bits.length < off + 17
        · exact Or.inl ⟨⟨_, .eof, by simp only [h2, h16, h17, if_true, if_false]; rfl⟩,
            Or.inl (by omega)⟩
        · by_cases hext : fieldAt bits (off + 16) 1 = 1
          · exact Or.inl ⟨⟨_, .unsupported, by simp only [h2, h16, h17, hext, if_true, if_false]; rfl⟩,
              Or.inr hext⟩
          · refine Or.inr ⟨?_, by omega, hext⟩
            simp [h2, h16, h17, hext]
  · simp only [hdep, if_false, Nat.add_zero]
    by_cases h2 : bits.length < off + 2
    · exact Or.inl ⟨⟨_, .eof, by simp only [h2, if_true]; rfl⟩, Or.inl (by omega)⟩
    · by_cases h3 : bits.length < off + 3
      · exact Or.inl ⟨⟨_, .eof, by simp only [h2, h3, if_true, if_false]; rfl⟩, Or.inl (by omega)⟩
      · by_cases hext : fieldAt bits (off + 2) 1 = 1
        · exact Or.inl ⟨⟨_, .unsupported, by simp only [h2, h3, hext, if_true, if_false]; rfl⟩,
            Or.inr hext⟩
        · refine Or.inr ⟨?_, by omega, hext⟩
          simp [h2, h3, hext]

/-- `Unmarshal` on a byte string: an error when the layout rejects it, the
decoded config otherwise. -/
theorem unmarshal_cases (tbl : AACTables) (c : MPEG4AudioConfig) (byts : List Byte)
    (htbl : 13 ≤ tbl.sampleRates.length) :
    (UnmarshalRejects tbl (bytesToBits byts) ∧
      ∃ c1 e, MPEG4AudioConfig.Unmarshal tbl c byts = .error (.error c1 e)) ∨
    (¬ UnmarshalRejects tbl (bytesToBits byts) ∧
      MPEG4AudioConfig.Unmarshal tbl c byts = .ok (decodedConfig tbl c (bytesToBits byts))) := by
  generalize hbits : bytesToBits byts = bits
  have hnew : BitReader.new byts = ⟨bits.drop 0⟩ := by simp [BitReader.new, hbits]
  have hoff9 : 9 ≤ channelConfigOffset bits := by
    unfold channelConfigOffset; split <;> omega
  have hext : extensionFlagOffset bits =
      channelConfigOffset bits + 4 + 2 +
        (if fieldAt bits (channelConfigOffset bits + 4 + 1) 1 = 1 then 14 else 0) := by
    unfold extensionFlagOffset
    have e : channelConfigOffset bits + 4 + 1 = channelConfigOffset bits + 5 := by omega
    rw [e]
  have hextge : channelConfigOffset bits + 6 ≤ extensionFlagOffset bits := by
    unfold extensionFlagOffset; omega
  unfold MPEG4AudioConfig.Unmarshal
  simp only [hnew, bind, Except.bind, readBitsOrReturn_at c bits 0 5 (by omega)]
  by_cases h5 : bits.length < 5
  · refine Or.inl ⟨?_, c, .eof, by simp [h5]⟩
    simp only [UnmarshalRejects]
    omega
  · have h5b : ¬ bits.length < 0 + 5 := by omega
    simp only [h5b, if_false, Nat.zero_add]
    by_cases htyp : (fieldAt bits 0 5 : Int) = tbl.MPEG4AudioTypeAACLC
    · simp only [htyp, ne_eq, not_true_eq_false, if_false, pure, Except.pure]
      rcases sampleRate_summary tbl { c with Typ := tbl.MPEG4AudioTypeAACLC } bits htbl with
        ⟨⟨c1, e, herr⟩, hwhy⟩ | ⟨hok, hlen1, h13, h14⟩
      · refine Or.inl ⟨?_, c1, e, by rw [herr]⟩
        simp only [UnmarshalRejects]
        omega
      · rw [hok]
        simp only []
        rcases channelConfig_summary
            { c with Typ := tbl.MPEG4AudioTypeAACLC,
                     SampleRate := if fieldAt bits 5 4 = 15 then (fieldAt bits 9 24 : Int)
                       else tbl.sampleRates.getD (fieldAt bits 5 4) 0 }
            bits (channelConfigOffset bits) with
          ⟨⟨c1, e, herr⟩, hwhy⟩ | ⟨hok2, hlen2, hch0, hch7⟩
        · refine Or.inl ⟨?_, c1, e, by rw [herr]⟩
          simp only [UnmarshalRejects]
          omega
        · rw [hok2]
          simp only []
          rcases flags_summary
              { c with Typ := tbl.MPEG4AudioTypeAACLC,
                       SampleRate := if fieldAt bits 5 4 = 15 then (fieldAt bits 9 24 : Int)
                         else tbl.sampleRates.getD (fieldAt bits 5 4) 0,
                       ChannelCount := if fieldAt bits (channelConfigOffset bits) 4 = 7 then 8
                         else (fieldAt bits (channelConfigOffset bits) 4 : Int) }
              bits (channelConfigOffset bits + 4) with
            ⟨⟨c1, e, herr⟩, hwhy⟩ | ⟨hok3, hlen3, hx⟩
          · refine Or.inl ⟨?_, c1, e, by rw [herr]⟩
            rw [← hext] at hwhy
            simp only [UnmarshalRejects]
            rcases hwhy with h | h
            · exact Or.inr (Or.inr (Or.inr (Or.inr (Or.inr (Or.inr h)))))
            · exact Or.inr (Or.inr (Or.inr (Or.inr (Or.inr (Or.inl h)))))
          · rw [← hext] at hlen3 hx
            refine Or.inr ⟨?_, ?_⟩
            · simp only [UnmarshalRejects, htyp, ne_eq, not_true_eq_false, false_or]
              omega
            · rw [hok3]
              have e5 : channelConfigOffset bits + 4 + 1 = channelConfigOffset bits + 5 := by
                omega
              have e6 : channelConfigOffset bits + 4 + 2 = channelConfigOffset bits + 6 := by
                omega
              simp only [decodedConfig, e5, e6, htyp]
    · refine Or.inl ⟨Or.inl htyp, { c with Typ := (fieldAt bits 0 5 : Int) },
        .unsupportedType (fieldAt bits 0 5), ?_⟩
      simp [htyp, throw, throwThe, MonadExceptOf.throw]

theorem fieldAt_take (bits : List Bool) (K off n : Nat) (h : off + n ≤ K) :
    fieldAt (bits.take K) off n = fieldAt bits off n := by
  unfold fieldAt
  rw [List.take_drop, List.take_drop, List.take_take, Nat.min_eq_left h]

theorem fieldAt_of_prefix (bits bits' : List Bool) (K off n : Nat)
    (hpre : bits'.take K = bits.take K) (h : off + n ≤ K) :
    fieldAt bits' off n = fieldAt bits off n := by
  rw [← fieldAt_take bits' K off n h, hpre, fieldAt_take bits K off n h]

/-- Two bit strings that agree up to and including the extension flag are
rejected alike and spell the same config. -/
theorem prefix_invariant (tbl : AACTables) (c : MPEG4AudioConfig) (bits bits' : List Bool)
    (hK : extensionFlagOffset bits + 1 ≤ bits.length)
    (hpre : bits'.take (extensionFlagOffset bits + 1) = bits.take (extensionFlagOffset bits + 1)) :
    (UnmarshalRejects tbl bits' ↔ UnmarshalRejects tbl bits) ∧
      decodedConfig tbl c bits' = decodedConfig tbl c bits := by
  have hoff9 : 9 ≤ channelConfigOffset bits := by
    unfold channelConfigOffset; split <;> omega
  have hextge : channelConfigOffset bits + 6 ≤ extensionFlagOffset bits := by
    unfold extensionFlagOffset; omega
  have hf := fun off n h => fieldAt_of_prefix bits bits' (extensionFlagOffset bits + 1) off n hpre h
  have h0 : fieldAt bits' 0 5 = fieldAt bits 0 5 := hf 0 5 (by omega)
  have h5 : fieldAt bits' 5 4 = fieldAt bits 5 4 := hf 5 4 (by omega)
  have hco : channelConfigOffset bits' = channelConfigOffset bits := by
    unfold channelConfigOffset; rw [h5]
  have hch : fieldAt bits' (channelConfigOffset bits) 4 = fieldAt bits (channelConfigOffset bits) 4 :=
    hf _ 4 (by omega)
  have hfl : fieldAt bits' (channelConfigOffset bits + 4) 1
      = fieldAt bits (channelConfigOffset bits + 4) 1 := hf _ 1 (by omega)
  have hdep : fieldAt bits' (channelConfigOffset bits + 5) 1
      = fieldAt bits (channelConfigOffset bits + 5) 1 := hf _ 1 (by omega)
  have heo : extensionFlagOffset bits' = extensionFlagOffset bits := by
    unfold extensionFlagOffset; rw [hco, hdep]
  have hx : fieldAt bits' (extensionFlagOffset bits) 1 = fieldAt bits (extensionFlagOffset bits) 1 :=
    hf _ 1 (by omega)
  have hlen : extensionFlagOffset bits + 1 ≤ bits'.length := by
    have h1 := congrArg List.length hpre
    simp only [List.length_take] at h1
    omega
  have hsr : fieldAt bits 5 4 = 15 → fieldAt bits' 9 24 = fieldAt bits 9 24 := by
    intro h15
    have : channelConfigOffset bits = 33 := by unfold channelConfigOffset; simp [h15]
    exact hf 9 24 (by omega)
  have hdl : fieldAt bits (channelConfigOffset bits + 5) 1 = 1 →
      fieldAt bits' (channelConfigOffset bits + 6) 14
        = fieldAt bits (channelConfigOffset bits + 6) 14 := by
    intro hd
    have : extensionFlagOffset bits = channelConfigOffset bits + 6 + 14 := by
      unfold extensionFlagOffset; simp [hd]
    exact hf _ 14 (by omega)
  constructor
  · have hlast : bits'.length < extensionFlagOffset bits + 1 ↔
        bits.length < extensionFlagOffset bits + 1 := by
      constructor <;> intro h <;> omega
    simp only [UnmarshalRejects, hco, heo, h0, h5, hch, hx, hlast]
  · simp only [decodedConfig, hco, h0, h5, hch, hfl, hdep]
    by_cases h15 : fieldAt bits 5 4 = 15 <;>
      by_cases hd : fieldAt bits (channelConfigOffset bits + 5) 1 = 1 <;>
      simp [h15, hd, hsr, hdl]

theorem length_bytesToBits (byts : List Byte) : (bytesToBits byts).length = 8 * byts.length := by
  induction byts with
  | nil => rfl
  | cons b bs ih =>
    rw [bytesToBits_cons, List.length_append, ih, byteToBits, natToBits_length, List.length_cons]
    omega

/-- C16: reading the input as a big-endian bit string, `Unmarshal` returns an
error exactly when the 5-bit type is not AAC-LC, or the 4-bit sample-rate
index is 13 or 14, or the 4-bit channel configuration is 0 or above 7, or
the extension flag is 1, or the input ends before a field that must be read
(the last of them is the extension flag); in particular when the input has
fewer than 2 bytes.  It never faults.  When it returns no error the receiver
holds the decoded fields: `ChannelCount` is the channel configuration for
1..6 and 8 for 7, and any input that agrees with this one up to the extension
flag gives the same result, so what follows that flag is ignored.  The table
`sampleRates` is taken to have its 13 entries. -/
theorem unmarshal_error_iff (tbl : AACTables) (c : MPEG4AudioConfig) (byts : List Byte)
    (htbl : tbl.sampleRates.length = 13) :
    ((∃ c1 e, MPEG4AudioConfig.Unmarshal tbl c byts = .error (.error c1 e)) ↔
      UnmarshalRejects tbl (bytesToBits byts)) ∧
    (∀ f, MPEG4AudioConfig.Unmarshal tbl c byts ≠ .error (.fault f)) ∧
    (byts.length < 2 → ∃ c1 e, MPEG4AudioConfig.Unmarshal tbl c byts = .error (.error c1 e)) ∧
    (∀ c2, MPEG4AudioConfig.Unmarshal tbl c byts = .ok c2 →
      c2 = decodedConfig tbl c (bytesToBits byts) ∧
      1 ≤ fieldAt (bytesToBits byts) (channelConfigOffset (bytesToBits byts)) 4 ∧
      fieldAt (bytesToBits byts) (channelConfigOffset (bytesToBits byts)) 4 ≤ 7 ∧
      c2.ChannelCount =
        (if fieldAt (bytesToBits byts) (channelConfigOffset (bytesToBits byts)) 4 = 7 then 8
          else (fieldAt (bytesToBits byts) (channelConfigOffset (bytesToBits byts)) 4 : Int)) ∧
      ∀ byts2 : List Byte,
        (bytesToBits byts2).take (extensionFlagOffset (bytesToBits byts) + 1)
            = (bytesToBits byts).take (extensionFlagOffset (bytesToBits byts) + 1) →
          MPEG4AudioConfig.Unmarshal tbl c byts2 = .ok c2) := by
  have htbl2 : 13 ≤ tbl.sampleRates.length := by omega
  have hcases := unmarshal_cases tbl c byts htbl2
  have hrej : (∃ c1 e, MPEG4AudioConfig.Unmarshal tbl c byts = .error (.error c1 e)) ↔
      UnmarshalRejects tbl (bytesToBits byts) := by
    constructor
    · rintro ⟨c1, e, herr⟩
      rcases hcases with ⟨hr, _⟩ | ⟨_, hok⟩
      · exact hr
      · rw [hok] at herr; cases herr
    · intro hr
      rcases hcases with ⟨_, herr⟩ | ⟨hnr, _⟩
      · exact herr
      · exact absurd hr hnr
  refine ⟨hrej, ?_, ?_, ?_⟩
  · intro f hf
    rcases hcases with ⟨_, c1, e, herr⟩ | ⟨_, hok⟩
    · rw [herr] at hf; cases hf
    · rw [hok] at hf; cases hf
  · intro hshort
    apply hrej.mpr
    have hlen := length_bytesToBits byts
    have hoff9 : 9 ≤ channelConfigOffset (bytesToBits byts) := by
      unfold channelConfigOffset; split <;> omega
    have hextge : channelConfigOffset (bytesToBits byts) + 6
        ≤ extensionFlagOffset (bytesToBits byts) := by
      unfold extensionFlagOffset; omega
    simp only [UnmarshalRejects]
    omega
  · intro c2 hc2
    rcases hcases with ⟨_, c1, e, herr⟩ | ⟨hnr, hok⟩
    · rw [herr] at hc2; cases hc2
    · rw [hok] at hc2
      injection hc2 with hc2
      subst hc2
      have hnr2 := hnr
      simp only [UnmarshalRejects, not_or] at hnr2
      obtain ⟨_, _, _, hch0, hch7, _, hlen⟩ := hnr2
      refine ⟨rfl, by omega, by omega, rfl, ?_⟩
      intro byts2 hpre
      obtain ⟨hiff, hdec⟩ := prefix_invariant tbl c (bytesToBits byts) (bytesToBits byts2)
        (by omega) hpre
      rcases unmarshal_cases tbl c byts2 htbl2 with ⟨hr, _⟩ | ⟨_, hok2⟩
      · exact absurd (hiff.mp hr) hnr
      · rw [hok2, hdec]

theorem unmarshal_error_iff_witness :
    (∃ c1 e, MPEG4AudioConfig.Unmarshal isoTables {} [0x11] = .error (.error c1 e)) ∧
    (MPEG4AudioConfig.Unmarshal isoTables {} [0x11, 0x90]
        = .ok { Typ := 2, SampleRate := 48000, ChannelCount := 2 } ∧
      MPEG4AudioConfig.Unmarshal isoTables {} [0x11, 0x90, 0xFF, 0x00]
        = .ok { Typ := 2, SampleRate := 48000, ChannelCount := 2 }) ∧
    (∃ c1 e, MPEG4AudioConfig.Unmarshal isoTables {} [0x11, 0x91] = .error (.error c1 e)) := by
  have hsucc := (unmarshal_error_iff isoTables {} [0x11, 0x90] rfl).2.2.2
    { Typ := 2, SampleRate := 48000, ChannelCount := 2 } (by decide)
  exact ⟨(unmarshal_error_iff isoTables {} [0x11] rfl).2.2.1 (by decide),
    ⟨by decide, hsucc.2.2.2.2 [0x11, 0x90, 0xFF, 0x00] (by decide)⟩,
    (unmarshal_error_iff isoTables {} [0x11, 0x91] rfl).1.mpr
      (Or.inr (Or.inr (Or.inr (Or.inr (Or.inr (Or.inl (by decide)))))))⟩

/-! ## The fmtp parameters of `pkg/format/h264.go` -/

theorem unmarshalEntry_sprop (b64 : Base64) (t : H264) (val : GoString) :
    t.unmarshalEntry b64 "sprop-parameter-sets".toList val =
      match spropResult b64 val with
      | none => .error (.invalidSpropParameterSets val)
      | some none => .ok t
      | some (some (sps, pps)) => .ok { t with SPS := some sps, PPS := some pps } := by
  unfold H264.unmarshalEntry spropResult
  simp only [if_true]
  split
  · rename_i p0 p1 rest heq
    cases h0 : b64.DecodeString p0 <;> cases h1 : b64.DecodeString p1 <;> simp
  · rfl

theorem unmarshalEntry_mode (b64 : Base64) (t : H264) (val : GoString) :
    t.unmarshalEntry b64 "packetization-mode".toList val =
      match ParseInt val with
      | none => .error (.invalidPacketizationMode val)
      | some n => .ok { t with PacketizationMode := n } := by
  have hne : ¬ ("packetization-mode".toList = "sprop-parameter-sets".toList) := by decide
  unfold H264.unmarshalEntry
  simp only [hne, if_false, if_true]

theorem unmarshalEntry_other (b64 : Base64) (t : H264) (key val : GoString)
    (h1 : key ≠ "sprop-parameter-sets".toList) (h2 : key ≠ "packetization-mode".toList) :
    t.unmarshalEntry b64 key val = .ok t := by
  unfold H264.unmarshalEntry
  simp only [h1, h2, if_false]

theorem fmtpGet_eq_none (m : Fmtp) (k : GoString) (h : k ∉ m.map Prod.fst) :
    fmtpGet m k = none := by
  induction m with
  | nil => rfl
  | cons kv rest ih =>
    obtain ⟨k1, v1⟩ := kv
    simp only [List.map_cons, List.mem_cons, not_or] at h
    have hne : ¬ k1 = k := fun e => h.1 e.symm
    simp only [fmtpGet, hne, if_false]
    exact ih h.2

theorem fmtpGet_cons_ne (m : Fmtp) (k k1 v1 : GoString) (h : k1 ≠ k) :
    fmtpGet ((k1, v1) :: m) k = fmtpGet m k := by
  simp only [fmtpGet, h, if_false]

theorem fmtpGet_cons_eq (m : Fmtp) (k v1 : GoString) :
    fmtpGet ((k, v1) :: m) k = some v1 := by
  simp only [fmtpGet, if_true]

/-- The loop over the entries of a map, none of which is in error, leaves
`afterFmtp`. -/
theorem unmarshalLoop_eq (b64 : Base64) (fmtp : Fmtp) : ∀ (t : H264),
    (fmtp.map Prod.fst).Nodup →
    (∀ v, fmtpGet fmtp "packetization-mode".toList = some v → ParseInt v ≠ none) →
    (∀ v, fmtpGet fmtp "sprop-parameter-sets".toList = some v → spropResult b64 v ≠ none) →
    H264.unmarshalLoop b64 fmtp t = (t.afterFmtp b64 fmtp, none) := by
  have hkeys : ¬ ("packetization-mode".toList = "sprop-parameter-sets".toList) := by decide
  induction fmtp with
  | nil =>
    intro t _ _ _
    simp only [H264.unmarshalLoop, H264.afterFmtp, fmtpGet, Option.bind, Option.getD]
  | cons kv rest ih =>
    intro t hnd hpm hsp
    obtain ⟨k, v⟩ := kv
    simp only [List.map_cons, List.nodup_cons] at hnd
    by_cases hks : k = "sprop-parameter-sets".toList
    · subst hks
      have hrest : fmtpGet rest "sprop-parameter-sets".toList = none :=
        fmtpGet_eq_none rest _ hnd.1
      have hpmrest : ∀ w, fmtpGet rest "packetization-mode".toList = some w → ParseInt w ≠ none := by
        intro w hw
        exact hpm w (by rw [fmtpGet_cons_ne _ _ _ _ (fun e => hkeys e.symm)]; exact hw)
      have hv := hsp v (fmtpGet_cons_eq _ _ _)
      cases hres : spropResult b64 v with
      | none => exact absurd hres hv
      | some o =>
        cases o with
        | none =>
          simp only [H264.unmarshalLoop, unmarshalEntry_sprop, hres]
          rw [ih t hnd.2 hpmrest (by intro w hw; rw [hrest] at hw; cases hw)]
          simp only [H264.afterFmtp, fmtpGet_cons_eq,
            fmtpGet_cons_ne _ _ _ _ (fun e => hkeys e.symm), hrest, hres, Option.bind,
            Option.join]
          rfl
        | some sp =>
          obtain ⟨sps, pps⟩ := sp
          simp only [H264.unmarshalLoop, unmarshalEntry_sprop, hres]
          rw [ih _ hnd.2 hpmrest (by intro w hw; rw [hrest] at hw; cases hw)]
          simp only [H264.afterFmtp, fmtpGet_cons_eq,
            fmtpGet_cons_ne _ _ _ _ (fun e => hkeys e.symm), hrest, hres, Option.bind,
            Option.join]
          rfl
    · have hsprest : ∀ w, fmtpGet rest "sprop-parameter-sets".toList = some w →
          spropResult b64 w ≠ none := by
        intro w hw
        exact hsp w (by rw [fmtpGet_cons_ne _ _ _ _ hks]; exact hw)
      by_cases hkm : k = "packetization-mode".toList
      · subst hkm
        have hrest : fmtpGet rest "packetization-mode".toList = none :=
          fmtpGet_eq_none rest _ hnd.1
        have hv := hpm v (fmtpGet_cons_eq _ _ _)
        cases hres : ParseInt v with
        | none => exact absurd hres hv
        | some n =>
          simp only [H264.unmarshalLoop, unmarshalEntry_mode, hres]
          rw [ih _ hnd.2 (by intro w hw; rw [hrest] at hw; cases hw) hsprest]
          simp only [H264.afterFmtp, fmtpGet_cons_eq, fmtpGet_cons_ne _ _ _ _ hks, hrest, hres,
            Option.bind, Option.getD]
      · have hpmrest : ∀ w, fmtpGet rest "packetization-mode".toList = some w →
            ParseInt w ≠ none := by
          intro w hw
          exact hpm w (by rw [fmtpGet_cons_ne _ _ _ _ hkm]; exact hw)
        simp only [H264.unmarshalLoop, unmarshalEntry_other b64 t k v hks hkm]
        rw [ih t hnd.2 hpmrest hsprest]
        simp only [H264.afterFmtp, fmtpGet_cons_ne _ _ _ _ hks, fmtpGet_cons_ne _ _ _ _ hkm]

theorem stringsSplit_ne_nil (sep : Char) (s : GoString) : stringsSplit sep s ≠ [] := by
  induction s with
  | nil => simp [stringsSplit]
  | cons c cs ih =>
    by_cases h : c = sep
    · simp [stringsSplit, h]
    · cases hs : stringsSplit sep cs with
      | nil => exact absurd hs ih
      | cons piece pieces => simp [stringsSplit, h, hs]

theorem stringsSplit_no_sep (sep : Char) (s : GoString) (h : sep ∉ s) :
    stringsSplit sep s = [s] := by
  induction s with
  | nil => rfl
  | cons c cs ih =>
    simp only [List.mem_cons, not_or] at h
    have hc : ¬ c = sep := fun e => h.1 e.symm
    simp [stringsSplit, hc, ih h.2]

theorem stringsSplit_append (sep : Char) (a b : GoString) (h : sep ∉ a) :
    stringsSplit sep (a ++ sep :: b) = a :: stringsSplit sep b := by
  induction a with
  | nil => simp [stringsSplit]
  | cons c cs ih =>
    simp only [List.mem_cons, not_or] at h
    have hc : ¬ c = sep := fun e => h.1 e.symm
    simp [stringsSplit, hc, ih h.2]

theorem spropResult_leading_comma (b64 : Base64) (hlaw : b64.Lawful) (p : GoString)
    (b : List Byte) (hvalid : b64.DecodeString p = some b) :
    spropResult b64 (',' :: p) = some (some ([], b)) := by
  obtain ⟨_, _, hempty, hcomma⟩ := hlaw
  have hsplit : stringsSplit ',' (',' :: p) = [[], p] := by
    have := stringsSplit_append ',' [] p (by simp)
    rw [stringsSplit_no_sep ',' p (hcomma p b hvalid)] at this
    simpa using this
  simp only [spropResult, hsplit, hempty, hvalid]

/-- The loop over the entries of a map whose `packetization-mode` is no
integer and whose `sprop-parameter-sets` is not in error returns the error of
the packetization mode, wherever that entry stands. -/
theorem unmarshalLoop_invalid_mode (b64 : Base64) (fmtp : Fmtp) (v : GoString)
    (hparse : ParseInt v = none) : ∀ (t : H264),
    (fmtp.map Prod.fst).Nodup →
    fmtpGet fmtp "packetization-mode".toList = some v →
    (∀ w, fmtpGet fmtp "sprop-parameter-sets".toList = some w → spropResult b64 w ≠ none) →
    (H264.unmarshalLoop b64 fmtp t).2 = some (.invalidPacketizationMode v) := by
  have hkeys : ¬ ("packetization-mode".toList = "sprop-parameter-sets".toList) := by decide
  induction fmtp with
  | nil =>
    intro t _ hget _
    simp only [fmtpGet] at hget
    cases hget
  | cons kv rest ih =>
    intro t hnd hget hsp
    obtain ⟨k, val⟩ := kv
    simp only [List.map_cons, List.nodup_cons] at hnd
    by_cases hks : k = "sprop-parameter-sets".toList
    · subst hks
      have hrest : fmtpGet rest "sprop-parameter-sets".toList = none :=
        fmtpGet_eq_none rest _ hnd.1
      have hgetrest : fmtpGet rest "packetization-mode".toList = some v := by
        rw [fmtpGet_cons_ne _ _ _ _ (fun e => hkeys e.symm)] at hget
        exact hget
      have hsprest : ∀ w, fmtpGet rest "sprop-parameter-sets".toList = some w →
          spropResult b64 w ≠ none := by
        intro w hw
        rw [hrest] at hw
        cases hw
      have hval := hsp val (fmtpGet_cons_eq _ _ _)
      cases hres : spropResult b64 val with
      | none => exact absurd hres hval
      | some o =>
        cases o with
        | none =>
          simp only [H264.unmarshalLoop, unmarshalEntry_sprop, hres]
          exact ih t hnd.2 hgetrest hsprest
        | some sp =>
          obtain ⟨sps, pps⟩ := sp
          simp only [H264.unmarshalLoop, unmarshalEntry_sprop, hres]
          exact ih _ hnd.2 hgetrest hsprest
    · have hsprest : ∀ w, fmtpGet rest "sprop-parameter-sets".toList = some w →
          spropResult b64 w ≠ none := by
        intro w hw
        exact hsp w (by rw [fmtpGet_cons_ne _ _ _ _ hks]; exact hw)
      by_cases hkm : k = "packetization-mode".toList
      · subst hkm
        rw [fmtpGet_cons_eq] at hget
        injection hget with hget
        subst hget
        simp only [H264.unmarshalLoop, unmarshalEntry_mode, hparse]
      · have hgetrest : fmtpGet rest "packetization-mode".toList = some v := by
          rw [fmtpGet_cons_ne _ _ _ _ hkm] at hget
          exact hget
        simp only [H264.unmarshalLoop, unmarshalEntry_other b64 t k val hks hkm]
        exact ih t hnd.2 hgetrest hsprest

/-- C12, as the claim states it, fails: the sample map has a
`sprop-parameter-sets` value that is a comma followed by a valid base64
string, and `unmarshal` returns the error of its `packetization-mode`, in
either order of iteration. -/
theorem unmarshal_leading_comma_invalid_mode :
    rfc4648.DecodeString "aM48gA==".toList = some [0x68, 0xCE, 0x3C, 0x80] ∧
    fmtpGet sampleInvalidModeFmtp "sprop-parameter-sets".toList
      = some (',' :: "aM48gA==".toList) ∧
    (H264.unmarshal rfc4648 {} 96 [] [] [] sampleInvalidModeFmtp).2
      = some (.invalidPacketizationMode "x".toList) ∧
    (H264.unmarshal rfc4648 {} 96 [] [] [] sampleInvalidModeFmtp.reverse).2
      = some (.invalidPacketizationMode "x".toList) := by
  refine ⟨?_, ?_, ?_, ?_⟩ <;> decide

/-- C12 (amended): a leading comma in `sprop-parameter-sets` is accepted, and
the only error left is that of `packetization-mode`.  For every string `p`
that base64 decodes, and every fmtp map (in any order of iteration) whose
`sprop-parameter-sets` value is a comma followed by `p`: `unmarshal` returns
no error exactly when the `packetization-mode` of the map, if it has one, is
an integer `strconv.ParseInt` accepts; it then leaves `SPS` the empty byte
string and `PPS` the decoding of `p`; and when the `packetization-mode` is no
such integer, the error returned is that of the packetization mode. -/
theorem unmarshal_accepts_leading_comma (b64 : Base64) (hlaw : b64.Lawful) (t : H264)
    (payloadType : Byte) (clock codec rtpmap : GoString) (fmtp : Fmtp) (p : GoString)
    (b : List Byte)
    (hvalid : b64.DecodeString p = some b)
    (hmap : (fmtp.map Prod.fst).Nodup)
    (hsprop : fmtpGet fmtp "sprop-parameter-sets".toList = some (',' :: p)) :
    ((t.unmarshal b64 payloadType clock codec rtpmap fmtp).2 = none ↔
      ∀ v, fmtpGet fmtp "packetization-mode".toList = some v → ParseInt v ≠ none) ∧
    ((∀ v, fmtpGet fmtp "packetization-mode".toList = some v → ParseInt v ≠ none) →
      (t.unmarshal b64 payloadType clock codec rtpmap fmtp).2 = none ∧
      (t.unmarshal b64 payloadType clock codec rtpmap fmtp).1.SPS = some [] ∧
      (t.unmarshal b64 payloadType clock codec rtpmap fmtp).1.PPS = some b ∧
      (t.unmarshal b64 payloadType clock codec rtpmap fmtp).1.PayloadTyp = payloadType) ∧
    (∀ v, fmtpGet fmtp "packetization-mode".toList = some v → ParseInt v = none →
      (t.unmarshal b64 payloadType clock codec rtpmap fmtp).2
        = some (.invalidPacketizationMode v)) := by
  have hres := spropResult_leading_comma b64 hlaw p b hvalid
  have hsp : ∀ w, fmtpGet fmtp "sprop-parameter-sets".toList = some w →
      spropResult b64 w ≠ none := by
    intro w hw
    rw [hsprop] at hw
    injection hw with hw
    rw [← hw, hres]
    simp
  have hbad : ∀ v, fmtpGet fmtp "packetization-mode".toList = some v → ParseInt v = none →
      (t.unmarshal b64 payloadType clock codec rtpmap fmtp).2
        = some (.invalidPacketizationMode v) := by
    intro v hv hparse
    simp only [H264.unmarshal]
    exact unmarshalLoop_invalid_mode b64 fmtp v hparse _ hmap hv hsp
  have hgood : (∀ v, fmtpGet fmtp "packetization-mode".toList = some v → ParseInt v ≠ none) →
      (t.unmarshal b64 payloadType clock codec rtpmap fmtp).2 = none ∧
      (t.unmarshal b64 payloadType clock codec rtpmap fmtp).1.SPS = some [] ∧
      (t.unmarshal b64 payloadType clock codec rtpmap fmtp).1.PPS = some b ∧
      (t.unmarshal b64 payloadType clock codec rtpmap fmtp).1.PayloadTyp = payloadType := by
    intro hmode
    have hloop := unmarshalLoop_eq b64 fmtp { t with PayloadTyp := payloadType } hmap hmode hsp
    simp only [H264.unmarshal, hloop, H264.afterFmtp, hsprop, Option.bind, hres, Option.join]
    exact ⟨trivial, rfl, rfl, trivial⟩
  refine ⟨⟨?_, fun hmode => (hgood hmode).1⟩, hgood, hbad⟩
  intro hnone v hv hparse
  rw [hbad v hv hparse] at hnone
  cases hnone

/-! ## Standard base64 is a lawful codec -/

theorem base64Value_char (v : Nat) (h : v < 64) : base64Value (base64Char v) = some v := by
  interval_cases v <;> decide

theorem base64Char_ne (v : Nat) (h : v < 64) : base64Char v ≠ '=' ∧ base64Char v ≠ ',' := by
  interval_cases v <;> decide

theorem base64Value_ne_comma (c : Char) (v : Nat) (h : base64Value c = some v) : c ≠ ',' := by
  intro hc
  subst hc
  have : base64Value ',' = none := by decide
  rw [this] at h
  cases h

theorem byte_ofNat_eq (b : Byte) (n : Nat) (h : n = b.val) : (Fin.ofNat n : Byte) = b := by
  apply Fin.ext
  simp only [Fin.ofNat, h]
  omega

theorem base64_roundtrip : ∀ b : List Byte, base64Decode (base64Encode b) = some b
  | [] => rfl
  | [b0] => by
    have h0 : b0.val / 4 < 64 := by omega
    have h1 : b0.val % 4 * 16 < 64 := by omega
    have e0 : (Fin.ofNat (b0.val / 4 * 4 + b0.val % 4) : Byte) = b0 :=
      byte_ofNat_eq _ _ (by omega)
    simp [base64Encode, base64Decode, base64Value_char _ h0, base64Value_char _ h1, e0]
  | [b0, b1] => by
    have h0 : b0.val / 4 < 64 := by omega
    have h1 : b0.val % 4 * 16 + b1.val / 16 < 64 := by omega
    have h2 : b1.val % 16 * 4 < 64 := by omega
    have e0 : (Fin.ofNat (b0.val / 4 * 4 + (b0.val % 4 * 16 + b1.val / 16) / 16) : Byte) = b0 :=
      byte_ofNat_eq _ _ (by omega)
    have e1 : (Fin.ofNat ((b0.val % 4 * 16 + b1.val / 16) % 16 * 16 + b1.val % 16) : Byte)
        = b1 := byte_ofNat_eq _ _ (by omega)
    simp [base64Encode, base64Decode, base64Value_char _ h0, base64Value_char _ h1,
      base64Value_char _ h2, (base64Char_ne _ h2).1, e0, e1]
  | b0 :: b1 :: b2 :: rest => by
    have ih := base64_roundtrip rest
    have h0 : b0.val / 4 < 64 := by omega
    have h1 : b0.val % 4 * 16 + b1.val / 16 < 64 := by omega
    have h2 : b1.val % 16 * 4 + b2.val / 64 < 64 := by omega
    have h3 : b2.val % 64 < 64 := by omega
    have e0 : (Fin.ofNat (b0.val / 4 * 4 + (b0.val % 4 * 16 + b1.val / 16) / 16) : Byte) = b0 :=
      byte_ofNat_eq _ _ (by omega)
    have e1 : (Fin.ofNat ((b0.val % 4 * 16 + b1.val / 16) % 16 * 16
        + (b1.val % 16 * 4 + b2.val / 64) / 4) : Byte) = b1 := byte_ofNat_eq _ _ (by omega)
    have e2 : (Fin.ofNat ((b1.val % 16 * 4 + b2.val / 64) % 4 * 64 + b2.val % 64) : Byte) = b2 :=
      byte_ofNat_eq _ _ (by omega)
    simp [base64Encode, base64Decode, base64Value_char _ h0, base64Value_char _ h1,
      base64Value_char _ h2, base64Value_char _ h3, (base64Char_ne _ h2).1,
      (base64Char_ne _ h3).1, e0, e1, e2, ih]

theorem base64Encode_no_comma : ∀ b : List Byte, ',' ∉ base64Encode b
  | [] => by simp [base64Encode]
  | [b0] => by
    have h0 : b0.val / 4 < 64 := by omega
    have h1 : b0.val % 4 * 16 < 64 := by omega
    have c0 := (base64Char_ne _ h0).2
    have c1 := (base64Char_ne _ h1).2
    simp only [base64Encode, List.mem_cons, List.mem_singleton, List.not_mem_nil, not_or]
    exact ⟨fun e => c0 e.symm, fun e => c1 e.symm, by decide, by decide, not_false⟩
  | [b0, b1] => by
    have h0 : b0.val / 4 < 64 := by omega
    have h1 : b0.val % 4 * 16 + b1.val / 16 < 64 := by omega
    have h2 : b1.val % 16 * 4 < 64 := by omega
    have c0 := (base64Char_ne _ h0).2
    have c1 := (base64Char_ne _ h1).2
    have c2 := (base64Char_ne _ h2).2
    simp only [base64Encode, List.mem_cons, List.mem_singleton, List.not_mem_nil, not_or]
    exact ⟨fun e => c0 e.symm, fun e => c1 e.symm, fun e => c2 e.symm, by decide, not_false⟩
  | b0 :: b1 :: b2 :: rest => by
    have ih := base64Encode_no_comma rest
    have h0 : b0.val / 4 < 64 := by omega
    have h1 : b0.val % 4 * 16 + b1.val / 16 < 64 := by omega
    have h2 : b1.val % 16 * 4 + b2.val / 64 < 64 := by omega
    have h3 : b2.val % 64 < 64 := by omega
    have c0 := (base64Char_ne _ h0).2
    have c1 := (base64Char_ne _ h1).2
    have c2 := (base64Char_ne _ h2).2
    have c3 := (base64Char_ne _ h3).2
    simp only [base64Encode, List.mem_cons, not_or]
    exact ⟨fun e => c0 e.symm, fun e => c1 e.symm, fun e => c2 e.symm, fun e => c3 e.symm, ih⟩

theorem base64Decode_no_comma : ∀ (p : GoString) (b : List Byte),
    base64Decode p = some b → ',' ∉ p
  | [], _, _ => by simp
  | [_], _, h => by simp [base64Decode] at h
  | [_, _], _, h => by simp [base64Decode] at h
  | [_, _, _], _, h => by simp [base64Decode] at h
  | c0 :: c1 :: c2 :: c3 :: rest, b, h => by
    have hpad : ('=' : Char) ≠ ',' := by decide
    simp only [base64Decode] at h
    cases hv0 : base64Value c0 with
    | none => simp [hv0] at h
    | some v0 =>
      cases hv1 : base64Value c1 with
      | none => simp [hv0, hv1] at h
      | some v1 =>
        have n0 := base64Value_ne_comma c0 v0 hv0
        have n1 := base64Value_ne_comma c1 v1 hv1
        simp only [hv0, hv1] at h
        by_cases h2 : c2 = '='
        · simp only [h2, if_true] at h
          by_cases h3 : c3 = '=' ∧ rest = []
          · obtain ⟨h3a, h3b⟩ := h3
            subst h2 h3a h3b
            simp only [List.mem_cons, List.not_mem_nil, not_or]
            exact ⟨fun e => n0 e.symm, fun e => n1 e.symm, fun e => hpad e.symm,
              fun e => hpad e.symm, not_false⟩
          · simp [h3] at h
        · simp only [h2, if_false] at h
          cases hv2 : base64Value c2 with
          | none => simp [hv2] at h
          | some v2 =>
            have n2 := base64Value_ne_comma c2 v2 hv2
            simp only [hv2] at h
            by_cases h3 : c3 = '='
            · simp only [h3, if_true] at h
              by_cases hr : rest = []
              · subst h3 hr
                simp only [List.mem_cons, List.not_mem_nil, not_or]
                exact ⟨fun e => n0 e.symm, fun e => n1 e.symm, fun e => n2 e.symm,
                  fun e => hpad e.symm, not_false⟩
              · simp [hr] at h
            · simp only [h3, if_false] at h
              cases hv3 : base64Value c3 with
              | none => simp [hv3] at h
              | some v3 =>
                have n3 := base64Value_ne_comma c3 v3 hv3
                simp only [hv3] at h
                cases hd : base64Decode rest with
                | none => simp [hd] at h
                | some bytes =>
                  have ih := base64Decode_no_comma rest bytes hd
                  simp only [List.mem_cons, not_or]
                  exact ⟨fun e => n0 e.symm, fun e => n1 e.symm, fun e => n2 e.symm,
                    fun e => n3 e.symm, ih⟩

/-- Standard base64 has the properties the format relies on. -/
theorem rfc4648_lawful : rfc4648.Lawful :=
  ⟨base64_roundtrip, base64Encode_no_comma, rfl, base64Decode_no_comma⟩

/-! ## `strconv.ParseInt` undoes `strconv.FormatInt` -/

theorem digitValue_digitChar (d : Nat) (h : d < 10) : digitValue (digitChar d) = some d := by
  interval_cases d <;> decide

theorem parseDigits_append (a b : GoString) : ∀ acc : Nat,
    parseDigits (a ++ b) acc = (parseDigits a acc).bind (parseDigits b) := by
  induction a with
  | nil => intro acc; rfl
  | cons c cs ih =>
    intro acc
    simp only [List.cons_append, parseDigits]
    cases digitValue c with
    | none => rfl
    | some d => exact ih _

theorem parseDigits_decimalDigits (fuel : Nat) : ∀ n : Nat, n ≤ fuel →
    parseDigits (decimalDigits fuel n) 0 = some n := by
  induction fuel with
  | zero =>
    intro n h
    have : n = 0 := by omega
    subst this
    rfl
  | succ fuel ih =>
    intro n h
    by_cases h0 : n = 0
    · subst h0
      simp [decimalDigits, parseDigits]
    · have hdiv : n / 10 ≤ fuel := by omega
      simp only [decimalDigits, h0, if_false, parseDigits_append, ih (n / 10) hdiv, Option.bind,
        parseDigits, digitValue_digitChar (n % 10) (by omega)]
      congr 1
      omega

theorem decimalDigits_ne_nil (fuel n : Nat) (h0 : n ≠ 0) : decimalDigits (fuel + 1) n ≠ [] := by
  simp [decimalDigits, h0]

theorem parseNat_formatNat (n : Nat) : parseNat (formatNat n) = some n := by
  by_cases h0 : n = 0
  · subst h0
    decide
  · obtain ⟨k, hk⟩ : ∃ k, n = k + 1 := ⟨n - 1, by omega⟩
    have hne : decimalDigits n n ≠ [] := by
      rw [hk]; exact decimalDigits_ne_nil k (k + 1) (by omega)
    simp only [formatNat, h0, if_false, parseNat, hne]
    exact parseDigits_decimalDigits n n (Nat.le_refl n)

theorem parseNat_head (c : Char) (cs : GoString) (n : Nat)
    (h : parseNat (c :: cs) = some n) : c ≠ '+' ∧ c ≠ '-' := by
  have hd : digitValue c ≠ none := by
    intro hnone
    simp [parseNat, parseDigits, hnone] at h
  constructor
  · intro e; subst e; exact hd (by decide)
  · intro e; subst e; exact hd (by decide)

/-- Parsing the decimal numeral of an `int64` gives the number back. -/
theorem ParseInt_FormatInt (i : Int) (hlo : -2 ^ 63 ≤ i) (hhi : i < 2 ^ 63) :
    ParseInt (FormatInt i) = some i := by
  have hparse := parseNat_formatNat i.natAbs
  by_cases hneg : i < 0
  · have hle : i.natAbs ≤ 2 ^ 63 := by omega
    have hval : -(i.natAbs : Int) = i := by omega
    have hminus : ¬ ('-' : Char) = '+' := by decide
    simp only [FormatInt, hneg, if_true, ParseInt, hminus, if_false, hparse, hle, hval]
  · have hlt : i.natAbs < 2 ^ 63 := by omega
    have hval : (i.natAbs : Int) = i := by omega
    simp only [FormatInt, hneg, if_false]
    cases hfmt : formatNat i.natAbs with
    | nil =>
      rw [hfmt] at hparse
      simp [parseNat] at hparse
    | cons c cs =>
      rw [hfmt] at hparse
      obtain ⟨hp, hm⟩ := parseNat_head c cs _ hparse
      simp only [ParseInt, hp, hm, if_false, hparse, hlt, if_true, hval]

/-! ## `H264.unmarshal` undoes `H264.Marshal` -/

theorem fmtpGet_eq_some_iff (m : Fmtp) (k v : GoString) (hnd : (m.map Prod.fst).Nodup) :
    fmtpGet m k = some v ↔ (k, v) ∈ m := by
  induction m with
  | nil => simp [fmtpGet]
  | cons kv rest ih =>
    obtain ⟨k1, v1⟩ := kv
    simp only [List.map_cons, List.nodup_cons] at hnd
    by_cases hk : k1 = k
    · subst hk
      rw [fmtpGet_cons_eq]
      constructor
      · intro h
        injection h with h
        subst h
        exact List.mem_cons_self _ _
      · intro h
        rcases List.mem_cons.mp h with h | h
        · injection h with _ h2
          rw [h2]
        · exact absurd (List.mem_map_of_mem Prod.fst h) hnd.1
    · rw [fmtpGet_cons_ne _ _ _ _ hk, ih hnd.2]
      constructor
      · exact fun h => List.mem_cons_of_mem _ h
      · intro h
        rcases List.mem_cons.mp h with h | h
        · injection h with h1 _
          exact absurd h1.symm hk
        · exact h

theorem fmtpGet_perm (m m2 : Fmtp) (k : GoString) (hp : m.Perm m2)
    (hnd : (m2.map Prod.fst).Nodup) : fmtpGet m k = fmtpGet m2 k := by
  have hnd1 : (m.map Prod.fst).Nodup := ((hp.map Prod.fst).nodup_iff).mpr hnd
  apply Option.ext
  intro v
  simp only [Option.mem_def]
  rw [fmtpGet_eq_some_iff m k v hnd1, fmtpGet_eq_some_iff m2 k v hnd]
  exact hp.mem_iff

theorem afterFmtp_congr (b64 : Base64) (t : H264) (m m2 : Fmtp)
    (hmode : fmtpGet m "packetization-mode".toList = fmtpGet m2 "packetization-mode".toList)
    (hsprop : fmtpGet m "sprop-parameter-sets".toList = fmtpGet m2 "sprop-parameter-sets".toList) :
    t.afterFmtp b64 m = t.afterFmtp b64 m2 := by
  simp only [H264.afterFmtp, hmode, hsprop]

theorem spropResult_join (b64 : Base64) (hlaw : b64.Lawful) (sps pps : List Byte) :
    spropResult b64 (stringsJoin ',' [b64.EncodeToString sps, b64.EncodeToString pps])
      = some (some (sps, pps)) := by
  obtain ⟨hround, hnocomma, _, _⟩ := hlaw
  have hjoin : stringsJoin ',' [b64.EncodeToString sps, b64.EncodeToString pps]
      = b64.EncodeToString sps ++ ',' :: b64.EncodeToString pps := rfl
  rw [hjoin]
  simp only [spropResult, stringsSplit_append ',' _ _ (hnocomma sps),
    stringsSplit_no_sep ',' _ (hnocomma pps), hround]

/-- The map `Marshal` returns: its keys are distinct, and what it holds under
the two keys `unmarshal` reads. -/
theorem marshal_fmtp (b64 : Base64) (f : H264) (hboth : f.SPS.isSome = f.PPS.isSome) :
    ((f.Marshal b64).2.map Prod.fst).Nodup ∧
    fmtpGet (f.Marshal b64).2 "packetization-mode".toList =
      (if f.PacketizationMode ≠ 0 then some (FormatInt f.PacketizationMode) else none) ∧
    fmtpGet (f.Marshal b64).2 "sprop-parameter-sets".toList =
      (match f.SPS, f.PPS with
        | some sps, some pps =>
          some (stringsJoin ',' [b64.EncodeToString sps, b64.EncodeToString pps])
        | _, _ => none) := by
  obtain ⟨pt, sps, pps, pm⟩ := f
  cases sps with
  | none =>
    cases pps with
    | some p => simp at hboth
    | none =>
      by_cases hpm : pm = 0
      · simp [H264.Marshal, fmtpSet, fmtpGet, hpm]
      · simp [H264.Marshal, fmtpSet, fmtpGet, hpm]
  | some s =>
    cases pps with
    | none => simp at hboth
    | some p =>
      by_cases hpm : pm = 0 <;> by_cases hlen : 4 ≤ s.length <;>
        simp [H264.Marshal, fmtpSet, fmtpGet, hpm, hlen, stringsJoin]

/-- C15: the SDP parameters of an H264 format round-trip.  For every format
`f` whose `SPS` and `PPS` are both set or both nil (and whose
`PacketizationMode` is a Go `int`), `unmarshal` on a zero-valued `H264` with
`f.PayloadTyp` and the fmtp map `f.Marshal()` returns, visited in any order,
returns no error and leaves exactly the fields of `f`.  So does any map that
agrees with the one `Marshal` returns on `packetization-mode` and
`sprop-parameter-sets`: the key `profile-level-id`, present or not, does not
affect the result. -/
theorem unmarshal_marshal_roundtrip (b64 : Base64) (hlaw : b64.Lawful) (f : H264)
    (clock codec rtpmap : GoString)
    (hrange : -2 ^ 63 ≤ f.PacketizationMode ∧ f.PacketizationMode < 2 ^ 63)
    (hboth : f.SPS.isSome = f.PPS.isSome) :
    (∀ fmtp : Fmtp, fmtp.Perm (f.Marshal b64).2 →
      H264.unmarshal b64 {} f.PayloadTyp clock codec rtpmap fmtp = (f, none)) ∧
    (∀ fmtp : Fmtp, (fmtp.map Prod.fst).Nodup →
      fmtpGet fmtp "packetization-mode".toList
        = fmtpGet (f.Marshal b64).2 "packetization-mode".toList →
      fmtpGet fmtp "sprop-parameter-sets".toList
        = fmtpGet (f.Marshal b64).2 "sprop-parameter-sets".toList →
      H264.unmarshal b64 {} f.PayloadTyp clock codec rtpmap fmtp = (f, none)) := by
  obtain ⟨hnd, hmode, hsprop⟩ := marshal_fmtp b64 f hboth
  have hparse := ParseInt_FormatInt f.PacketizationMode hrange.1 hrange.2
  have hagree : ∀ fmtp : Fmtp, (fmtp.map Prod.fst).Nodup →
      fmtpGet fmtp "packetization-mode".toList
        = fmtpGet (f.Marshal b64).2 "packetization-mode".toList →
      fmtpGet fmtp "sprop-parameter-sets".toList
        = fmtpGet (f.Marshal b64).2 "sprop-parameter-sets".toList →
      H264.unmarshal b64 {} f.PayloadTyp clock codec rtpmap fmtp = (f, none) := by
    intro fmtp hnd2 hm hs
    rw [hmode] at hm
    rw [hsprop] at hs
    obtain ⟨pt, sps, pps, pm⟩ := f
    simp only at hm hs hparse hboth
    have hloop := unmarshalLoop_eq b64 fmtp { ({} : H264) with PayloadTyp := pt } hnd2
      (by
        intro v hv
        rw [hm] at hv
        by_cases hpm : pm = 0
        · simp [hpm] at hv
        · simp only [ne_eq, hpm, not_false_eq_true, if_true] at hv
          injection hv with hv
          rw [← hv, hparse]
          simp)
      (by
        intro v hv
        rw [hs] at hv
        cases sps with
        | none => cases hv
        | some s =>
          cases pps with
          | none => cases hv
          | some p =>
            injection hv with hv
            rw [← hv, spropResult_join b64 hlaw s p]
            simp)
    simp only [H264.unmarshal, hloop, H264.afterFmtp, hm, hs]
    cases sps with
    | none =>
      cases pps with
      | some p => simp at hboth
      | none =>
        by_cases hpm : pm = 0
        · simp [hpm, Option.bind]
        · simp [hpm, Option.bind, hparse]
    | some s =>
      cases pps with
      | none => simp at hboth
      | some p =>
        by_cases hpm : pm = 0
        · simp [hpm, Option.bind, spropResult_join b64 hlaw s p, Option.join]
        · simp [hpm, Option.bind, hparse, spropResult_join b64 hlaw s p, Option.join]
  refine ⟨?_, hagree⟩
  intro fmtp hperm
  exact hagree fmtp (((hperm.map Prod.fst).nodup_iff).mpr hnd)
    (fmtpGet_perm fmtp _ _ hperm hnd) (fmtpGet_perm fmtp _ _ hperm hnd)

theorem unmarshal_accepts_leading_comma_witness :
    ((H264.unmarshal rfc4648 {} 96 [] [] [] sampleLeadingCommaFmtp).2 = none ∧
      (H264.unmarshal rfc4648 {} 96 [] [] [] sampleLeadingCommaFmtp).1.SPS = some [] ∧
      (H264.unmarshal rfc4648 {} 96 [] [] [] sampleLeadingCommaFmtp).1.PPS
        = some [0x68, 0xCE, 0x3C, 0x80]) ∧
    (H264.unmarshal rfc4648 {} 96 [] [] [] sampleInvalidModeFmtp).2
      = some (.invalidPacketizationMode "x".toList) := by
  have h := unmarshal_accepts_leading_comma rfc4648 rfc4648_lawful {} 96 [] [] []
    sampleLeadingCommaFmtp "aM48gA==".toList [0x68, 0xCE, 0x3C, 0x80]
    (by decide) (by decide) (by decide)
  have hbad := unmarshal_accepts_leading_comma rfc4648 rfc4648_lawful {} 96 [] [] []
    sampleInvalidModeFmtp "aM48gA==".toList [0x68, 0xCE, 0x3C, 0x80]
    (by decide) (by decide) (by decide)
  have hmode : ∀ v, fmtpGet sampleLeadingCommaFmtp "packetization-mode".toList = some v →
      ParseInt v ≠ none := by
    intro v hv
    have hget : fmtpGet sampleLeadingCommaFmtp "packetization-mode".toList
        = some "1".toList := by decide
    rw [hget] at hv
    injection hv with hv
    rw [← hv]
    decide
  exact ⟨⟨(h.2.1 hmode).1, (h.2.1 hmode).2.1, (h.2.1 hmode).2.2.1⟩,
    hbad.2.2 "x".toList (by decide) (by decide)⟩

theorem unmarshal_marshal_roundtrip_witness :
    (sampleH264.Marshal rfc4648).2 =
      [("packetization-mode".toList, "1".toList),
       ("sprop-parameter-sets".toList, "Z0IAHw==,aM48gA==".toList),
       ("profile-level-id".toList, "42001F".toList)] ∧
    H264.unmarshal rfc4648 {} 96 [] [] [] (sampleH264.Marshal rfc4648).2 = (sampleH264, none) ∧
    H264.unmarshal rfc4648 {} 96 [] [] []
        [("sprop-parameter-sets".toList, "Z0IAHw==,aM48gA==".toList),
         ("packetization-mode".toList, "1".toList)] = (sampleH264, none) := by
  have h := unmarshal_marshal_roundtrip rfc4648 rfc4648_lawful sampleH264 [] [] []
    (by decide) rfl
  exact ⟨by decide, h.1 _ (List.Perm.refl _), h.2 _ (by decide) (by decide) (by decide)⟩

end Gortsplib
